import Mathlib

/-!
# Parking lot: allocation, occupancy tracking and billing

A shallow embedding of `src/parking-lot.js`.

JavaScript objects are shared by reference and mutated in place, so the
embedding keeps the mutable objects in explicit stores:

* spot objects live in a heap (`List ParkingSpot`); a `SpotRef` is an index
  into it.  `floor.spots`, the per-size free lists and `ticket.spot` all hold
  such references, as in the source;
* ticket objects live in a ticket store; a `TicketRef` is an index into it;
* the lot's `floors` array is a list of floor records (the lot is the only
  holder of its floor objects);
* what the program writes to the console (display boards, payment processor)
  is appended to a log.

Every operation returns its outcome together with the state it leaves behind,
so that the mutations performed before a `throw` stay visible.

Timestamps are integers (milliseconds, as `Date.now()` yields).  The source
subtracts, divides and multiplies them in binary64; `calculateFeeBinary64`
computes the fee that way, `calculateFee` in exact integers, and
`calculateFeeBinary64_eq` shows the two are one function for timestamps less
than `2^53` milliseconds apart.
-/

namespace ParkingLot

/-! ## Enumerations -/

/-- The `ParkingSpotStatus` constants. -/
inductive ParkingSpotStatus
  | EMPTY
  | OCCUPIED
  deriving DecidableEq

/-- The `ParkingSpotType` constants. -/
inductive ParkingSpotType
  | SMALL
  | MEDIUM
  | LARGE
  deriving DecidableEq

/-- The `CarType` constants. -/
inductive CarType
  | HATCHBACK
  | SUV
  | MPV
  deriving DecidableEq

/-- Vehicles: the three subclasses of `Vehicle`, and `Plain` for an object that
is an instance of none of them (a bare `Vehicle`, or anything else). -/
inductive Vehicle
  | Motorcycle (registrationNumber color : String) (engineSize : Nat)
  | Car (registrationNumber color fastTag model fuelType : String) (type : CarType)
  | Bus (registrationNumber color : String) (capacity : Nat)
  | Plain (registrationNumber color : String)
  deriving DecidableEq

/-- What the program throws.  The first five are the `new Error(...)` messages
of the source; `TypeError` is the runtime error of reading a property of
`undefined`; `BadRef` marks a reference outside its store, which no JavaScript
value can be. -/
inductive Error
  | SpotOccupied
  | SpotEmpty
  | NotExited
  | InvalidVehicle
  | NoSpots
  | TypeError
  | BadRef
  deriving DecidableEq

/-! ## A record with one entry per spot type

The source keys a `Map` (and plain objects) by the three `ParkingSpotType`
values. -/

/-- One value for each of `SMALL`, `MEDIUM`, `LARGE`. -/
structure TypeMap (α : Type) where
  small : α
  medium : α
  large : α
  deriving DecidableEq

namespace TypeMap

variable {α β : Type}

/-- Lookup: `m.get(type)` / `m[type]`. -/
def get (m : TypeMap α) : ParkingSpotType → α
  | .SMALL => m.small
  | .MEDIUM => m.medium
  | .LARGE => m.large

/-- Store: `m.set(type, a)` / `m[type] = a`. -/
def set (m : TypeMap α) (t : ParkingSpotType) (a : α) : TypeMap α :=
  match t with
  | .SMALL => { m with small := a }
  | .MEDIUM => { m with medium := a }
  | .LARGE => { m with large := a }

/-- The map built by a `forEach` over `Object.values(ParkingSpotType)`. -/
def ofFn (f : ParkingSpotType → α) : TypeMap α :=
  ⟨f .SMALL, f .MEDIUM, f .LARGE⟩

end TypeMap

/-! ## Spots -/

/-- A `ParkingSpot` object. -/
structure ParkingSpot where
  id : Nat
  status : ParkingSpotStatus
  type : ParkingSpotType
  vehicle : Option Vehicle
  deriving DecidableEq

namespace ParkingSpot

/-- The constructor: `new ParkingSpot(id, type)`. -/
def new (id : Nat) (type : ParkingSpotType) : ParkingSpot :=
  { id := id, status := .EMPTY, type := type, vehicle := none }

/-- Method `parkVehicle(vehicle)`.  The argument is whatever the caller
passes — a vehicle object, or `null`/`undefined` (`none`) — and is stored as
it is. -/
def parkVehicle (s : ParkingSpot) (vehicle : Option Vehicle) : Except Error ParkingSpot :=
  if s.status ≠ .EMPTY then .error .SpotOccupied
  else .ok { s with vehicle := vehicle, status := .OCCUPIED }

/-- Method `unparkVehicle()`. -/
def unparkVehicle (s : ParkingSpot) : Except Error ParkingSpot :=
  if s.status ≠ .OCCUPIED then .error .SpotEmpty
  else .ok { s with vehicle := none, status := .EMPTY }

end ParkingSpot

/-- A reference to a spot object. -/
abbrev SpotRef := Nat

/-- The spot objects. -/
abbrev Heap := List ParkingSpot

/-! ## Console output -/

/-- One line written to the console. -/
inductive Event
  | display (counts : TypeMap (Option Nat))
  | payment (ticketId : Int) (amount : Int) (method : String)
  deriving DecidableEq

/-! ## Floors -/

/-- A `ParkingFloor` object. -/
structure ParkingFloor where
  id : Nat
  floorNumber : Int
  spots : List SpotRef
  availableSpotsByType : TypeMap (List SpotRef)
  deriving DecidableEq

namespace ParkingFloor

/-- The filter predicate of the constructor:
`s.type === type && s.status === ParkingSpotStatus.EMPTY`. -/
def isFree (heap : Heap) (type : ParkingSpotType) (r : SpotRef) : Bool :=
  match heap[r]? with
  | some s => decide (s.type = type) && decide (s.status = .EMPTY)
  | none => false

/-- The constructor: `new ParkingFloor(id, floorNumber, spots)`. -/
def new (heap : Heap) (id : Nat) (floorNumber : Int) (spots : List SpotRef) : ParkingFloor :=
  { id := id
    floorNumber := floorNumber
    spots := spots
    availableSpotsByType := TypeMap.ofFn fun type => spots.filter (isFree heap type) }

/-- Method `getAvailableCounts()`. -/
def getAvailableCounts (f : ParkingFloor) : TypeMap Nat :=
  TypeMap.ofFn fun type => (f.availableSpotsByType.get type).length

/-- The floor after its free list for `type` has been replaced by `free`: the
effect of an in-place `shift()` or `push(...)` on
`availableSpotsByType.get(type)`. -/
def setAvailable (f : ParkingFloor) (type : ParkingSpotType) (free : List SpotRef) :
    ParkingFloor :=
  { f with availableSpotsByType := f.availableSpotsByType.set type free }

/-- The line `updateDisplayBoard()` prints. -/
def displayLine (f : ParkingFloor) : Event :=
  .display (TypeMap.ofFn fun type => some (f.getAvailableCounts.get type))

end ParkingFloor

/-- Method `ParkingLot.getOverallAvailability()`: `total` starts as `{}`, and
each floor adds its counts with `total[type] = (total[type] || 0) + counts[type]`. -/
def getOverallAvailability (floors : List ParkingFloor) : TypeMap (Option Nat) :=
  floors.foldl
    (fun total floor =>
      let counts := floor.getAvailableCounts
      TypeMap.ofFn fun type => some ((total.get type).getD 0 + counts.get type))
    ⟨none, none, none⟩

/-! ## Tickets -/

/-- A `Ticket` object. -/
structure Ticket where
  id : Int
  vehicle : Vehicle
  spot : SpotRef
  entryTime : Int
  exitTime : Option Int
  fee : Int
  deriving DecidableEq

/-- The `rates` table of `calculateFee`. -/
def rates : ParkingSpotType → Int
  | .SMALL => 10
  | .MEDIUM => 50
  | .LARGE => 100

/-- The ceiling `⌈a / b⌉` of the exact quotient, for an integer `a` and a
positive integer `b`.  `Math.ceil(a / b)` computes in binary64 (`jsCeilDiv`)
and yields this value for `b = 3600000` whenever `|a| < 2^53`
(`jsCeilDiv_eq`); beyond that it may not. -/
def ceilDiv (a b : Int) : Int := -((-a) / b)

namespace Ticket

/-- The constructor: `new Ticket(id, vehicle, spot, entryTime)`. -/
def new (id : Int) (vehicle : Vehicle) (spot : SpotRef) (entryTime : Int) : Ticket :=
  { id := id, vehicle := vehicle, spot := spot, entryTime := entryTime, exitTime := none, fee := 0 }

/-- The test `!this.exitTime`: true of `null` and of `0`. -/
def exitTimeFalsy (t : Ticket) : Bool :=
  match t.exitTime with
  | none => true
  | some x => decide (x = 0)

/-- Method `calculateFee()`, read in exact integers; `spotType` is
`this.spot.type`.  Returns the fee and the ticket with its `fee` field
written.  The program computes the same lines in binary64
(`calculateFeeBinary64`); the two agree whenever entry and exit are less than
`2^53` milliseconds apart (`calculateFeeBinary64_eq`), and statements about
the value of a fee are made under that bound. -/
def calculateFee (t : Ticket) (spotType : ParkingSpotType) : Except Error (Int × Ticket) :=
  if t.exitTimeFalsy then .error .NotExited
  else
    let duration := ceilDiv (t.exitTime.getD 0 - t.entryTime) (1000 * 60 * 60)
    let fee := max (rates spotType) (duration * rates spotType)
    let fee := if duration * 60 ≤ 60 then rates spotType else fee
    .ok (fee, { t with fee := fee })

end Ticket

/-- A reference to a ticket object. -/
abbrev TicketRef := Nat

/-! ## The lot and its panels -/

/-- The program state: the spot objects, the lot's `floors` array, the ticket
objects handed out so far, and the console output. -/
structure World where
  heap : Heap
  floors : List ParkingFloor
  tickets : List Ticket
  log : List Event
  deriving DecidableEq

/-- The size a vehicle needs: the `instanceof` chain of `checkIn`. -/
def requiredType : Vehicle → Option ParkingSpotType
  | .Motorcycle .. => some .SMALL
  | .Car .. => some .MEDIUM
  | .Bus .. => some .LARGE
  | .Plain .. => none

/-- The comparator of `floors.sort((a, b) => a.floorNumber - b.floorNumber)`. -/
def floorLE (a b : ParkingFloor) : Prop := a.floorNumber ≤ b.floorNumber

instance : DecidableRel floorLE := fun a b => Int.decLe a.floorNumber b.floorNumber

/-- The in-place `floors.sort(...)`: `Array.prototype.sort` is stable, and the
stable ascending arrangement is the one insertion sort produces. -/
def sortFloors (floors : List ParkingFloor) : List ParkingFloor :=
  floors.insertionSort floorLE

/-- What the `for` loop of `checkIn` leaves behind. -/
structure Scan where
  result : Except Error (Option SpotRef)
  floors : List ParkingFloor
  heap : Heap
  log : List Event

/-- The `for (const floor of ...)` loop of `EntryPanel.checkIn`. -/
def scanFloors (vehicle : Vehicle) (heap : Heap) (log : List Event) :
    List ParkingFloor → Scan
  | [] => { result := .ok none, floors := [], heap := heap, log := log }
  | floor :: rest =>
    match requiredType vehicle with
    | none => { result := .error .InvalidVehicle, floors := floor :: rest, heap := heap, log := log }
    | some type =>
      match floor.availableSpotsByType.get type with
      | [] =>
        let r := scanFloors vehicle heap log rest
        { r with floors := floor :: r.floors }
      | spot :: available =>
        let floor1 := floor.setAvailable type available
        match heap[spot]? with
        | none => { result := .error .BadRef, floors := floor1 :: rest, heap := heap, log := log }
        | some s =>
          match s.parkVehicle (some vehicle) with
          | .error e => { result := .error e, floors := floor1 :: rest, heap := heap, log := log }
          | .ok s1 =>
            { result := .ok (some spot)
              floors := floor1 :: rest
              heap := heap.set spot s1
              log := log ++ [floor1.displayLine] }

/-- Method `EntryPanel.checkIn(vehicle)`.  `idNow` and `entryNow` are the two
readings of `Date.now()` in `new Ticket(Date.now(), vehicle, spot, Date.now())`.
The new ticket object is put in the ticket store and its reference returned. -/
def checkIn (w : World) (idNow entryNow : Int) (vehicle : Vehicle) :
    Except Error TicketRef × World :=
  let r := scanFloors vehicle w.heap w.log (sortFloors w.floors)
  let w1 : World := { w with floors := r.floors, heap := r.heap, log := r.log }
  match r.result with
  | .error e => (.error e, w1)
  | .ok none => (.error .NoSpots, w1)
  | .ok (some spot) =>
    (.ok w1.tickets.length,
      { w1 with
        tickets := w1.tickets ++ [Ticket.new idNow vehicle spot entryNow]
        log := w1.log ++ [.display (getOverallAvailability w1.floors)] })

/-- The two statements
`floor = floors.find(f => f.spots.includes(spot))` and
`floor.availableSpotsByType.get(type).push(spot)` of `checkOut`: the floors
with the found floor updated, and that floor; `none` when `find` yields
`undefined`. -/
def releaseSpot (spot : SpotRef) (type : ParkingSpotType) :
    List ParkingFloor → Option (List ParkingFloor × ParkingFloor)
  | [] => none
  | f :: rest =>
    if spot ∈ f.spots then
      let f1 := f.setAvailable type (f.availableSpotsByType.get type ++ [spot])
      some (f1 :: rest, f1)
    else
      match releaseSpot spot type rest with
      | none => none
      | some (fs, g) => some (f :: fs, g)

/-- The object `checkOut` returns. -/
structure Receipt where
  fee : Int
  status : String
  deriving DecidableEq

/-- Method `ExitPanel.checkOut(ticket, paymentMethod)`; `now` is the reading of
`Date.now()`. -/
def checkOut (w : World) (ticket : TicketRef) (now : Int) (paymentMethod : String) :
    Except Error Receipt × World :=
  match w.tickets[ticket]? with
  | none => (.error .BadRef, w)
  | some t =>
    let t1 : Ticket := { t with exitTime := some now }
    let w1 : World := { w with tickets := w.tickets.set ticket t1 }
    match w1.heap[t1.spot]? with
    | none => (.error .BadRef, w1)
    | some s =>
      match t1.calculateFee s.type with
      | .error e => (.error e, w1)
      | .ok (fee, t2) =>
        let w2 : World :=
          { w1 with
            tickets := w1.tickets.set ticket t2
            log := w1.log ++ [.payment t2.id fee paymentMethod] }
        match s.unparkVehicle with
        | .error e => (.error e, w2)
        | .ok s1 =>
          let w3 : World := { w2 with heap := w2.heap.set t2.spot s1 }
          match releaseSpot t2.spot s1.type w3.floors with
          | none => (.error .TypeError, w3)
          | some (floors1, floor1) =>
            (.ok { fee := fee, status := "PAID" },
              { w3 with
                floors := floors1
                log := w3.log ++ [floor1.displayLine, .display (getOverallAvailability floors1)] })

/-! ## The example usage of the source -/

/-- The three spot objects of the example. -/
def exampleHeap : Heap :=
  [ParkingSpot.new 1 .SMALL, ParkingSpot.new 2 .MEDIUM, ParkingSpot.new 3 .LARGE]

/-- The example lot: one floor numbered 1 over the three spots. -/
def exampleWorld : World :=
  { heap := exampleHeap
    floors := [ParkingFloor.new exampleHeap 1 1 [0, 1, 2]]
    tickets := []
    log := [] }

/-- The example vehicle. -/
def exampleVehicle : Vehicle :=
  .Car "ABC123" "Blue" "FT123" "Sedan" "Petrol" .SUV

/-! ## Sequences of operations -/

/-- A call on one of the lot's panels. -/
inductive Op
  | checkIn (idNow entryNow : Int) (vehicle : Vehicle)
  | checkOut (ticket : TicketRef) (now : Int) (paymentMethod : String)
  deriving DecidableEq

/-- The state one call leaves behind, whether it returns or throws. -/
def step (w : World) : Op → World
  | .checkIn idNow entryNow vehicle => (checkIn w idNow entryNow vehicle).2
  | .checkOut ticket now paymentMethod => (checkOut w ticket now paymentMethod).2

/-- The state a sequence of calls leaves behind. -/
def run (w : World) (ops : List Op) : World :=
  ops.foldl step w

/-- The arguments of one `new ParkingFloor(id, floorNumber, spots)`. -/
structure FloorArgs where
  id : Nat
  floorNumber : Int
  spots : List SpotRef
  deriving DecidableEq

/-- A freshly built lot: `new ParkingLot(id, name, floors)` over floors built
by the `ParkingFloor` constructor from the given spot objects; no ticket has
been issued and nothing has been printed. -/
def newLot (heap : Heap) (floors : List FloorArgs) : World :=
  { heap := heap
    floors := floors.map fun a => ParkingFloor.new heap a.id a.floorNumber a.spots
    tickets := []
    log := [] }

/-- One successful check-in of a sequence: the state before, the ticket
issued, the state after. -/
structure CheckInStep where
  before : World
  ticket : Ticket
  after : World
  deriving DecidableEq

/-- A sequence of check-ins with no check-out in between, given by the clock
readings and the vehicle of each; `none` as soon as one of them throws. -/
def checkInSeq (w : World) : List (Int × Int × Vehicle) → Option (List CheckInStep)
  | [] => some []
  | (idNow, entryNow, vehicle) :: rest =>
    match checkIn w idNow entryNow vehicle with
    | (.error _, _) => none
    | (.ok k, w1) =>
      match w1.tickets[k]? with
      | none => none
      | some t =>
        match checkInSeq w1 rest with
        | none => none
        | some steps => some ({ before := w, ticket := t, after := w1 } :: steps)

/-! ## Predicates on states -/

/-- All spot references held by the lot's floors. -/
def allSpots (w : World) : List SpotRef :=
  w.floors.flatMap fun f => f.spots

/-- The spot at `r` has the given type and is `EMPTY`. -/
def FreeAt (heap : Heap) (type : ParkingSpotType) (r : SpotRef) : Prop :=
  ∃ s, heap[r]? = some s ∧ s.type = type ∧ s.status = .EMPTY

/-- The status of the spot at `r`. -/
def statusAt (heap : Heap) (r : SpotRef) : Option ParkingSpotStatus :=
  heap[r]?.map fun s => s.status

/-- The vehicle reference of the spot at `r`. -/
def vehicleAt (heap : Heap) (r : SpotRef) : Option (Option Vehicle) :=
  heap[r]?.map fun s => s.vehicle

/-- The free lists agree with the spots: for every floor and size, the free
list has no duplicates and holds exactly the floor's spots of that type
that are `EMPTY`. -/
def IndexConsistent (w : World) : Prop :=
  ∀ f ∈ w.floors, ∀ type : ParkingSpotType,
    (f.availableSpotsByType.get type).Nodup ∧
    ∀ r, r ∈ f.availableSpotsByType.get type ↔ (r ∈ f.spots ∧ FreeAt w.heap type r)

/-- The free lists of one floor agree with the spots. -/
def FloorIndexOK (heap : Heap) (f : ParkingFloor) : Prop :=
  ∀ type : ParkingSpotType,
    (f.availableSpotsByType.get type).Nodup ∧
    ∀ r, r ∈ f.availableSpotsByType.get type ↔ (r ∈ f.spots ∧ FreeAt heap type r)

/-- A well-formed lot state: the floors hold references to existing, pairwise
distinct spot objects, the free lists agree with the spots, and every ticket
is for a spot of the lot. -/
structure WellFormed (w : World) : Prop where
  refs : ∀ r ∈ allSpots w, r < w.heap.length
  distinct : (allSpots w).Nodup
  index : IndexConsistent w
  tickets : ∀ t ∈ w.tickets, t.spot ∈ allSpots w

/-- The number of `EMPTY` spots of a type in the lot: the spot objects held
by the floors, each counted once. -/
def emptyCount (w : World) (type : ParkingSpotType) : Nat :=
  ((allSpots w).dedup.filter (ParkingFloor.isFree w.heap type)).length

/-- The sum over the floors of `getAvailableCounts()[type]`. -/
def sumFloorCounts (floors : List ParkingFloor) (type : ParkingSpotType) : Nat :=
  (floors.map fun f => f.getAvailableCounts.get type).sum

/-! ## The fee rule in the words of the specification -/

/-- The base rate of a size class. -/
def baseRate : ParkingSpotType → Int
  | .SMALL => 10
  | .MEDIUM => 50
  | .LARGE => 100

/-- Parked minutes: the duration in milliseconds, rounded up to minutes. -/
def durationMinutes (entryTime exitTime : Int) : Int :=
  ceilDiv (exitTime - entryTime) 60000

/-- Parked hours: the parked minutes, rounded up to hours. -/
def durationHours (entryTime exitTime : Int) : Int :=
  ceilDiv (durationMinutes entryTime exitTime) 60

/-- The fee: the larger of the base rate and hours times the base rate. -/
def specFee (size : ParkingSpotType) (entryTime exitTime : Int) : Int :=
  max (baseRate size) (durationHours entryTime exitTime * baseRate size)

/-! ## Auxiliary states -/

/-- The state after the spot `r`, found at the head of the free list of floor
`f`, has been given to `v`. -/
def assigned (w : World) (idNow entryNow : Int) (v : Vehicle) (ty : ParkingSpotType)
    (l1 : List ParkingFloor) (f : ParkingFloor) (l2 : List ParkingFloor) (r : SpotRef)
    (rest : List SpotRef) (s : ParkingSpot) : World :=
  { heap := w.heap.set r { s with vehicle := some v, status := .OCCUPIED }
    floors := l1 ++ f.setAvailable ty rest :: l2
    tickets := w.tickets ++ [Ticket.new idNow v r entryNow]
    log := w.log ++ [(f.setAvailable ty rest).displayLine]
      ++ [.display (getOverallAvailability (l1 ++ f.setAvailable ty rest :: l2))] }

/-- The state after `checkOut` has stamped the ticket `t` (at `k`) with the
exit time and the fee and has called the payment processor. -/
def charged (w : World) (k : TicketRef) (t : Ticket) (now fee : Int) (method : String) : World :=
  { w with
    tickets := w.tickets.set k { t with exitTime := some now, fee := fee }
    log := w.log ++ [.payment t.id fee method] }

/-- The state after `checkOut` has, in addition, emptied the ticket's spot
(holding `s` before) and pushed it on the free list of floor `f`. -/
def released (w : World) (k : TicketRef) (t : Ticket) (now fee : Int) (method : String)
    (s : ParkingSpot) (l1 : List ParkingFloor) (f : ParkingFloor) (l2 : List ParkingFloor) :
    World :=
  { heap := w.heap.set t.spot { s with vehicle := none, status := .EMPTY }
    floors :=
      l1 ++ f.setAvailable s.type (f.availableSpotsByType.get s.type ++ [t.spot]) :: l2
    tickets := w.tickets.set k { t with exitTime := some now, fee := fee }
    log := w.log ++ [.payment t.id fee method]
      ++ [(f.setAvailable s.type (f.availableSpotsByType.get s.type ++ [t.spot])).displayLine,
          .display (getOverallAvailability
            (l1 ++ f.setAvailable s.type (f.availableSpotsByType.get s.type ++ [t.spot]) :: l2))] }

/-- The type of the spot at `r`. -/
def typeAt (heap : Heap) (r : SpotRef) : Option ParkingSpotType :=
  heap[r]?.map fun s => s.type

/-! ## Sample lots -/

/-- Two MEDIUM spots, the first one occupied. -/
def twoFloorHeap : Heap :=
  [{ id := 11, status := .OCCUPIED, type := .MEDIUM,
     vehicle := some (.Car "OLD1" "Red" "FT1" "Coupe" "Diesel" .HATCHBACK) },
   ParkingSpot.new 21 .MEDIUM]

/-- A lot given its floors in the order floor 2, floor 1; floor 1 holds the
occupied spot and floor 2 the free one. -/
def twoFloorWorld : World :=
  newLot twoFloorHeap
    [{ id := 2, floorNumber := 2, spots := [1] }, { id := 1, floorNumber := 1, spots := [0] }]

/-- What every call keeps: a ticket stays at its place in the store with its
spot, vehicle, id and entry time; a spot keeps its type; the lot keeps its
number of floors. -/
def Continues (w w1 : World) : Prop :=
  (∀ (j : TicketRef) (t : Ticket), w.tickets[j]? = some t →
      ∃ t1 : Ticket, w1.tickets[j]? = some t1 ∧ t1.spot = t.spot ∧ t1.vehicle = t.vehicle
        ∧ t1.id = t.id ∧ t1.entryTime = t.entryTime)
    ∧ (∀ q : SpotRef, typeAt w1.heap q = typeAt w.heap q)
    ∧ w1.floors.length = w.floors.length

/-- Three free spots: two MEDIUM, one SMALL. -/
def threeSpotHeap : Heap :=
  [ParkingSpot.new 1 .MEDIUM, ParkingSpot.new 2 .MEDIUM, ParkingSpot.new 3 .SMALL]

/-- A lot over `threeSpotHeap`, floors supplied as floor 2, floor 1. -/
def threeSpotWorld : World :=
  newLot threeSpotHeap
    [{ id := 2, floorNumber := 2, spots := [1] }, { id := 1, floorNumber := 1, spots := [0, 2] }]

/-- A second car. -/
def otherVehicle : Vehicle :=
  .Car "DEF456" "Green" "FT456" "Estate" "Diesel" .MPV

/-- The example lot after the example Car has checked in and, ten minutes
later, checked out. -/
def closedOnce : World :=
  (checkOut (checkIn exampleWorld 1700000000000 1700000000000 exampleVehicle).2 0
    1700000600000 "CARD").2

/-- The lot `closedOnce` after a second car has checked in (it gets the spot
the first one left). -/
def reassigned : World :=
  (checkIn closedOnce 1700000700000 1700000700000 otherVehicle).2

/-! ## Direct calls on spots and tickets -/

/-- The call `spot.parkVehicle(vehicle)` on the spot object at `r`: the outcome
and the state after.  The `throw` precedes every assignment, so a throwing
call leaves the state as it was. -/
def parkAt (w : World) (r : SpotRef) (vehicle : Option Vehicle) : Except Error Unit × World :=
  match w.heap[r]? with
  | none => (.error .BadRef, w)
  | some s =>
    match s.parkVehicle vehicle with
    | .error e => (.error e, w)
    | .ok s1 => (.ok (), { w with heap := w.heap.set r s1 })

/-- The call `spot.unparkVehicle()` on the spot object at `r`: the outcome and
the state after. -/
def unparkAt (w : World) (r : SpotRef) : Except Error Unit × World :=
  match w.heap[r]? with
  | none => (.error .BadRef, w)
  | some s =>
    match s.unparkVehicle with
    | .error e => (.error e, w)
    | .ok s1 => (.ok (), { w with heap := w.heap.set r s1 })

/-- The call `ticket.calculateFee()` as a step on the ticket object: the
outcome and the ticket after.  The `throw` precedes the assignments to
`this.fee`, so a throwing call leaves the ticket as it was. -/
def Ticket.calculateFeeStep (t : Ticket) (spotType : ParkingSpotType) :
    Except Error Int × Ticket :=
  match t.calculateFee spotType with
  | .error e => (.error e, t)
  | .ok (fee, t1) => (.ok fee, t1)

/-- A call on a spot object or on one of the panels. -/
inductive Call
  | parkVehicle (spot : SpotRef) (vehicle : Option Vehicle)
  | unparkVehicle (spot : SpotRef)
  | panel (op : Op)
  deriving DecidableEq

/-- Whether the call is a `parkVehicle` given no vehicle (`null`/`undefined`). -/
def Call.parksNothing : Call → Bool
  | .parkVehicle _ none => true
  | _ => false

/-- The state one such call leaves behind. -/
def stepCall (w : World) : Call → World
  | .parkVehicle r vehicle => (parkAt w r vehicle).2
  | .unparkVehicle r => (unparkAt w r).2
  | .panel op => step w op

/-- The state a sequence of such calls leaves behind. -/
def runCalls (w : World) (calls : List Call) : World :=
  calls.foldl stepCall w

/-- The spot invariant: `OCCUPIED` exactly when a vehicle is referenced. -/
def SpotInvariant (s : ParkingSpot) : Prop :=
  s.status = .OCCUPIED ↔ s.vehicle ≠ none

/-- Every spot on a free list has the type the list is for. -/
def TypedIndex (w : World) : Prop :=
  ∀ f ∈ w.floors, ∀ (type : ParkingSpotType), ∀ r ∈ f.availableSpotsByType.get type,
    typeAt w.heap r = some type

/-- Whether the call is a `checkOut` of the ticket at `k`. -/
def Op.isCheckOutOf (k : TicketRef) : Op → Bool
  | .checkIn _ _ _ => false
  | .checkOut ticket _ _ => decide (ticket = k)

/-- A lot with no floors. -/
def emptyLot : World :=
  newLot [] []

/-! ## Line 153 in binary64

JavaScript numbers are IEEE 754 binary64 values, and `-`, `/` and `*` round
their exact result to the nearest such value, ties to even.  The definitions
below compute `calculateFee` that way for timestamps that are integers (and
far below the overflow threshold `2^1024`); `Ticket.calculateFee` above is
the exact-integer reading of the same lines, and the two agree whenever the
timestamps are less than `2^53` milliseconds apart. -/

/-- The integer nearest to `num / den` (for `den > 0`), ties to even. -/
def roundHalfEven (num den : Nat) : Nat :=
  let q := num / den
  let r := num % den
  if 2 * r < den then q
  else if den < 2 * r then q + 1
  else if q % 2 = 0 then q else q + 1

/-- Binary digits of `n`, counted with at most `fuel` halvings. -/
def bitsAux : Nat → Nat → Nat
  | 0, _ => 0
  | fuel + 1, n => if n = 0 then 0 else bitsAux fuel (n / 2) + 1

/-- The number of binary digits of `n`. -/
def bitLength (n : Nat) : Nat :=
  bitsAux n n

/-- The binary64 value nearest to the natural number `n`: `n` itself below
`2^53`, and `n` rounded to 53 significant bits from there on. -/
def roundNat (n : Nat) : Nat :=
  if n < 2 ^ 53 then n
  else
    let shift := bitLength n - 53
    roundHalfEven n (2 ^ shift) * 2 ^ shift

/-- The binary64 value nearest to the integer `z`. -/
def roundInt (z : Int) : Int :=
  if 0 ≤ z then (roundNat z.natAbs : Int) else -(roundNat z.natAbs : Int)

/-- The difference `a - b` of two integer-valued numbers, as `-` computes it. -/
def jsSub (a b : Int) : Int :=
  roundInt (a - b)

/-- The product `a * b` of two integer-valued numbers, as `*` computes it. -/
def jsMul (a b : Int) : Int :=
  roundInt (a * b)

/-- The exponent of the binary64 quotient `n / b` (for `n, b > 0`):
`⌊log2 (n / b)⌋ - 52`, so that the quotient is `mantissa * 2 ^ exponent` with
`2^52 ≤ mantissa ≤ 2^53`. -/
def quotExponent (n b : Nat) : Int :=
  let t : Int := (bitLength n : Int) - (bitLength b : Int)
  let floorLog : Int := if b * 2 ^ t.toNat ≤ n * 2 ^ (-t).toNat then t else t - 1
  floorLog - 52

/-- The mantissa of the binary64 quotient `n / b`. -/
def quotMantissa (n b : Nat) : Nat :=
  roundHalfEven (n * 2 ^ (-(quotExponent n b)).toNat) (b * 2 ^ (quotExponent n b).toNat)

/-- `Math.ceil` of the binary64 quotient `n / b`, for `n, b > 0`. -/
def ceilQuot (n b : Nat) : Nat :=
  if 0 ≤ quotExponent n b then quotMantissa n b * 2 ^ (quotExponent n b).toNat
  else
    (quotMantissa n b + 2 ^ (-(quotExponent n b)).toNat - 1) / 2 ^ (-(quotExponent n b)).toNat

/-- `Math.floor` of the binary64 quotient `n / b`, for `n, b > 0`. -/
def floorQuot (n b : Nat) : Nat :=
  if 0 ≤ quotExponent n b then quotMantissa n b * 2 ^ (quotExponent n b).toNat
  else quotMantissa n b / 2 ^ (-(quotExponent n b)).toNat

/-- The value of `Math.ceil(a / b)` as JavaScript computes it, for an
integer-valued number `a` and a positive integer `b`. -/
def jsCeilDiv (a : Int) (b : Nat) : Int :=
  if a = 0 then 0
  else if 0 < a then (ceilQuot a.natAbs b : Int)
  else -(floorQuot a.natAbs b : Int)

/-- Method `calculateFee()` with every arithmetic step rounded as binary64
rounds it. -/
def Ticket.calculateFeeBinary64 (t : Ticket) (spotType : ParkingSpotType) :
    Except Error (Int × Ticket) :=
  if t.exitTimeFalsy then .error .NotExited
  else
    let duration := jsCeilDiv (jsSub (t.exitTime.getD 0) t.entryTime) (1000 * 60 * 60)
    let fee := max (rates spotType) (jsMul duration (rates spotType))
    let fee := if jsMul duration 60 ≤ 60 then rates spotType else fee
    .ok (fee, { t with fee := fee })

/-- A ticket on a MEDIUM spot whose entry and exit lie `2^53` milliseconds and
more apart: both timestamps are integers a binary64 number holds exactly. -/
def farApartTicket : Ticket :=
  { id := 1, vehicle := exampleVehicle, spot := 1, entryTime := -4680000000000000,
    exitTime := some 4680000000000001, fee := 0 }

/-! ## Fees -/

theorem ceilDiv_ceilDiv (a : Int) :
    ceilDiv (ceilDiv a 60000) 60 = ceilDiv a (1000 * 60 * 60) := by
  unfold ceilDiv
  omega

theorem rates_eq_baseRate (s : ParkingSpotType) : rates s = baseRate s := by
  cases s <;> rfl

theorem rates_pos (s : ParkingSpotType) : 0 < rates s := by
  cases s <;> decide

theorem calculateFee_eq (t : Ticket) (s : ParkingSpotType) (x : Int)
    (hx : t.exitTime = some x) (hne : x ≠ 0) :
    t.calculateFee s
      = .ok (specFee s t.entryTime x, { t with fee := specFee s t.entryTime x }) := by
  have hf : t.exitTimeFalsy = false := by simp [Ticket.exitTimeFalsy, hx, hne]
  have hpos := rates_pos s
  have hd : ceilDiv (x - t.entryTime) (1000 * 60 * 60) = durationHours t.entryTime x := by
    rw [durationHours, durationMinutes, ceilDiv_ceilDiv]
  have hfee : (if ceilDiv (x - t.entryTime) (1000 * 60 * 60) * 60 ≤ 60 then rates s
        else max (rates s) (ceilDiv (x - t.entryTime) (1000 * 60 * 60) * rates s))
      = specFee s t.entryTime x := by
    rw [hd, specFee, ← rates_eq_baseRate]
    split
    · rename_i h
      have h1 : durationHours t.entryTime x ≤ 1 := by omega
      have : durationHours t.entryTime x * rates s ≤ rates s := by nlinarith
      rw [max_eq_left this]
    · rfl
  unfold Ticket.calculateFee
  rw [if_neg (by simp [hf]), hx]
  simp only [Option.getD_some]
  rw [hfee]

theorem specFee_of_le_sixty (s : ParkingSpotType) (entryTime exitTime : Int)
    (h : durationMinutes entryTime exitTime ≤ 60) :
    specFee s entryTime exitTime = baseRate s := by
  have h1 : durationHours entryTime exitTime ≤ 1 := by
    unfold durationHours ceilDiv
    omega
  have hpos : 0 < baseRate s := by cases s <;> decide
  have : durationHours entryTime exitTime * baseRate s ≤ baseRate s := by nlinarith
  rw [specFee, max_eq_left this]

/-! ## Where binary64 is exact -/

theorem bitsAux_le (fuel : Nat) : ∀ n k : Nat, n < 2 ^ k → bitsAux fuel n ≤ k := by
  induction fuel with
  | zero =>
    intro n k _
    simp [bitsAux]
  | succ fuel ih =>
    intro n k hn
    unfold bitsAux
    by_cases h0 : n = 0
    · simp [h0]
    · rw [if_neg h0]
      cases k with
      | zero =>
        simp at hn
        exact absurd hn h0
      | succ k =>
        have : n / 2 < 2 ^ k := by
          rw [Nat.pow_succ] at hn
          omega
        have := ih (n / 2) k this
        omega

theorem bitLength_le {n k : Nat} (h : n < 2 ^ k) : bitLength n ≤ k :=
  bitsAux_le n n k h

theorem roundNat_of_lt {n : Nat} (h : n < 2 ^ 53) : roundNat n = n := by
  unfold roundNat
  rw [if_pos h]

theorem roundInt_of_lt {z : Int} (h : z.natAbs < 2 ^ 53) : roundInt z = z := by
  unfold roundInt
  rw [roundNat_of_lt h]
  split <;> omega

theorem quotExponent_le {n : Nat} (h : n < 2 ^ 53) : quotExponent n 3600000 ≤ -21 := by
  have h1 : bitLength n ≤ 53 := bitLength_le h
  have h2 : bitLength 3600000 = 22 := by decide
  unfold quotExponent
  rw [h2]
  simp only
  split <;> omega

theorem roundHalfEven_scaled (n P : Nat) (hP : 2 ^ 21 ≤ P) :
    roundHalfEven (n * P) 3600000 / P = n / 3600000
      ∧ (roundHalfEven (n * P) 3600000 + P - 1) / P = (n + 3599999) / 3600000 := by
  have hP' : 2097152 ≤ P := by simpa using hP
  have hPpos : 0 < P := by omega
  -- split n and scale
  have hn : n = n / 3600000 * 3600000 + n % 3600000 := by omega
  obtain ⟨x, hx⟩ : ∃ x, x = n / 3600000 * P := ⟨_, rfl⟩
  obtain ⟨y, hy⟩ : ∃ y, y = n % 3600000 * P := ⟨_, rfl⟩
  have hnP : n * P = x * 3600000 + y := by
    rw [hx, hy]
    conv_lhs => rw [hn]
    ring
  have hy_le : y ≤ 3599999 * P := by
    rw [hy]
    exact Nat.mul_le_mul_right P (by omega)
  have hy_zero : n % 3600000 = 0 → y = 0 := by
    intro h
    rw [hy, h, Nat.zero_mul]
  have hy_ge : n % 3600000 ≠ 0 → P ≤ y := by
    intro h
    rw [hy]
    exact Nat.le_mul_of_pos_left P (by omega)
  -- the rounded mantissa
  obtain ⟨z, hz⟩ : ∃ z, roundHalfEven (n * P) 3600000 = x + z
      ∧ (n % 3600000 = 0 → z = 0) ∧ (n % 3600000 ≠ 0 → 1 ≤ z ∧ z + 1 ≤ P) := by
    refine ⟨roundHalfEven (n * P) 3600000 - x, ?_⟩
    unfold roundHalfEven
    rw [hnP]
    simp only
    by_cases hr : n % 3600000 = 0
    · have := hy_zero hr
      subst this
      split
      · omega
      · split <;> omega
    · have := hy_ge hr
      split
      · refine ⟨by omega, fun h => absurd h hr, fun _ => ?_⟩
        omega
      · split
        · refine ⟨by omega, fun h => absurd h hr, fun _ => ?_⟩
          omega
        · split
          · refine ⟨by omega, fun h => absurd h hr, fun _ => ?_⟩
            omega
          · refine ⟨by omega, fun h => absurd h hr, fun _ => ?_⟩
            omega
  obtain ⟨hm, hz0, hz1⟩ := hz
  rw [hm, hx]
  by_cases hr : n % 3600000 = 0
  · have := hz0 hr
    subst this
    constructor
    · rw [Nat.add_zero, Nat.mul_div_cancel _ hPpos]
    · have h1 : n / 3600000 * P + 0 + P - 1 = (P - 1) + P * (n / 3600000) := by
        rw [Nat.mul_comm]
        omega
      rw [h1, Nat.add_mul_div_left _ _ hPpos, Nat.div_eq_of_lt (by omega)]
      omega
  · obtain ⟨hz2, hz3⟩ := hz1 hr
    constructor
    · have h1 : n / 3600000 * P + z = z + P * (n / 3600000) := by
        rw [Nat.mul_comm]
        omega
      rw [h1, Nat.add_mul_div_left _ _ hPpos, Nat.div_eq_of_lt (by omega)]
      omega
    · have h1 : n / 3600000 * P + z + P - 1 = (z - 1) + P * (n / 3600000 + 1) := by
        rw [Nat.mul_add, Nat.mul_one, Nat.mul_comm]
        omega
      rw [h1, Nat.add_mul_div_left _ _ hPpos, Nat.div_eq_of_lt (by omega)]
      omega

theorem quot_eq {n : Nat} (h : n < 2 ^ 53) :
    ceilQuot n 3600000 = (n + 3599999) / 3600000 ∧ floorQuot n 3600000 = n / 3600000 := by
  have he := quotExponent_le h
  have hneg : ¬ 0 ≤ quotExponent n 3600000 := by omega
  have h0 : (quotExponent n 3600000).toNat = 0 := by omega
  have hp : 21 ≤ (-(quotExponent n 3600000)).toNat := by omega
  have hP : 2 ^ 21 ≤ 2 ^ (-(quotExponent n 3600000)).toNat :=
    Nat.pow_le_pow_right (by decide) hp
  have hm : quotMantissa n 3600000
      = roundHalfEven (n * 2 ^ (-(quotExponent n 3600000)).toNat) 3600000 := by
    unfold quotMantissa
    rw [h0, Nat.pow_zero, Nat.mul_one]
  have key := roundHalfEven_scaled n _ hP
  constructor
  · unfold ceilQuot
    rw [if_neg hneg, hm]
    exact key.2
  · unfold floorQuot
    rw [if_neg hneg, hm]
    exact key.1

theorem jsCeilDiv_eq {a : Int} (h1 : -(2 ^ 53) < a) (h2 : a < 2 ^ 53) :
    jsCeilDiv a 3600000 = ceilDiv a (1000 * 60 * 60) := by
  have hn : a.natAbs < 2 ^ 53 := by omega
  obtain ⟨hc, hf⟩ := quot_eq hn
  unfold jsCeilDiv ceilDiv
  by_cases h0 : a = 0
  · subst h0
    simp
  · rw [if_neg h0]
    by_cases hpos : 0 < a
    · rw [if_pos hpos, hc]
      omega
    · rw [if_neg hpos, hf]
      omega

theorem jsSub_eq {a b : Int} (h1 : -(2 ^ 53) < a - b) (h2 : a - b < 2 ^ 53) :
    jsSub a b = a - b := by
  unfold jsSub
  exact roundInt_of_lt (by omega)

theorem jsMul_eq {a b : Int} (h1 : -(2 ^ 53) < a * b) (h2 : a * b < 2 ^ 53) :
    jsMul a b = a * b := by
  unfold jsMul
  exact roundInt_of_lt (by omega)

theorem ceilDiv_hour_bounds {a : Int} (h1 : -(2 ^ 53) < a) (h2 : a < 2 ^ 53) :
    -2501999793 ≤ ceilDiv a (1000 * 60 * 60) ∧ ceilDiv a (1000 * 60 * 60) ≤ 2501999793 := by
  unfold ceilDiv
  omega

/-- Where the timestamps are less than `2^53` milliseconds apart, binary64
computes `calculateFee` exactly: every intermediate value is an integer that
a binary64 number holds, or a quotient whose rounding does not reach the next
integer. -/
theorem calculateFeeBinary64_eq (t : Ticket) (s : ParkingSpotType) (x : Int)
    (hx : t.exitTime = some x) (h1 : -(2 ^ 53) < x - t.entryTime)
    (h2 : x - t.entryTime < 2 ^ 53) :
    t.calculateFeeBinary64 s = t.calculateFee s := by
  unfold Ticket.calculateFeeBinary64 Ticket.calculateFee
  by_cases hf : t.exitTimeFalsy = true
  · rw [if_pos hf, if_pos hf]
  · rw [if_neg hf, if_neg hf, hx]
    simp only [Option.getD_some]
    have hb := ceilDiv_hour_bounds h1 h2
    have e1 : (1000 * 60 * 60 : Nat) = 3600000 := by norm_num
    rw [jsSub_eq h1 h2, e1, jsCeilDiv_eq h1 h2]
    have hm1 : jsMul (ceilDiv (x - t.entryTime) (1000 * 60 * 60)) (rates s)
        = ceilDiv (x - t.entryTime) (1000 * 60 * 60) * rates s := by
      apply jsMul_eq <;> cases s <;> simp only [rates] <;> omega
    have hm2 : jsMul (ceilDiv (x - t.entryTime) (1000 * 60 * 60)) 60
        = ceilDiv (x - t.entryTime) (1000 * 60 * 60) * 60 := by
      apply jsMul_eq <;> omega
    rw [hm1, hm2]

/-! ## The fee formula -/

/-- C2, as it holds: for a ticket whose timestamps are integers less than
`2^53` milliseconds apart, with `exitTime` set to a nonzero timestamp not
before `entryTime`, `calculateFee` — computed in binary64, as the program
computes it, and in exact integers alike — returns
`max(baseRate, durationHours * baseRate)` with the two-step ceiling of the
specification (minutes, then hours), and writes it to the ticket's `fee`. -/
theorem calculateFee_two_step_formula (t : Ticket) (s : ParkingSpotType) (x : Int)
    (hx : t.exitTime = some x) (hne : x ≠ 0) (hge : t.entryTime ≤ x)
    (hrange : x - t.entryTime < 2 ^ 53) :
    t.calculateFeeBinary64 s
      = .ok (max (baseRate s) (ceilDiv (ceilDiv (x - t.entryTime) 60000) 60 * baseRate s),
          { t with fee := max (baseRate s) (ceilDiv (ceilDiv (x - t.entryTime) 60000) 60 * baseRate s) })
      ∧ t.calculateFee s
        = .ok (max (baseRate s) (ceilDiv (ceilDiv (x - t.entryTime) 60000) 60 * baseRate s),
            { t with fee := max (baseRate s) (ceilDiv (ceilDiv (x - t.entryTime) 60000) 60 * baseRate s) })
      ∧ 0 ≤ ceilDiv (ceilDiv (x - t.entryTime) 60000) 60 := by
  refine ⟨?_, calculateFee_eq t s x hx hne, ?_⟩
  · rw [calculateFeeBinary64_eq t s x hx (by omega) hrange]
    exact calculateFee_eq t s x hx hne
  · unfold ceilDiv
    omega

/-- Witness for C2: a MEDIUM spot entered at 09:00 costs 150 when left at
11:10 (130 minutes) and 50 when left at 09:45 (45 minutes). -/
theorem calculateFee_two_step_formula_witness :
    ({ id := 1, vehicle := exampleVehicle, spot := 1, entryTime := 32400000,
       exitTime := some 40200000, fee := 0 } : Ticket).calculateFeeBinary64 .MEDIUM
      = .ok (150, { id := 1, vehicle := exampleVehicle, spot := 1, entryTime := 32400000,
                    exitTime := some 40200000, fee := 150 })
      ∧ ({ id := 1, vehicle := exampleVehicle, spot := 1, entryTime := 32400000,
           exitTime := some 35100000, fee := 0 } : Ticket).calculateFeeBinary64 .MEDIUM
        = .ok (50, { id := 1, vehicle := exampleVehicle, spot := 1, entryTime := 32400000,
                     exitTime := some 35100000, fee := 50 }) :=
  ⟨(calculateFee_two_step_formula
      { id := 1, vehicle := exampleVehicle, spot := 1, entryTime := 32400000,
        exitTime := some 40200000, fee := 0 } .MEDIUM 40200000 rfl (by decide) (by decide)
      (by decide)).1,
    (calculateFee_two_step_formula
      { id := 1, vehicle := exampleVehicle, spot := 1, entryTime := 32400000,
        exitTime := some 35100000, fee := 0 } .MEDIUM 35100000 rfl (by decide) (by decide)
      (by decide)).1⟩

/-- C2 fails as stated: the program computes line 153 in binary64.  For
integer timestamps `2^53` milliseconds or more apart the difference is
rounded before it is divided — here `9360000000000001` to
`9360000000000000` — and the fee comes out as 2600000000 hours times 50,
where the two-step ceiling of the exact duration gives 2600000001 hours. -/
theorem calculateFee_far_apart_rounds :
    farApartTicket.exitTime = some 4680000000000001
      ∧ farApartTicket.entryTime ≤ 4680000000000001
      ∧ (4680000000000001 : Int) ≠ 0
      ∧ -(2 ^ 53) < farApartTicket.entryTime
      ∧ (4680000000000001 : Int) < 2 ^ 53
      ∧ (2 ^ 53 : Int) ≤ 4680000000000001 - farApartTicket.entryTime
      ∧ jsSub 4680000000000001 farApartTicket.entryTime = 9360000000000000
      ∧ farApartTicket.calculateFeeBinary64 .MEDIUM
          = .ok (130000000000, { farApartTicket with fee := 130000000000 })
      ∧ max (baseRate .MEDIUM)
          (ceilDiv (ceilDiv (4680000000000001 - farApartTicket.entryTime) 60000) 60
            * baseRate .MEDIUM) = 130000000050 := by
  refine ⟨rfl, by decide, by decide, by decide, by decide, by decide, by decide, rfl,
    by decide⟩

/-- Away from the timestamp `0`: for a ticket whose `exitTime` is set to a
nonzero timestamp and whose parked minutes are at most 60 (zero included),
`calculateFee` returns exactly the base rate of the spot's size and stores it
in the ticket's `fee`. -/
theorem calculateFee_minimum_stay (t : Ticket) (s : ParkingSpotType) (x : Int)
    (hx : t.exitTime = some x) (hne : x ≠ 0)
    (hdur : ceilDiv (x - t.entryTime) 60000 ≤ 60) :
    t.calculateFee s = .ok (baseRate s, { t with fee := baseRate s }) := by
  rw [calculateFee_eq t s x hx hne, specFee_of_le_sixty s t.entryTime x hdur]

/-- The example's Car, on its MEDIUM spot, leaving ten minutes after it
entered, is charged 50 — by `calculateFee`, and so by the `checkOut` of the
example usage. -/
theorem calculateFee_minimum_stay_example :
    ceilDiv (1700000600000 - 1700000000000) 60000 ≤ 60
      ∧ ({ id := 1700000000000, vehicle := exampleVehicle, spot := 1,
           entryTime := 1700000000000, exitTime := some 1700000600000, fee := 0 } : Ticket).calculateFee
            .MEDIUM
        = .ok (50, { id := 1700000000000, vehicle := exampleVehicle, spot := 1,
                     entryTime := 1700000000000, exitTime := some 1700000600000, fee := 50 })
      ∧ (checkOut (checkIn exampleWorld 1700000000000 1700000000000 exampleVehicle).2 0
            1700000600000 "CARD").1 = .ok { fee := 50, status := "PAID" } :=
  ⟨by decide,
    calculateFee_minimum_stay
      { id := 1700000000000, vehicle := exampleVehicle, spot := 1,
        entryTime := 1700000000000, exitTime := some 1700000600000, fee := 0 }
      .MEDIUM 1700000600000 rfl (by decide) (by decide),
    rfl⟩

/-- C3 at its failing input: a ticket entered and closed at clock reading `0`
has parked duration 0, at most 60 minutes, yet `calculateFee` throws
`Not exited` and stores no fee, where the claim has it return the base rate
50; closed one millisecond later, the same ticket is charged 50. -/
theorem calculateFee_minimum_stay_zero_clock :
    ceilDiv (0 - 0) 60000 ≤ 60
      ∧ ({ id := 0, vehicle := exampleVehicle, spot := 1, entryTime := 0,
           exitTime := some 0, fee := 0 } : Ticket).calculateFee .MEDIUM = .error .NotExited
      ∧ ({ id := 0, vehicle := exampleVehicle, spot := 1, entryTime := 0,
           exitTime := some 0, fee := 0 } : Ticket).calculateFeeBinary64 .MEDIUM
          = .error .NotExited
      ∧ (({ id := 0, vehicle := exampleVehicle, spot := 1, entryTime := 0,
            exitTime := some 0, fee := 0 } : Ticket).calculateFeeStep .MEDIUM).2.fee = 0
      ∧ ceilDiv (1 - 0) 60000 ≤ 60
      ∧ ({ id := 0, vehicle := exampleVehicle, spot := 1, entryTime := 0,
           exitTime := some 1, fee := 0 } : Ticket).calculateFee .MEDIUM
          = .ok (50, { id := 0, vehicle := exampleVehicle, spot := 1, entryTime := 0,
                       exitTime := some 1, fee := 50 }) := by
  refine ⟨by decide, rfl, rfl, rfl, by decide, rfl⟩

/-! ## Basic facts -/

theorem TypeMap.get_set_self {α : Type} (m : TypeMap α) (t : ParkingSpotType) (a : α) :
    (m.set t a).get t = a := by
  cases t <;> rfl

theorem TypeMap.get_set_ne {α : Type} (m : TypeMap α) {t u : ParkingSpotType} (h : u ≠ t)
    (a : α) : (m.set t a).get u = m.get u := by
  cases t <;> cases u <;> first | rfl | exact absurd rfl h

theorem TypeMap.get_ofFn {α : Type} (f : ParkingSpotType → α) (t : ParkingSpotType) :
    (TypeMap.ofFn f).get t = f t := by
  cases t <;> rfl

theorem setAvailable_spots (f : ParkingFloor) (ty : ParkingSpotType) (l : List SpotRef) :
    (f.setAvailable ty l).spots = f.spots := rfl

theorem setAvailable_get_self (f : ParkingFloor) (ty : ParkingSpotType) (l : List SpotRef) :
    (f.setAvailable ty l).availableSpotsByType.get ty = l :=
  TypeMap.get_set_self _ _ _

theorem setAvailable_get_ne (f : ParkingFloor) {ty u : ParkingSpotType} (h : u ≠ ty)
    (l : List SpotRef) :
    (f.setAvailable ty l).availableSpotsByType.get u = f.availableSpotsByType.get u :=
  TypeMap.get_set_ne _ h _

theorem freeAt_set_ne {heap : Heap} {r q : SpotRef} (h : q ≠ r) (s1 : ParkingSpot)
    (ty : ParkingSpotType) : FreeAt (heap.set r s1) ty q ↔ FreeAt heap ty q := by
  unfold FreeAt
  rw [List.getElem?_set_ne (Ne.symm h)]

theorem freeAt_set_self {heap : Heap} {r : SpotRef} {s : ParkingSpot} (hs : heap[r]? = some s)
    (s1 : ParkingSpot) (ty : ParkingSpotType) :
    FreeAt (heap.set r s1) ty r ↔ (s1.type = ty ∧ s1.status = .EMPTY) := by
  have hlt : r < heap.length := (List.getElem?_eq_some.mp hs).1
  unfold FreeAt
  rw [List.getElem?_set_self hlt]
  constructor
  · rintro ⟨s2, h2, h3⟩
    cases h2
    exact h3
  · intro h
    exact ⟨s1, rfl, h⟩

theorem isFree_iff (heap : Heap) (ty : ParkingSpotType) (r : SpotRef) :
    ParkingFloor.isFree heap ty r = true ↔ FreeAt heap ty r := by
  unfold ParkingFloor.isFree FreeAt
  cases heap[r]? with
  | none => simp
  | some s => simp

/-! ## The check-in loop -/

theorem scanFloors_plain (v : Vehicle) (hv : requiredType v = none) (heap : Heap)
    (log : List Event) (f : ParkingFloor) (rest : List ParkingFloor) :
    scanFloors v heap log (f :: rest)
      = { result := .error .InvalidVehicle, floors := f :: rest, heap := heap, log := log } := by
  simp [scanFloors, hv]

theorem scanFloors_cons_empty (v : Vehicle) {ty : ParkingSpotType}
    (hv : requiredType v = some ty) (heap : Heap) (log : List Event) (g : ParkingFloor)
    (fl : List ParkingFloor) (hg : g.availableSpotsByType.get ty = []) :
    scanFloors v heap log (g :: fl)
      = { scanFloors v heap log fl with floors := g :: (scanFloors v heap log fl).floors } := by
  simp only [scanFloors, hv, hg]

theorem scanFloors_skip (v : Vehicle) {ty : ParkingSpotType} (hv : requiredType v = some ty)
    (heap : Heap) (log : List Event) (l1 l2 : List ParkingFloor)
    (h : ∀ g ∈ l1, g.availableSpotsByType.get ty = []) :
    scanFloors v heap log (l1 ++ l2)
      = { scanFloors v heap log l2 with floors := l1 ++ (scanFloors v heap log l2).floors } := by
  induction l1 with
  | nil => simp
  | cons g l1 ih =>
    have hg : g.availableSpotsByType.get ty = [] := h g (List.mem_cons_self _ _)
    have ih1 := ih fun x hx => h x (List.mem_cons_of_mem _ hx)
    rw [List.cons_append, scanFloors_cons_empty v hv heap log g (l1 ++ l2) hg, ih1]
    rfl

theorem scanFloors_all_empty (v : Vehicle) {ty : ParkingSpotType}
    (hv : requiredType v = some ty) (heap : Heap) (log : List Event) (fl : List ParkingFloor)
    (h : ∀ g ∈ fl, g.availableSpotsByType.get ty = []) :
    scanFloors v heap log fl = { result := .ok none, floors := fl, heap := heap, log := log } := by
  have := scanFloors_skip v hv heap log fl [] h
  simpa [scanFloors] using this

theorem scanFloors_hit (v : Vehicle) {ty : ParkingSpotType} (hv : requiredType v = some ty)
    (heap : Heap) (log : List Event) (f : ParkingFloor) (l2 : List ParkingFloor)
    {r : SpotRef} {rest : List SpotRef} (hf : f.availableSpotsByType.get ty = r :: rest) :
    scanFloors v heap log (f :: l2)
      = match heap[r]? with
        | none =>
          { result := .error .BadRef, floors := f.setAvailable ty rest :: l2, heap := heap,
            log := log }
        | some s =>
          if s.status ≠ .EMPTY then
            { result := .error .SpotOccupied, floors := f.setAvailable ty rest :: l2,
              heap := heap, log := log }
          else
            { result := .ok (some r), floors := f.setAvailable ty rest :: l2,
              heap := heap.set r { s with vehicle := some v, status := .OCCUPIED },
              log := log ++ [(f.setAvailable ty rest).displayLine] } := by
  simp only [scanFloors, hv, hf]
  cases hr : heap[r]? with
  | none => rfl
  | some s =>
    simp only [ParkingSpot.parkVehicle]
    by_cases hs : s.status = .EMPTY
    · simp [hs]
    · simp [hs]

theorem exists_first_nonempty (ty : ParkingSpotType) (fl : List ParkingFloor) :
    (∀ g ∈ fl, g.availableSpotsByType.get ty = [])
      ∨ ∃ l1 f l2 r rest, fl = l1 ++ f :: l2
          ∧ (∀ g ∈ l1, g.availableSpotsByType.get ty = [])
          ∧ f.availableSpotsByType.get ty = r :: rest := by
  induction fl with
  | nil => left; simp
  | cons g fl ih =>
    cases hg : g.availableSpotsByType.get ty with
    | cons r rest => exact Or.inr ⟨[], g, fl, r, rest, rfl, by simp, hg⟩
    | nil =>
      rcases ih with h | ⟨l1, f, l2, r, rest, h1, h2, h3⟩
      · left
        intro x hx
        rcases List.mem_cons.mp hx with rfl | hx
        · exact hg
        · exact h x hx
      · right
        refine ⟨g :: l1, f, l2, r, rest, by simp [h1], ?_, h3⟩
        intro x hx
        rcases List.mem_cons.mp hx with rfl | hx
        · exact hg
        · exact h2 x hx

/-! ## Sorting the floors -/

theorem sortFloors_perm (fl : List ParkingFloor) : (sortFloors fl).Perm fl :=
  List.perm_insertionSort floorLE fl

theorem mem_sortFloors {fl : List ParkingFloor} {g : ParkingFloor} :
    g ∈ sortFloors fl ↔ g ∈ fl :=
  (sortFloors_perm fl).mem_iff

theorem sortFloors_sorted (fl : List ParkingFloor) : (sortFloors fl).Sorted floorLE := by
  haveI : IsTotal ParkingFloor floorLE := ⟨fun a b => Int.le_total a.floorNumber b.floorNumber⟩
  haveI : IsTrans ParkingFloor floorLE :=
    ⟨fun a b c (h1 : a.floorNumber ≤ b.floorNumber) (h2 : b.floorNumber ≤ c.floorNumber) =>
      Int.le_trans h1 h2⟩
  exact List.sorted_insertionSort floorLE fl

theorem sortFloors_eq_self {fl : List ParkingFloor} (h : fl.Sorted floorLE) :
    sortFloors fl = fl :=
  List.Sorted.insertionSort_eq h

theorem sortFloors_flatMap_spots (fl : List ParkingFloor) :
    ((sortFloors fl).flatMap fun f => f.spots).Perm (fl.flatMap fun f => f.spots) :=
  (sortFloors_perm fl).flatMap_right _

/-! ## What `checkIn` does -/

theorem checkIn_plain (w : World) (idNow entryNow : Int) (v : Vehicle)
    (hv : requiredType v = none) :
    checkIn w idNow entryNow v
      = (if w.floors = [] then .error .NoSpots else .error .InvalidVehicle,
          { w with floors := sortFloors w.floors }) := by
  unfold checkIn
  cases hs : sortFloors w.floors with
  | nil =>
    have : w.floors = [] := List.Perm.eq_nil ((sortFloors_perm w.floors).symm.trans (by rw [hs]))
    simp [scanFloors, this]
  | cons f rest =>
    have : w.floors ≠ [] := by
      intro h
      rw [h] at hs
      cases hs
    rw [scanFloors_plain v hv]
    simp [this]

theorem checkIn_cases (w : World) (idNow entryNow : Int) (v : Vehicle) {ty : ParkingSpotType}
    (hv : requiredType v = some ty) :
    ((∀ g ∈ w.floors, g.availableSpotsByType.get ty = [])
        ∧ checkIn w idNow entryNow v = (.error .NoSpots, { w with floors := sortFloors w.floors }))
      ∨ ∃ l1 f l2 r rest, sortFloors w.floors = l1 ++ f :: l2
          ∧ (∀ g ∈ l1, g.availableSpotsByType.get ty = [])
          ∧ f.availableSpotsByType.get ty = r :: rest
          ∧ ((w.heap[r]? = none
                ∧ checkIn w idNow entryNow v
                  = (.error .BadRef, { w with floors := l1 ++ f.setAvailable ty rest :: l2 }))
              ∨ (∃ s, w.heap[r]? = some s ∧ s.status ≠ .EMPTY
                ∧ checkIn w idNow entryNow v
                  = (.error .SpotOccupied,
                      { w with floors := l1 ++ f.setAvailable ty rest :: l2 }))
              ∨ (∃ s, w.heap[r]? = some s ∧ s.status = .EMPTY
                ∧ checkIn w idNow entryNow v
                  = (.ok w.tickets.length,
                      assigned w idNow entryNow v ty l1 f l2 r rest s))) := by
  rcases exists_first_nonempty ty (sortFloors w.floors) with h | ⟨l1, f, l2, r, rest, h1, h2, h3⟩
  · left
    refine ⟨fun g hg => h g (mem_sortFloors.mpr hg), ?_⟩
    unfold checkIn
    rw [scanFloors_all_empty v hv _ _ _ h]
  · right
    refine ⟨l1, f, l2, r, rest, h1, h2, h3, ?_⟩
    unfold checkIn
    rw [h1, scanFloors_skip v hv _ _ l1 (f :: l2) h2, scanFloors_hit v hv _ _ f l2 h3]
    cases hr : w.heap[r]? with
    | none => left; exact ⟨rfl, rfl⟩
    | some s =>
      right
      by_cases hs : s.status = .EMPTY
      · right
        refine ⟨s, rfl, hs, ?_⟩
        simp [hs, assigned]
      · left
        refine ⟨s, rfl, hs, ?_⟩
        simp [hs]

/-! ## Keeping the free lists in step with the spots -/

theorem flatMap_spots_update (l1 l2 : List ParkingFloor) (f : ParkingFloor)
    (ty : ParkingSpotType) (free : List SpotRef) :
    ((l1 ++ f.setAvailable ty free :: l2).flatMap fun g => g.spots)
      = ((l1 ++ f :: l2).flatMap fun g => g.spots) := by
  simp [setAvailable_spots]

theorem not_mem_spots_of_other {l1 l2 : List ParkingFloor} {f g : ParkingFloor} {r : SpotRef}
    (hnd : ((l1 ++ f :: l2).flatMap fun g => g.spots).Nodup) (hr : r ∈ f.spots)
    (hg : g ∈ l1 ∨ g ∈ l2) : r ∉ g.spots := by
  rw [List.flatMap_append, List.flatMap_cons] at hnd
  have h1 := List.nodup_append.mp hnd
  have h2 := List.nodup_append.mp h1.2.1
  intro hrg
  rcases hg with hg | hg
  · exact h1.2.2 (List.mem_flatMap.mpr ⟨g, hg, hrg⟩) (List.mem_append_left _ hr)
  · exact h2.2.2 hr (List.mem_flatMap.mpr ⟨g, hg, hrg⟩)

theorem floorIndexOK_set_other {heap : Heap} {g : ParkingFloor} {r : SpotRef} (s1 : ParkingSpot)
    (h : FloorIndexOK heap g) (hr : r ∉ g.spots) : FloorIndexOK (heap.set r s1) g := by
  intro ty
  refine ⟨(h ty).1, fun q => ?_⟩
  rw [(h ty).2 q]
  constructor
  · rintro ⟨hq, hfree⟩
    have hne : q ≠ r := fun e => hr (e ▸ hq)
    exact ⟨hq, (freeAt_set_ne hne s1 ty).mpr hfree⟩
  · rintro ⟨hq, hfree⟩
    have hne : q ≠ r := fun e => hr (e ▸ hq)
    exact ⟨hq, (freeAt_set_ne hne s1 ty).mp hfree⟩

theorem freeAt_type {heap : Heap} {r : SpotRef} {s : ParkingSpot} {ty : ParkingSpotType}
    (hs : heap[r]? = some s) (h : FreeAt heap ty r) : s.type = ty ∧ s.status = .EMPTY := by
  obtain ⟨s2, h2, h3⟩ := h
  rw [hs] at h2
  cases h2
  exact h3

theorem floorIndexOK_other_type {heap : Heap} {f : ParkingFloor} {r : SpotRef}
    {s s1 : ParkingSpot} {ty u : ParkingSpotType} (free : List SpotRef)
    (h : FloorIndexOK heap f) (hs : heap[r]? = some s) (hst : s.type = ty)
    (hst1 : s1.type = ty) (hu : u ≠ ty) :
    ((f.setAvailable ty free).availableSpotsByType.get u).Nodup
      ∧ ∀ q, q ∈ (f.setAvailable ty free).availableSpotsByType.get u
          ↔ (q ∈ (f.setAvailable ty free).spots ∧ FreeAt (heap.set r s1) u q) := by
  rw [setAvailable_get_ne f hu, setAvailable_spots]
  refine ⟨(h u).1, fun q => ?_⟩
  rw [(h u).2 q]
  by_cases hq : q = r
  · subst hq
    constructor
    · rintro ⟨_, hfree⟩
      exact absurd ((freeAt_type hs hfree).1.symm.trans hst) hu
    · rintro ⟨_, hfree⟩
      exact absurd (((freeAt_set_self hs s1 u).mp hfree).1.symm.trans hst1) hu
  · rw [freeAt_set_ne hq]

theorem floorIndexOK_park {heap : Heap} {f : ParkingFloor} {r : SpotRef} {rest : List SpotRef}
    {s : ParkingSpot} {ty : ParkingSpotType} (v : Vehicle) (h : FloorIndexOK heap f)
    (hs : heap[r]? = some s) (hst : s.type = ty)
    (hf : f.availableSpotsByType.get ty = r :: rest) :
    FloorIndexOK (heap.set r { s with vehicle := some v, status := .OCCUPIED })
      (f.setAvailable ty rest) := by
  intro u
  by_cases hu : u = ty
  · subst hu
    rw [setAvailable_get_self, setAvailable_spots]
    have hnd := (h u).1
    rw [hf] at hnd
    have hnd2 := List.nodup_cons.mp hnd
    refine ⟨hnd2.2, fun q => ?_⟩
    have hq := (h u).2 q
    rw [hf] at hq
    constructor
    · intro hmem
      have hne : q ≠ r := fun e => hnd2.1 (e ▸ hmem)
      have := hq.mp (List.mem_cons_of_mem _ hmem)
      exact ⟨this.1, (freeAt_set_ne hne _ u).mpr this.2⟩
    · rintro ⟨hsp, hfree⟩
      by_cases hne : q = r
      · subst hne
        have := ((freeAt_set_self hs _ u).mp hfree).2
        cases this
      · have := hq.mpr ⟨hsp, (freeAt_set_ne hne _ u).mp hfree⟩
        rcases List.mem_cons.mp this with e | e
        · exact absurd e hne
        · exact e
  · exact floorIndexOK_other_type rest h hs hst hst hu

theorem floorIndexOK_unpark {heap : Heap} {f : ParkingFloor} {r : SpotRef} {s : ParkingSpot}
    {ty : ParkingSpotType} (h : FloorIndexOK heap f) (hs : heap[r]? = some s)
    (hst : s.type = ty) (hocc : s.status = .OCCUPIED) (hr : r ∈ f.spots) :
    FloorIndexOK (heap.set r { s with vehicle := none, status := .EMPTY })
      (f.setAvailable ty (f.availableSpotsByType.get ty ++ [r])) := by
  intro u
  by_cases hu : u = ty
  · subst hu
    rw [setAvailable_get_self, setAvailable_spots]
    have hnot : r ∉ f.availableSpotsByType.get u := by
      intro hmem
      have := (freeAt_type hs ((h u).2 r |>.mp hmem).2).2
      rw [hocc] at this
      cases this
    constructor
    · rw [List.nodup_append]
      refine ⟨(h u).1, List.nodup_singleton r, ?_⟩
      intro a ha hb
      rw [List.mem_singleton] at hb
      exact hnot (hb ▸ ha)
    · intro q
      rw [List.mem_append, List.mem_singleton]
      by_cases hq : q = r
      · subst hq
        constructor
        · intro _
          exact ⟨hr, (freeAt_set_self hs _ u).mpr ⟨hst, rfl⟩⟩
        · intro _
          exact Or.inr rfl
      · rw [freeAt_set_ne hq, (h u).2 q]
        constructor
        · rintro (h1 | h1)
          · exact h1
          · exact absurd h1 hq
        · intro h1
          exact Or.inl h1
  · exact floorIndexOK_other_type _ h hs hst hst hu

/-! ## Well-formedness is kept by `checkIn` -/

theorem wellFormed_sorted {w : World} (hwf : WellFormed w) :
    WellFormed { w with floors := sortFloors w.floors } := by
  have hp := sortFloors_flatMap_spots w.floors
  refine ⟨?_, ?_, ?_, ?_⟩
  · intro r hr
    exact hwf.refs r (hp.mem_iff.mp hr)
  · exact hp.nodup_iff.mpr hwf.distinct
  · intro f hf
    exact hwf.index f (mem_sortFloors.mp hf)
  · intro t ht
    exact hp.mem_iff.mpr (hwf.tickets t ht)

theorem mem_allSpots {w : World} {f : ParkingFloor} {r : SpotRef} (hf : f ∈ w.floors)
    (hr : r ∈ f.spots) : r ∈ allSpots w :=
  List.mem_flatMap.mpr ⟨f, hf, hr⟩

theorem wellFormed_assigned {w : World} (hwf : WellFormed w) (idNow entryNow : Int)
    (v : Vehicle) {ty : ParkingSpotType} {l1 l2 : List ParkingFloor} {f : ParkingFloor}
    {r : SpotRef} {rest : List SpotRef} {s : ParkingSpot}
    (h1 : sortFloors w.floors = l1 ++ f :: l2)
    (h3 : f.availableSpotsByType.get ty = r :: rest) (hs : w.heap[r]? = some s) :
    s.type = ty ∧ s.status = .EMPTY ∧ r ∈ f.spots
      ∧ WellFormed (assigned w idNow entryNow v ty l1 f l2 r rest s) := by
  have hws := wellFormed_sorted hwf
  have hfm : f ∈ w.floors := mem_sortFloors.mp (by rw [h1]; simp)
  have hidx := (hwf.index f hfm ty).2 r
  rw [h3] at hidx
  have hr := hidx.mp (List.mem_cons_self _ _)
  have hfree := freeAt_type hs hr.2
  refine ⟨hfree.1, hfree.2, hr.1, ?_⟩
  have hall : allSpots (assigned w idNow entryNow v ty l1 f l2 r rest s)
      = allSpots { w with floors := sortFloors w.floors } := by
    unfold allSpots assigned
    simp only
    rw [flatMap_spots_update, h1]
  have hnd : ((l1 ++ f :: l2).flatMap fun g => g.spots).Nodup := by
    have := hws.distinct
    unfold allSpots at this
    simp only at this
    rwa [h1] at this
  refine ⟨?_, ?_, ?_, ?_⟩
  · intro q hq
    rw [hall] at hq
    have := hws.refs q hq
    simpa [assigned] using this
  · rw [hall]
    exact hws.distinct
  · intro g hg
    have hg2 : g ∈ l1 ∨ g = f.setAvailable ty rest ∨ g ∈ l2 := by
      simpa [assigned] using hg
    show FloorIndexOK _ g
    rcases hg2 with hg2 | hg2 | hg2
    · have hgw : g ∈ w.floors := mem_sortFloors.mp (by rw [h1]; simp [hg2])
      exact floorIndexOK_set_other _ (hwf.index g hgw)
        (not_mem_spots_of_other hnd hr.1 (Or.inl hg2))
    · subst hg2
      exact floorIndexOK_park v (hwf.index f hfm) hs hfree.1 h3
    · have hgw : g ∈ w.floors := mem_sortFloors.mp (by rw [h1]; simp [hg2])
      exact floorIndexOK_set_other _ (hwf.index g hgw)
        (not_mem_spots_of_other hnd hr.1 (Or.inr hg2))
  · intro t ht
    rw [hall]
    have ht2 : t ∈ w.tickets ∨ t = Ticket.new idNow v r entryNow := by
      simpa [assigned] using ht
    rcases ht2 with ht2 | ht2
    · exact hws.tickets t ht2
    · subst ht2
      exact mem_allSpots (w := { w with floors := sortFloors w.floors })
        (mem_sortFloors.mpr hfm) hr.1

theorem checkIn_wf_cases {w : World} (hwf : WellFormed w) (idNow entryNow : Int) (v : Vehicle)
    {ty : ParkingSpotType} (hv : requiredType v = some ty) :
    ((∀ g ∈ w.floors, g.availableSpotsByType.get ty = [])
        ∧ checkIn w idNow entryNow v = (.error .NoSpots, { w with floors := sortFloors w.floors }))
      ∨ ∃ l1 f l2 r rest s, sortFloors w.floors = l1 ++ f :: l2
          ∧ (∀ g ∈ l1, g.availableSpotsByType.get ty = [])
          ∧ f.availableSpotsByType.get ty = r :: rest
          ∧ w.heap[r]? = some s ∧ s.type = ty ∧ s.status = .EMPTY ∧ r ∈ f.spots
          ∧ WellFormed (assigned w idNow entryNow v ty l1 f l2 r rest s)
          ∧ checkIn w idNow entryNow v
              = (.ok w.tickets.length, assigned w idNow entryNow v ty l1 f l2 r rest s) := by
  rcases checkIn_cases w idNow entryNow v hv with h | ⟨l1, f, l2, r, rest, h1, h2, h3, h4⟩
  · exact Or.inl h
  · right
    have hfm : f ∈ w.floors := mem_sortFloors.mp (by rw [h1]; simp)
    have hidx := (hwf.index f hfm ty).2 r
    rw [h3] at hidx
    obtain ⟨hr, s, hs, hst, hse⟩ := hidx.mp (List.mem_cons_self _ _)
    have hwa := wellFormed_assigned hwf idNow entryNow v h1 h3 hs
    rcases h4 with ⟨hn, _⟩ | ⟨s2, hs2, hne, _⟩ | ⟨s2, hs2, _, hc⟩
    · rw [hs] at hn
      cases hn
    · rw [hs] at hs2
      cases hs2
      exact absurd hse hne
    · rw [hs] at hs2
      cases hs2
      exact ⟨l1, f, l2, r, rest, s, h1, h2, h3, hs, hst, hse, hr, hwa.2.2.2, hc⟩

theorem checkIn_wellFormed {w : World} (hwf : WellFormed w) (idNow entryNow : Int)
    (v : Vehicle) : WellFormed (checkIn w idNow entryNow v).2 := by
  cases hv : requiredType v with
  | none =>
    rw [checkIn_plain w idNow entryNow v hv]
    exact wellFormed_sorted hwf
  | some ty =>
    rcases checkIn_wf_cases hwf idNow entryNow v hv with ⟨_, hc⟩ |
      ⟨l1, f, l2, r, rest, s, _, _, _, _, _, _, _, hwa, hc⟩
    · rw [hc]
      exact wellFormed_sorted hwf
    · rw [hc]
      exact hwa

/-! ## What `checkOut` does -/

theorem releaseSpot_cases (r : SpotRef) (ty : ParkingSpotType) (fl : List ParkingFloor) :
    ((∀ g ∈ fl, r ∉ g.spots) ∧ releaseSpot r ty fl = none)
      ∨ ∃ l1 f l2, fl = l1 ++ f :: l2 ∧ (∀ g ∈ l1, r ∉ g.spots) ∧ r ∈ f.spots
          ∧ releaseSpot r ty fl
            = some (l1 ++ f.setAvailable ty (f.availableSpotsByType.get ty ++ [r]) :: l2,
                f.setAvailable ty (f.availableSpotsByType.get ty ++ [r])) := by
  induction fl with
  | nil => left; simp [releaseSpot]
  | cons g fl ih =>
    by_cases hg : r ∈ g.spots
    · right
      refine ⟨[], g, fl, rfl, by simp, hg, ?_⟩
      simp [releaseSpot, hg]
    · rcases ih with ⟨h1, h2⟩ | ⟨l1, f, l2, h1, h2, h3, h4⟩
      · left
        refine ⟨?_, by simp [releaseSpot, hg, h2]⟩
        intro x hx
        rcases List.mem_cons.mp hx with rfl | hx
        · exact hg
        · exact h1 x hx
      · right
        refine ⟨g :: l1, f, l2, by simp [h1], ?_, h3, by simp [releaseSpot, hg, h4]⟩
        intro x hx
        rcases List.mem_cons.mp hx with rfl | hx
        · exact hg
        · exact h2 x hx

theorem checkOut_cases (w : World) (k : TicketRef) (now : Int) (method : String) {t : Ticket}
    {s : ParkingSpot} (ht : w.tickets[k]? = some t) (hs : w.heap[t.spot]? = some s) :
    (now = 0
        ∧ checkOut w k now method
          = (.error .NotExited,
              { w with tickets := w.tickets.set k { t with exitTime := some now } }))
      ∨ (now ≠ 0 ∧ s.status ≠ .OCCUPIED
        ∧ checkOut w k now method
          = (.error .SpotEmpty, charged w k t now (specFee s.type t.entryTime now) method))
      ∨ (now ≠ 0 ∧ s.status = .OCCUPIED ∧ (∀ g ∈ w.floors, t.spot ∉ g.spots)
        ∧ checkOut w k now method
          = (.error .TypeError,
              { charged w k t now (specFee s.type t.entryTime now) method with
                heap := w.heap.set t.spot { s with vehicle := none, status := .EMPTY } }))
      ∨ (now ≠ 0 ∧ s.status = .OCCUPIED
        ∧ ∃ l1 f l2, w.floors = l1 ++ f :: l2 ∧ (∀ g ∈ l1, t.spot ∉ g.spots) ∧ t.spot ∈ f.spots
          ∧ checkOut w k now method
            = (.ok { fee := specFee s.type t.entryTime now, status := "PAID" },
                released w k t now (specFee s.type t.entryTime now) method s l1 f l2)) := by
  by_cases hnow : now = 0
  · left
    refine ⟨hnow, ?_⟩
    subst hnow
    simp [checkOut, ht, hs, Ticket.calculateFee, Ticket.exitTimeFalsy]
  · right
    have hfee := calculateFee_eq { t with exitTime := some now } s.type now rfl hnow
    by_cases hocc : s.status = .OCCUPIED
    · right
      rcases releaseSpot_cases t.spot s.type w.floors with ⟨h1, h2⟩ | ⟨l1, f, l2, h1, h2, h3, h4⟩
      · left
        refine ⟨hnow, hocc, h1, ?_⟩
        simp [checkOut, ht, hs, hfee, ParkingSpot.unparkVehicle, hocc, h2, charged]
      · right
        refine ⟨hnow, hocc, l1, f, l2, h1, h2, h3, ?_⟩
        simp [checkOut, ht, hs, hfee, ParkingSpot.unparkVehicle, hocc, h4, released]
    · left
      refine ⟨hnow, hocc, ?_⟩
      simp [checkOut, ht, hs, hfee, ParkingSpot.unparkVehicle, hocc, charged]

theorem checkOut_no_ticket (w : World) (k : TicketRef) (now : Int) (method : String)
    (ht : w.tickets[k]? = none) : checkOut w k now method = (.error .BadRef, w) := by
  simp [checkOut, ht]

theorem checkOut_no_spot (w : World) (k : TicketRef) (now : Int) (method : String) {t : Ticket}
    (ht : w.tickets[k]? = some t) (hs : w.heap[t.spot]? = none) :
    checkOut w k now method
      = (.error .BadRef, { w with tickets := w.tickets.set k { t with exitTime := some now } }) := by
  simp [checkOut, ht, hs]

/-! ## Well-formedness is kept by `checkOut` -/

theorem wellFormed_set_ticket {w : World} (hwf : WellFormed w) {k : TicketRef} {t : Ticket}
    (ht : w.tickets[k]? = some t) (t1 : Ticket) (hsp : t1.spot = t.spot) (lg : List Event) :
    WellFormed { w with tickets := w.tickets.set k t1, log := lg } := by
  refine ⟨hwf.refs, hwf.distinct, hwf.index, ?_⟩
  intro x hx
  rcases List.mem_or_eq_of_mem_set hx with h | h
  · exact hwf.tickets x h
  · subst h
    have := hwf.tickets t (List.getElem?_mem ht)
    rw [← hsp] at this
    exact this

theorem wellFormed_released {w : World} (hwf : WellFormed w) {k : TicketRef} {t : Ticket}
    (ht : w.tickets[k]? = some t) (now fee : Int) (method : String) {s : ParkingSpot}
    (hs : w.heap[t.spot]? = some s) (hocc : s.status = .OCCUPIED)
    {l1 l2 : List ParkingFloor} {f : ParkingFloor} (h1 : w.floors = l1 ++ f :: l2)
    (h3 : t.spot ∈ f.spots) :
    WellFormed (released w k t now fee method s l1 f l2) := by
  have hfm : f ∈ w.floors := by rw [h1]; simp
  have hall : allSpots (released w k t now fee method s l1 f l2) = allSpots w := by
    unfold allSpots released
    simp only
    rw [flatMap_spots_update, h1]
  have hnd : ((l1 ++ f :: l2).flatMap fun g => g.spots).Nodup := by
    have := hwf.distinct
    unfold allSpots at this
    rwa [h1] at this
  refine ⟨?_, ?_, ?_, ?_⟩
  · intro q hq
    rw [hall] at hq
    have := hwf.refs q hq
    simpa [released] using this
  · rw [hall]
    exact hwf.distinct
  · intro g hg
    have hg2 : g ∈ l1
        ∨ g = f.setAvailable s.type (f.availableSpotsByType.get s.type ++ [t.spot])
        ∨ g ∈ l2 := by
      simpa [released] using hg
    show FloorIndexOK _ g
    rcases hg2 with hg2 | hg2 | hg2
    · have hgw : g ∈ w.floors := by rw [h1]; simp [hg2]
      exact floorIndexOK_set_other _ (hwf.index g hgw)
        (not_mem_spots_of_other hnd h3 (Or.inl hg2))
    · subst hg2
      exact floorIndexOK_unpark (hwf.index f hfm) hs rfl hocc h3
    · have hgw : g ∈ w.floors := by rw [h1]; simp [hg2]
      exact floorIndexOK_set_other _ (hwf.index g hgw)
        (not_mem_spots_of_other hnd h3 (Or.inr hg2))
  · intro x hx
    rw [hall]
    have hx2 : x ∈ w.tickets.set k { t with exitTime := some now, fee := fee } := by
      simpa [released] using hx
    rcases List.mem_or_eq_of_mem_set hx2 with h | h
    · exact hwf.tickets x h
    · subst h
      exact hwf.tickets t (List.getElem?_mem ht)

theorem wellFormed_spot_of_ticket {w : World} (hwf : WellFormed w) {k : TicketRef} {t : Ticket}
    (ht : w.tickets[k]? = some t) : ∃ s, w.heap[t.spot]? = some s := by
  have hlt := hwf.refs _ (hwf.tickets t (List.getElem?_mem ht))
  exact ⟨w.heap[t.spot], List.getElem?_eq_getElem hlt⟩

theorem checkOut_wf_cases {w : World} (hwf : WellFormed w) (k : TicketRef) (now : Int)
    (method : String) {t : Ticket} (ht : w.tickets[k]? = some t) :
    ∃ s, w.heap[t.spot]? = some s
      ∧ ((now = 0
          ∧ checkOut w k now method
            = (.error .NotExited,
                { w with tickets := w.tickets.set k { t with exitTime := some now } }))
        ∨ (now ≠ 0 ∧ s.status ≠ .OCCUPIED
          ∧ checkOut w k now method
            = (.error .SpotEmpty, charged w k t now (specFee s.type t.entryTime now) method))
        ∨ (now ≠ 0 ∧ s.status = .OCCUPIED
          ∧ ∃ l1 f l2, w.floors = l1 ++ f :: l2 ∧ (∀ g ∈ l1, t.spot ∉ g.spots)
            ∧ t.spot ∈ f.spots
            ∧ WellFormed
                (released w k t now (specFee s.type t.entryTime now) method s l1 f l2)
            ∧ checkOut w k now method
              = (.ok { fee := specFee s.type t.entryTime now, status := "PAID" },
                  released w k t now (specFee s.type t.entryTime now) method s l1 f l2))) := by
  obtain ⟨s, hs⟩ := wellFormed_spot_of_ticket hwf ht
  refine ⟨s, hs, ?_⟩
  rcases checkOut_cases w k now method ht hs with h | h | ⟨_, _, h, _⟩ |
    ⟨h1, h2, l1, f, l2, h3, h4, h5, h6⟩
  · exact Or.inl h
  · exact Or.inr (Or.inl h)
  · exfalso
    obtain ⟨g, hg, hr⟩ := List.mem_flatMap.mp (hwf.tickets t (List.getElem?_mem ht))
    exact h g hg hr
  · exact Or.inr (Or.inr ⟨h1, h2, l1, f, l2, h3, h4, h5,
      wellFormed_released hwf ht now _ method hs h2 h3 h5, h6⟩)

theorem checkOut_wellFormed {w : World} (hwf : WellFormed w) (k : TicketRef) (now : Int)
    (method : String) : WellFormed (checkOut w k now method).2 := by
  cases ht : w.tickets[k]? with
  | none =>
    rw [checkOut_no_ticket w k now method ht]
    exact hwf
  | some t =>
    obtain ⟨s, hs, h⟩ := checkOut_wf_cases hwf k now method ht
    rcases h with ⟨_, hc⟩ | ⟨_, _, hc⟩ | ⟨_, _, l1, f, l2, _, _, _, hwr, hc⟩
    · rw [hc]
      exact wellFormed_set_ticket hwf ht { t with exitTime := some now } rfl w.log
    · rw [hc]
      exact wellFormed_set_ticket hwf ht
        { t with exitTime := some now, fee := specFee s.type t.entryTime now } rfl
        (w.log ++ [.payment t.id (specFee s.type t.entryTime now) method])
    · rw [hc]
      exact hwr

theorem step_wellFormed {w : World} (hwf : WellFormed w) (op : Op) : WellFormed (step w op) := by
  cases op with
  | checkIn idNow entryNow v => exact checkIn_wellFormed hwf idNow entryNow v
  | checkOut k now method => exact checkOut_wellFormed hwf k now method

theorem run_wellFormed {w : World} (hwf : WellFormed w) (ops : List Op) :
    WellFormed (run w ops) := by
  induction ops generalizing w with
  | nil => exact hwf
  | cons op ops ih => exact ih (step_wellFormed hwf op)

/-! ## A freshly built lot is well-formed -/

theorem allSpots_newLot (heap : Heap) (floors : List FloorArgs) :
    allSpots (newLot heap floors) = floors.flatMap fun a => a.spots := by
  unfold allSpots newLot
  simp only
  rw [List.flatMap_map]
  rfl

theorem newLot_wellFormed (heap : Heap) (floors : List FloorArgs)
    (hrefs : ∀ a ∈ floors, ∀ r ∈ a.spots, r < heap.length)
    (hdistinct : (floors.flatMap fun a => a.spots).Nodup) :
    WellFormed (newLot heap floors) := by
  refine ⟨?_, ?_, ?_, ?_⟩
  · intro r hr
    rw [allSpots_newLot] at hr
    obtain ⟨a, ha, hra⟩ := List.mem_flatMap.mp hr
    exact hrefs a ha r hra
  · rw [allSpots_newLot]
    exact hdistinct
  · intro f hf ty
    obtain ⟨a, ha, rfl⟩ := List.mem_map.mp hf
    have hnd : a.spots.Nodup := (List.nodup_flatMap.mp hdistinct).1 a ha
    show ((TypeMap.ofFn fun type => a.spots.filter (ParkingFloor.isFree heap type)).get ty).Nodup
      ∧ ∀ r, r ∈ (TypeMap.ofFn fun type => a.spots.filter (ParkingFloor.isFree heap type)).get ty
          ↔ (r ∈ a.spots ∧ FreeAt heap ty r)
    rw [TypeMap.get_ofFn]
    refine ⟨hnd.filter _, fun r => ?_⟩
    rw [List.mem_filter, isFree_iff]
  · intro t ht
    cases ht

/-- C4: starting from a lot whose floors were built by the `ParkingFloor`
constructor over pairwise distinct spot objects, after every sequence of
`checkIn` and `checkOut` calls (returning or throwing, the check-outs on
tickets of that lot), for every floor and every size the free list
`availableSpotsByType[size]` holds, without duplicates, exactly the spots of
the floor that have that type and status `EMPTY`. -/
theorem index_consistent_after_any_calls (heap : Heap) (floors : List FloorArgs)
    (hrefs : ∀ a ∈ floors, ∀ r ∈ a.spots, r < heap.length)
    (hdistinct : (floors.flatMap fun a => a.spots).Nodup) (ops : List Op) :
    IndexConsistent (run (newLot heap floors) ops) :=
  (run_wellFormed (newLot_wellFormed heap floors hrefs hdistinct) ops).index

/-! ## Allocation policy -/

theorem sorted_split_le {l1 l2 : List ParkingFloor} {f g : ParkingFloor}
    (h : (l1 ++ f :: l2).Sorted floorLE) (hg : g ∈ l2) : f.floorNumber ≤ g.floorNumber := by
  have h1 := (List.pairwise_append.mp h).2.1
  exact (List.pairwise_cons.mp h1).1 g hg

/-- C1: if `checkIn` of a Motorcycle, Car or Bus returns, the spot on the
ticket was the head of the free list, for the vehicle's size, of a floor `F`
of the lot (so `F` had a free spot of that size, and the spot is one of `F`'s
own wherever the free list holds only spots of its floor), and every floor
with a strictly smaller floor number had an empty free list for that size —
in whatever order the floors were supplied. -/
theorem checkIn_lands_on_lowest_floor (w : World) (idNow entryNow : Int) (v : Vehicle)
    (ty : ParkingSpotType) (hv : requiredType v = some ty) (k : TicketRef)
    (hok : (checkIn w idNow entryNow v).1 = .ok k) :
    ∃ t F, (checkIn w idNow entryNow v).2.tickets[k]? = some t
      ∧ t.vehicle = v
      ∧ F ∈ w.floors
      ∧ F.availableSpotsByType.get ty ≠ []
      ∧ (F.availableSpotsByType.get ty).head? = some t.spot
      ∧ ((∀ r ∈ F.availableSpotsByType.get ty, r ∈ F.spots) → t.spot ∈ F.spots)
      ∧ ∀ G ∈ w.floors, G.floorNumber < F.floorNumber → G.availableSpotsByType.get ty = [] := by
  rcases checkIn_cases w idNow entryNow v hv with ⟨_, hc⟩ | ⟨l1, f, l2, r, rest, h1, h2, h3, h4⟩
  · rw [hc] at hok
    cases hok
  · rcases h4 with ⟨_, hc⟩ | ⟨s, _, _, hc⟩ | ⟨s, hs, hse, hc⟩
    · rw [hc] at hok
      cases hok
    · rw [hc] at hok
      cases hok
    · rw [hc] at hok ⊢
      cases hok
      refine ⟨Ticket.new idNow v r entryNow, f, ?_, rfl, ?_, ?_, ?_, ?_, ?_⟩
      · simp [assigned]
      · exact mem_sortFloors.mp (by rw [h1]; simp)
      · rw [h3]
        simp
      · rw [h3]
        rfl
      · intro hsub
        exact hsub r (by rw [h3]; simp)
      · intro G hG hlt
        have hGs : G ∈ l1 ++ f :: l2 := by
          rw [← h1]
          exact mem_sortFloors.mpr hG
        have hsorted := sortFloors_sorted w.floors
        rw [h1] at hsorted
        rcases List.mem_append.mp hGs with hG1 | hG1
        · exact h2 G hG1
        · rcases List.mem_cons.mp hG1 with hG2 | hG2
          · subst hG2
            exact absurd hlt (lt_irrefl _)
          · have := sorted_split_le hsorted hG2
            omega

/-- Witness for C1: floors supplied as floor 2, floor 1; floor 1 is full and
floor 2 has a free MEDIUM spot; a Car lands on floor 2. -/
theorem checkIn_lands_on_lowest_floor_witness :
    ∃ t F, (checkIn twoFloorWorld 7 7 exampleVehicle).2.tickets[0]? = some t
      ∧ t.vehicle = exampleVehicle
      ∧ F ∈ twoFloorWorld.floors
      ∧ F.availableSpotsByType.get .MEDIUM ≠ []
      ∧ (F.availableSpotsByType.get .MEDIUM).head? = some t.spot
      ∧ ((∀ r ∈ F.availableSpotsByType.get .MEDIUM, r ∈ F.spots) → t.spot ∈ F.spots)
      ∧ ∀ G ∈ twoFloorWorld.floors, G.floorNumber < F.floorNumber →
          G.availableSpotsByType.get .MEDIUM = [] :=
  checkIn_lands_on_lowest_floor twoFloorWorld 7 7 exampleVehicle .MEDIUM rfl 0 rfl

/-! ## Failing check-ins -/

theorem exists_free_iff {w : World} (hwf : WellFormed w) (ty : ParkingSpotType) :
    (∃ F ∈ w.floors, ∃ r ∈ F.spots, FreeAt w.heap ty r)
      ↔ ¬ ∀ g ∈ w.floors, g.availableSpotsByType.get ty = [] := by
  constructor
  · rintro ⟨F, hF, r, hr, hfree⟩ hall
    have := ((hwf.index F hF ty).2 r).mpr ⟨hr, hfree⟩
    rw [hall F hF] at this
    cases this
  · intro h
    by_contra hne
    apply h
    intro g hg
    cases hl : g.availableSpotsByType.get ty with
    | nil => rfl
    | cons r rest =>
      exfalso
      apply hne
      have := ((hwf.index g hg ty).2 r).mp (by rw [hl]; simp)
      exact ⟨g, hg, r, this.1, this.2⟩

/-- C7: on a well-formed lot, `checkIn` of a Motorcycle, Car or Bus throws
`No spots` exactly when no floor has an `EMPTY` spot of the vehicle's size;
otherwise it returns a ticket for that vehicle, with `exitTime` unset, whose
spot is a spot of the lot that was free and now is `OCCUPIED` by the
vehicle. -/
theorem checkIn_noSpots_iff (w : World) (hwf : WellFormed w) (idNow entryNow : Int)
    (v : Vehicle) (ty : ParkingSpotType) (hv : requiredType v = some ty) :
    ((checkIn w idNow entryNow v).1 = .error .NoSpots
        ↔ ¬ ∃ F ∈ w.floors, ∃ r ∈ F.spots, FreeAt w.heap ty r)
      ∧ ((∃ F ∈ w.floors, ∃ r ∈ F.spots, FreeAt w.heap ty r) →
          ∃ k t, (checkIn w idNow entryNow v).1 = .ok k
            ∧ (checkIn w idNow entryNow v).2.tickets[k]? = some t
            ∧ t.vehicle = v ∧ t.exitTime = none ∧ t.id = idNow ∧ t.entryTime = entryNow
            ∧ (∃ F ∈ w.floors, t.spot ∈ F.spots)
            ∧ FreeAt w.heap ty t.spot
            ∧ statusAt (checkIn w idNow entryNow v).2.heap t.spot = some .OCCUPIED
            ∧ vehicleAt (checkIn w idNow entryNow v).2.heap t.spot = some (some v)) := by
  rw [exists_free_iff hwf ty]
  rcases checkIn_wf_cases hwf idNow entryNow v hv with ⟨hall, hc⟩ |
    ⟨l1, f, l2, r, rest, s, h1, h2, h3, hs, hst, hse, hr, _, hc⟩
  · rw [hc]
    refine ⟨⟨fun _ => not_not.mpr hall, fun _ => rfl⟩, fun h => absurd hall h⟩
  · have hfm : f ∈ w.floors := mem_sortFloors.mp (by rw [h1]; simp)
    have hnot : ¬ ∀ g ∈ w.floors, g.availableSpotsByType.get ty = [] := by
      intro hall
      have := hall f hfm
      rw [h3] at this
      cases this
    have hlt : r < w.heap.length := (List.getElem?_eq_some.mp hs).1
    rw [hc]
    refine ⟨⟨fun h => (by cases h), fun h => absurd hnot h⟩, fun _ => ?_⟩
    refine ⟨w.tickets.length, Ticket.new idNow v r entryNow, rfl, by simp [assigned], rfl, rfl,
      rfl, rfl, ⟨f, hfm, hr⟩, ⟨s, hs, hst, hse⟩, ?_, ?_⟩
    · simp [statusAt, assigned, Ticket.new, List.getElem?_set_self hlt]
    · simp [vehicleAt, assigned, Ticket.new, List.getElem?_set_self hlt]

/-- C8, as it holds: if `checkIn` throws `No spots` or `Invalid vehicle`,
the state after the call is the state before it with the floors list sorted by
floor number (a rearrangement of the same floor objects): every spot's status
and vehicle and every floor's free lists are unchanged, and when the floors
already were in ascending floor-number order the whole state is unchanged. -/
theorem checkIn_failure_keeps_state (w : World) (idNow entryNow : Int) (v : Vehicle)
    (hfail : (checkIn w idNow entryNow v).1 = .error .NoSpots
      ∨ (checkIn w idNow entryNow v).1 = .error .InvalidVehicle) :
    (checkIn w idNow entryNow v).2 = { w with floors := sortFloors w.floors }
      ∧ (checkIn w idNow entryNow v).2.heap = w.heap
      ∧ (checkIn w idNow entryNow v).2.floors.Perm w.floors
      ∧ (w.floors.Sorted floorLE → (checkIn w idNow entryNow v).2 = w) := by
  have key : (checkIn w idNow entryNow v).2 = { w with floors := sortFloors w.floors } := by
    cases hv : requiredType v with
    | none => rw [checkIn_plain w idNow entryNow v hv]
    | some ty =>
      rcases checkIn_cases w idNow entryNow v hv with ⟨_, hc⟩ |
        ⟨l1, f, l2, r, rest, _, _, _, h4⟩
      · rw [hc]
      · exfalso
        rcases h4 with ⟨_, hc⟩ | ⟨s, _, _, hc⟩ | ⟨s, _, _, hc⟩ <;>
          · rw [hc] at hfail
            rcases hfail with h | h <;> cases h
  refine ⟨key, ?_, ?_, ?_⟩
  · rw [key]
  · rw [key]
    exact sortFloors_perm w.floors
  · intro hs
    rw [key, sortFloors_eq_self hs]

/-- Witness for C8: floors 1 then 2, in order, each full for MEDIUM; a Car is
turned away and nothing changes. -/
theorem checkIn_failure_keeps_state_witness :
    (checkIn (newLot twoFloorHeap
        [{ id := 1, floorNumber := 1, spots := [0] }, { id := 2, floorNumber := 2, spots := [] }])
        7 7 exampleVehicle).2
      = newLot twoFloorHeap
        [{ id := 1, floorNumber := 1, spots := [0] }, { id := 2, floorNumber := 2, spots := [] }] :=
  (checkIn_failure_keeps_state
    (newLot twoFloorHeap
      [{ id := 1, floorNumber := 1, spots := [0] }, { id := 2, floorNumber := 2, spots := [] }])
    7 7 exampleVehicle (Or.inl rfl)).2.2.2 (by decide)

/-- C8 fails as stated: on a lot whose floors were supplied as floor 2,
floor 1, a check-in that throws (here `Invalid vehicle`) leaves the floors
list reordered. -/
theorem checkIn_failure_reorders_floors :
    (checkIn twoFloorWorld 7 7 (.Plain "XYZ" "Grey")).1 = .error .InvalidVehicle
      ∧ (twoFloorWorld.floors.map fun f => f.floorNumber) = [2, 1]
      ∧ ((checkIn twoFloorWorld 7 7 (.Plain "XYZ" "Grey")).2.floors.map fun f => f.floorNumber)
          = [1, 2]
      ∧ (checkIn twoFloorWorld 7 7 (.Plain "XYZ" "Grey")).2 ≠ twoFloorWorld := by
  refine ⟨rfl, rfl, rfl, by decide⟩

/-- Witness for C7: the example lot has a free MEDIUM spot, so the example
Car is not turned away. -/
theorem checkIn_noSpots_iff_witness :
    WellFormed exampleWorld
      ∧ ((checkIn exampleWorld 5 5 exampleVehicle).1 = .error .NoSpots
          ↔ ¬ ∃ F ∈ exampleWorld.floors, ∃ r ∈ F.spots, FreeAt exampleWorld.heap .MEDIUM r) :=
  ⟨newLot_wellFormed exampleHeap [{ id := 1, floorNumber := 1, spots := [0, 1, 2] }]
      (by decide) (by decide),
    (checkIn_noSpots_iff exampleWorld
      (newLot_wellFormed exampleHeap [{ id := 1, floorNumber := 1, spots := [0, 1, 2] }]
        (by decide) (by decide))
      5 5 exampleVehicle .MEDIUM rfl).1⟩
/-! ## Sequences of check-ins -/

theorem statusAt_set_ne {heap : Heap} {r q : SpotRef} (h : q ≠ r) (s1 : ParkingSpot) :
    statusAt (heap.set r s1) q = statusAt heap q := by
  unfold statusAt
  rw [List.getElem?_set_ne (Ne.symm h)]

theorem statusAt_set_self {heap : Heap} {r : SpotRef} {s : ParkingSpot}
    (hs : heap[r]? = some s) (s1 : ParkingSpot) :
    statusAt (heap.set r s1) r = some s1.status := by
  unfold statusAt
  rw [List.getElem?_set_self (List.getElem?_eq_some.mp hs).1]
  rfl

theorem checkIn_ok_facts {w : World} (hwf : WellFormed w) {idNow entryNow : Int} {v : Vehicle}
    {k : TicketRef} {w1 : World} (hc : checkIn w idNow entryNow v = (.ok k, w1)) {t : Ticket}
    (ht : w1.tickets[k]? = some t) :
    WellFormed w1 ∧ t.vehicle = v
      ∧ statusAt w.heap t.spot = some .EMPTY
      ∧ statusAt w1.heap t.spot = some .OCCUPIED
      ∧ vehicleAt w1.heap t.spot = some (some v)
      ∧ ∀ q, statusAt w.heap q = some .OCCUPIED → statusAt w1.heap q = some .OCCUPIED := by
  cases hv : requiredType v with
  | none =>
    rw [checkIn_plain w idNow entryNow v hv] at hc
    split at hc <;> cases hc
  | some ty =>
    rcases checkIn_wf_cases hwf idNow entryNow v hv with ⟨_, hc2⟩ |
      ⟨l1, f, l2, r, rest, s, h1, h2, h3, hs, hst, hse, hr, hwa, hc2⟩
    · rw [hc2] at hc
      cases hc
    · rw [hc2] at hc
      cases hc
      have ht2 : t = Ticket.new idNow v r entryNow := by
        simp [assigned] at ht
        exact ht.symm
      subst ht2
      have hlt : r < w.heap.length := (List.getElem?_eq_some.mp hs).1
      refine ⟨hwa, rfl, ?_, ?_, ?_, ?_⟩
      · simp [statusAt, Ticket.new, hs, hse]
      · simp [statusAt, assigned, Ticket.new, List.getElem?_set_self hlt]
      · simp [vehicleAt, assigned, Ticket.new, List.getElem?_set_self hlt]
      · intro q hq
        show statusAt (w.heap.set r _) q = some .OCCUPIED
        by_cases hqr : q = r
        · subst hqr
          rw [statusAt_set_self hs]
        · rw [statusAt_set_ne hqr]
          exact hq

theorem checkInSeq_facts (reqs : List (Int × Int × Vehicle)) :
    ∀ (w : World), WellFormed w → ∀ steps, checkInSeq w reqs = some steps →
      (steps.map fun st => st.ticket.spot).Nodup
        ∧ (steps.map fun st => st.ticket.vehicle) = reqs.map (fun q => q.2.2)
        ∧ (∀ st ∈ steps, statusAt st.before.heap st.ticket.spot = some .EMPTY
            ∧ statusAt st.after.heap st.ticket.spot = some .OCCUPIED
            ∧ vehicleAt st.after.heap st.ticket.spot = some (some st.ticket.vehicle))
        ∧ ∀ st ∈ steps, ∀ q, statusAt w.heap q = some .OCCUPIED →
            statusAt st.before.heap q = some .OCCUPIED := by
  induction reqs with
  | nil =>
    intro w _ steps h
    simp only [checkInSeq, Option.some.injEq] at h
    subst h
    simp
  | cons req reqs ih =>
    intro w hwf steps h
    obtain ⟨idNow, entryNow, v⟩ := req
    simp only [checkInSeq] at h
    cases hc : checkIn w idNow entryNow v with
    | mk out w1 =>
      rw [hc] at h
      cases out with
      | error e => cases h
      | ok k =>
        simp only at h
        cases ht : w1.tickets[k]? with
        | none =>
          rw [ht] at h
          cases h
        | some t =>
          rw [ht] at h
          simp only at h
          cases hrest : checkInSeq w1 reqs with
          | none =>
            rw [hrest] at h
            cases h
          | some steps1 =>
            rw [hrest] at h
            simp only [Option.some.injEq] at h
            subst h
            obtain ⟨hwf1, htv, hbefore, hafter, hveh, hkeep⟩ := checkIn_ok_facts hwf hc ht
            obtain ⟨ih1, ih2, ih3, ih4⟩ := ih w1 hwf1 steps1 hrest
            refine ⟨?_, ?_, ?_, ?_⟩
            · rw [List.map_cons, List.nodup_cons]
              refine ⟨?_, ih1⟩
              intro hmem
              obtain ⟨st, hst, heq⟩ := List.mem_map.mp hmem
              have h1 := ih4 st hst t.spot hafter
              have h2 := (ih3 st hst).1
              rw [heq, h1] at h2
              cases h2
            · simp [ih2, htv]
            · intro st hst
              rcases List.mem_cons.mp hst with rfl | hst
              · exact ⟨hbefore, hafter, by rw [htv]; exact hveh⟩
              · exact ih3 st hst
            · intro st hst q hq
              rcases List.mem_cons.mp hst with rfl | hst
              · exact hq
              · exact ih4 st hst q (hkeep q hq)

/-- C5: on a well-formed lot, in a sequence of check-ins that all return,
with no check-out in between, the spots on the tickets are pairwise distinct,
the tickets are for the vehicles presented, and each assigned spot was `EMPTY`
immediately before its check-in and is `OCCUPIED`, holding that vehicle,
immediately after. -/
theorem checkIns_assign_distinct_spots (w : World) (hwf : WellFormed w)
    (reqs : List (Int × Int × Vehicle)) (steps : List CheckInStep)
    (h : checkInSeq w reqs = some steps) :
    (steps.map fun st => st.ticket.spot).Nodup
      ∧ (steps.map fun st => st.ticket.vehicle) = reqs.map (fun q => q.2.2)
      ∧ ∀ st ∈ steps, statusAt st.before.heap st.ticket.spot = some .EMPTY
          ∧ statusAt st.after.heap st.ticket.spot = some .OCCUPIED
          ∧ vehicleAt st.after.heap st.ticket.spot = some (some st.ticket.vehicle) :=
  ⟨(checkInSeq_facts reqs w hwf steps h).1, (checkInSeq_facts reqs w hwf steps h).2.1,
    (checkInSeq_facts reqs w hwf steps h).2.2.1⟩

/-- Witness for C5: two cars and a motorcycle check in, one after the other,
on a lot with two MEDIUM spots and one SMALL spot. -/
theorem checkIns_assign_distinct_spots_witness :
    (((checkInSeq threeSpotWorld
        [(1, 1, exampleVehicle), (2, 2, otherVehicle), (3, 3, .Motorcycle "M1" "Black" 150)]).getD
          []).map fun st => st.ticket.spot).Nodup
      ∧ (((checkInSeq threeSpotWorld
        [(1, 1, exampleVehicle), (2, 2, otherVehicle), (3, 3, .Motorcycle "M1" "Black" 150)]).getD
          []).map fun st => st.ticket.spot) = [0, 1, 2] :=
  ⟨(checkIns_assign_distinct_spots threeSpotWorld
      (newLot_wellFormed threeSpotHeap _ (by decide) (by decide))
      [(1, 1, exampleVehicle), (2, 2, otherVehicle), (3, 3, .Motorcycle "M1" "Black" 150)]
      _ rfl).1, rfl⟩

/-! ## What every call keeps -/

theorem Continues.refl (w : World) : Continues w w :=
  ⟨fun _ t h => ⟨t, h, rfl, rfl, rfl, rfl⟩, fun _ => rfl, rfl⟩

theorem Continues.trans {w w1 w2 : World} (h1 : Continues w w1) (h2 : Continues w1 w2) :
    Continues w w2 := by
  refine ⟨?_, ?_, ?_⟩
  · intro j t ht
    obtain ⟨t1, ht1, a1, b1, c1, d1⟩ := h1.1 j t ht
    obtain ⟨t2, ht2, a2, b2, c2, d2⟩ := h2.1 j t1 ht1
    exact ⟨t2, ht2, a2.trans a1, b2.trans b1, c2.trans c1, d2.trans d1⟩
  · intro q
    rw [h2.2.1 q, h1.2.1 q]
  · rw [h2.2.2, h1.2.2]

theorem typeAt_set {heap : Heap} {r : SpotRef} {s : ParkingSpot} (hs : heap[r]? = some s)
    (s1 : ParkingSpot) (hty : s1.type = s.type) (q : SpotRef) :
    typeAt (heap.set r s1) q = typeAt heap q := by
  unfold typeAt
  by_cases hq : q = r
  · subst hq
    rw [List.getElem?_set_self (List.getElem?_eq_some.mp hs).1, hs]
    simp [hty]
  · rw [List.getElem?_set_ne (Ne.symm hq)]

theorem tickets_set_kept {tickets : List Ticket} {k : TicketRef} {t : Ticket}
    (ht : tickets[k]? = some t) (t1 : Ticket) (h1 : t1.spot = t.spot)
    (h2 : t1.vehicle = t.vehicle) (h3 : t1.id = t.id) (h4 : t1.entryTime = t.entryTime)
    (j : TicketRef) (tj : Ticket) (hj : tickets[j]? = some tj) :
    ∃ t2, (tickets.set k t1)[j]? = some t2 ∧ t2.spot = tj.spot ∧ t2.vehicle = tj.vehicle
      ∧ t2.id = tj.id ∧ t2.entryTime = tj.entryTime := by
  by_cases hjk : j = k
  · subst hjk
    rw [ht] at hj
    cases hj
    exact ⟨t1, List.getElem?_set_self (List.getElem?_eq_some.mp ht).1, h1, h2, h3, h4⟩
  · refine ⟨tj, ?_, rfl, rfl, rfl, rfl⟩
    rw [List.getElem?_set_ne (Ne.symm hjk)]
    exact hj

theorem tickets_append_kept {tickets : List Ticket} (t1 : Ticket) (j : TicketRef) (tj : Ticket)
    (hj : tickets[j]? = some tj) :
    ∃ t2, (tickets ++ [t1])[j]? = some t2 ∧ t2.spot = tj.spot ∧ t2.vehicle = tj.vehicle
      ∧ t2.id = tj.id ∧ t2.entryTime = tj.entryTime := by
  refine ⟨tj, ?_, rfl, rfl, rfl, rfl⟩
  rw [List.getElem?_append_left (List.getElem?_eq_some.mp hj).1]
  exact hj

theorem checkIn_continues (w : World) (idNow entryNow : Int) (v : Vehicle) :
    Continues w (checkIn w idNow entryNow v).2 := by
  have hsorted : Continues w { w with floors := sortFloors w.floors } :=
    ⟨fun _ t h => ⟨t, h, rfl, rfl, rfl, rfl⟩, fun _ => rfl, (sortFloors_perm w.floors).length_eq⟩
  cases hv : requiredType v with
  | none =>
    rw [checkIn_plain w idNow entryNow v hv]
    exact hsorted
  | some ty =>
    rcases checkIn_cases w idNow entryNow v hv with ⟨_, hc⟩ | ⟨l1, f, l2, r, rest, h1, _, _, h4⟩
    · rw [hc]
      exact hsorted
    · have hlen : (l1 ++ f.setAvailable ty rest :: l2).length = w.floors.length := by
        rw [← (sortFloors_perm w.floors).length_eq, h1]
        simp
      rcases h4 with ⟨_, hc⟩ | ⟨s, _, _, hc⟩ | ⟨s, hs, _, hc⟩
      · rw [hc]
        exact ⟨fun _ t h => ⟨t, h, rfl, rfl, rfl, rfl⟩, fun _ => rfl, hlen⟩
      · rw [hc]
        exact ⟨fun _ t h => ⟨t, h, rfl, rfl, rfl, rfl⟩, fun _ => rfl, hlen⟩
      · rw [hc]
        exact ⟨fun j tj hj => tickets_append_kept (Ticket.new idNow v r entryNow) j tj hj,
          fun q => typeAt_set hs { s with vehicle := some v, status := .OCCUPIED } rfl q, hlen⟩

theorem checkOut_continues (w : World) (k : TicketRef) (now : Int) (method : String) :
    Continues w (checkOut w k now method).2 := by
  cases ht : w.tickets[k]? with
  | none =>
    rw [checkOut_no_ticket w k now method ht]
    exact Continues.refl w
  | some t =>
    have hk1 := tickets_set_kept ht { t with exitTime := some now } rfl rfl rfl rfl
    cases hs : w.heap[t.spot]? with
    | none =>
      rw [checkOut_no_spot w k now method ht hs]
      exact ⟨hk1, fun _ => rfl, rfl⟩
    | some s =>
      have hk2 := tickets_set_kept ht
        { t with exitTime := some now, fee := specFee s.type t.entryTime now } rfl rfl rfl rfl
      have hty := typeAt_set hs { s with vehicle := none, status := .EMPTY } rfl
      rcases checkOut_cases w k now method ht hs with ⟨_, hc⟩ | ⟨_, _, hc⟩ | ⟨_, _, _, hc⟩ |
        ⟨_, _, l1, f, l2, h1, _, _, hc⟩
      · rw [hc]
        exact ⟨hk1, fun _ => rfl, rfl⟩
      · rw [hc]
        exact ⟨hk2, fun _ => rfl, rfl⟩
      · rw [hc]
        exact ⟨hk2, hty, rfl⟩
      · rw [hc]
        refine ⟨hk2, hty, ?_⟩
        show (l1 ++ _ :: l2).length = w.floors.length
        rw [h1]
        simp

theorem run_continues (w : World) (ops : List Op) : Continues w (run w ops) := by
  induction ops generalizing w with
  | nil => exact Continues.refl w
  | cons op ops ih =>
    refine Continues.trans ?_ (ih (step w op))
    cases op with
    | checkIn idNow entryNow v => exact checkIn_continues w idNow entryNow v
    | checkOut k now method => exact checkOut_continues w k now method

/-! ## Release and re-use of a spot -/

theorem typeAt_of_getElem {heap : Heap} {r : SpotRef} {s : ParkingSpot}
    (hs : heap[r]? = some s) : typeAt heap r = some s.type := by
  unfold typeAt
  rw [hs]
  rfl

/-- C9: on a well-formed lot, take a ticket returned by `checkIn`; after any
further calls, once `checkOut` of that ticket returns, the ticket's spot is
`EMPTY` and is in the free list, for its size, of the floor it belongs to;
a following `checkIn` of any vehicle of the same size class returns, and if
the released spot is the only free spot of that class in the lot, it is the
spot assigned. -/
theorem released_spot_is_reusable (w0 : World) (hwf : WellFormed w0) (idNow entryNow : Int)
    (v : Vehicle) (ty : ParkingSpotType) (hv : requiredType v = some ty) (k : TicketRef)
    (w1 : World) (hin : checkIn w0 idNow entryNow v = (.ok k, w1)) (ops : List Op)
    (now : Int) (method : String) (receipt : Receipt) (w3 : World)
    (hout : checkOut (run w1 ops) k now method = (.ok receipt, w3)) :
    ∃ t, w1.tickets[k]? = some t
      ∧ statusAt w3.heap t.spot = some .EMPTY
      ∧ (∃ F ∈ w3.floors, t.spot ∈ F.spots ∧ t.spot ∈ F.availableSpotsByType.get ty)
      ∧ ∀ (idNow1 entryNow1 : Int) (v1 : Vehicle), requiredType v1 = some ty →
          ∃ k1 t1, (checkIn w3 idNow1 entryNow1 v1).1 = .ok k1
            ∧ (checkIn w3 idNow1 entryNow1 v1).2.tickets[k1]? = some t1
            ∧ t1.vehicle = v1
            ∧ ((∀ q ∈ allSpots w3, FreeAt w3.heap ty q → q = t.spot) → t1.spot = t.spot) := by
  -- the check-in
  rcases checkIn_wf_cases hwf idNow entryNow v hv with ⟨_, hc⟩ |
    ⟨l1, f, l2, r, rest, s, h1, h2, h3, hs, hst, hse, hr, hwa, hc⟩
  · rw [hc] at hin
    cases hin
  rw [hc] at hin
  cases hin
  have ht1 : (assigned w0 idNow entryNow v ty l1 f l2 r rest s).tickets[w0.tickets.length]?
      = some (Ticket.new idNow v r entryNow) := by
    simp [assigned]
  have hty1 : typeAt (assigned w0 idNow entryNow v ty l1 f l2 r rest s).heap r = some ty := by
    have := typeAt_set hs { s with vehicle := some v, status := .OCCUPIED } rfl r
    show typeAt (w0.heap.set r _) r = some ty
    rw [this, typeAt_of_getElem hs, hst]
  refine ⟨Ticket.new idNow v r entryNow, ht1, ?_⟩
  -- the calls in between
  have hwf2 := run_wellFormed hwa ops
  have hcont := run_continues (assigned w0 idNow entryNow v ty l1 f l2 r rest s) ops
  obtain ⟨t2, ht2, hsp2, _, _, _⟩ := hcont.1 _ _ ht1
  have hsp : t2.spot = r := hsp2
  -- the check-out
  obtain ⟨s2, hs2, hcases⟩ := checkOut_wf_cases hwf2 w0.tickets.length now method ht2
  have hs2r : (run (assigned w0 idNow entryNow v ty l1 f l2 r rest s) ops).heap[r]? = some s2 := by
    have h := hs2
    rw [hsp] at h
    exact h
  have hty2 : s2.type = ty := by
    have h := hcont.2.1 r
    rw [hty1, typeAt_of_getElem hs2r] at h
    exact Option.some.inj h
  rcases hcases with ⟨_, hc2⟩ | ⟨_, _, hc2⟩ | ⟨_, hocc, m1, g, m2, e1, e2, e3, hwr, hc2⟩
  · rw [hc2] at hout
    cases hout
  · rw [hc2] at hout
    cases hout
  rw [hc2] at hout
  cases hout
  have hstat : statusAt (released (run (assigned w0 idNow entryNow v ty l1 f l2 r rest s) ops)
      w0.tickets.length t2 now (specFee s2.type t2.entryTime now) method s2 m1 g m2).heap r
      = some .EMPTY := by
    show statusAt (List.set _ t2.spot _) r = some .EMPTY
    rw [hsp, statusAt_set_self hs2r]
  have hfloor : ∃ F ∈ (released (run (assigned w0 idNow entryNow v ty l1 f l2 r rest s) ops)
      w0.tickets.length t2 now (specFee s2.type t2.entryTime now) method s2 m1 g m2).floors,
      r ∈ F.spots ∧ r ∈ F.availableSpotsByType.get ty := by
    refine ⟨g.setAvailable s2.type (g.availableSpotsByType.get s2.type ++ [t2.spot]), ?_, ?_, ?_⟩
    · simp [released]
    · rw [setAvailable_spots, ← hsp]
      exact e3
    · rw [← hty2, setAvailable_get_self, hsp]
      simp
  refine ⟨hstat, hfloor, ?_⟩
  -- the next check-in
  intro idNow1 entryNow1 v1 hv1
  rcases checkIn_wf_cases hwr idNow1 entryNow1 v1 hv1 with ⟨hall, _⟩ |
    ⟨n1, f1, n2, r1, rest1, s1, c1, c2, c3, cs, cst, cse, cr, _, cc⟩
  · exfalso
    obtain ⟨F, hF, _, hmem⟩ := hfloor
    rw [hall F hF] at hmem
    cases hmem
  · rw [cc]
    refine ⟨_, Ticket.new idNow1 v1 r1 entryNow1, rfl, by simp [assigned], rfl, ?_⟩
    intro honly
    have hf1 : f1 ∈ (released (run (assigned w0 idNow entryNow v ty l1 f l2 r rest s) ops)
        w0.tickets.length t2 now (specFee s2.type t2.entryTime now) method s2 m1 g m2).floors :=
      mem_sortFloors.mp (by rw [c1]; simp)
    exact honly r1 (mem_allSpots hf1 cr) ⟨s1, cs, cst, cse⟩

/-- Witness for C9: on the example lot the example Car checks in and out; its
MEDIUM spot, the only one, then goes to the next car. -/
theorem released_spot_is_reusable_witness :
    ∃ t, (checkIn exampleWorld 1700000000000 1700000000000 exampleVehicle).2.tickets[0]? = some t
      ∧ statusAt closedOnce.heap t.spot = some .EMPTY
      ∧ (∃ F ∈ closedOnce.floors, t.spot ∈ F.spots ∧ t.spot ∈ F.availableSpotsByType.get .MEDIUM)
      ∧ ∀ (idNow1 entryNow1 : Int) (v1 : Vehicle), requiredType v1 = some .MEDIUM →
          ∃ k1 t1, (checkIn closedOnce idNow1 entryNow1 v1).1 = .ok k1
            ∧ (checkIn closedOnce idNow1 entryNow1 v1).2.tickets[k1]? = some t1
            ∧ t1.vehicle = v1
            ∧ ((∀ q ∈ allSpots closedOnce, FreeAt closedOnce.heap .MEDIUM q → q = t.spot) →
                t1.spot = t.spot) :=
  released_spot_is_reusable exampleWorld
    (newLot_wellFormed exampleHeap [{ id := 1, floorNumber := 1, spots := [0, 1, 2] }]
      (by decide) (by decide))
    1700000000000 1700000000000 exampleVehicle .MEDIUM rfl 0
    (checkIn exampleWorld 1700000000000 1700000000000 exampleVehicle).2 rfl []
    1700000600000 "CARD" { fee := 50, status := "PAID" } closedOnce rfl

/-! ## Checking out a closed ticket again -/

theorem statusAt_eq_some {heap : Heap} {r : SpotRef} {st : ParkingSpotStatus}
    (h : statusAt heap r = some st) : ∃ s, heap[r]? = some s ∧ s.status = st := by
  unfold statusAt at h
  cases hs : heap[r]? with
  | none =>
    rw [hs] at h
    cases h
  | some s =>
    rw [hs] at h
    exact ⟨s, rfl, Option.some.inj h⟩

/-- C6, as it holds: after `checkOut` of a ticket has returned, the ticket's
spot is `EMPTY`; and in every state reached afterwards in which that spot is
(still, or again) `EMPTY`, a further `checkOut` of the ticket throws and
changes no spot and no floor — but when the clock reading is nonzero it has,
before throwing `Spot empty`, called the payment processor once more. -/
theorem checkOut_again_on_closed_ticket (w : World) (k : TicketRef) (now1 : Int)
    (method1 : String) (receipt : Receipt) (w1 : World)
    (hfirst : checkOut w k now1 method1 = (.ok receipt, w1)) (ops : List Op) (now2 : Int)
    (method2 : String) :
    ∃ t, (run w1 ops).tickets[k]? = some t
      ∧ statusAt w1.heap t.spot = some .EMPTY
      ∧ (statusAt (run w1 ops).heap t.spot = some .EMPTY →
          (∃ e, (checkOut (run w1 ops) k now2 method2).1 = .error e)
            ∧ (checkOut (run w1 ops) k now2 method2).2.heap = (run w1 ops).heap
            ∧ (checkOut (run w1 ops) k now2 method2).2.floors = (run w1 ops).floors
            ∧ (now2 ≠ 0 →
                (checkOut (run w1 ops) k now2 method2).1 = .error .SpotEmpty
                  ∧ ∃ amount, (checkOut (run w1 ops) k now2 method2).2.log
                      = (run w1 ops).log ++ [.payment t.id amount method2])) := by
  -- the first check-out
  cases ht : w.tickets[k]? with
  | none =>
    rw [checkOut_no_ticket w k now1 method1 ht] at hfirst
    cases hfirst
  | some t0 =>
    cases hs : w.heap[t0.spot]? with
    | none =>
      rw [checkOut_no_spot w k now1 method1 ht hs] at hfirst
      cases hfirst
    | some s =>
      rcases checkOut_cases w k now1 method1 ht hs with ⟨_, hc⟩ | ⟨_, _, hc⟩ | ⟨_, _, _, hc⟩ |
        ⟨_, _, l1, f, l2, _, _, _, hc⟩
      · rw [hc] at hfirst
        cases hfirst
      · rw [hc] at hfirst
        cases hfirst
      · rw [hc] at hfirst
        cases hfirst
      rw [hc] at hfirst
      cases hfirst
      have hklt : k < w.tickets.length := (List.getElem?_eq_some.mp ht).1
      have ht1 : (released w k t0 now1 (specFee s.type t0.entryTime now1) method1 s l1 f
          l2).tickets[k]?
          = some { t0 with exitTime := some now1, fee := specFee s.type t0.entryTime now1 } := by
        show (w.tickets.set k _)[k]? = _
        rw [List.getElem?_set_self hklt]
      obtain ⟨t, ht2, hsp, _, _, _⟩ := (run_continues _ ops).1 _ _ ht1
      have hsp2 : t.spot = t0.spot := hsp
      refine ⟨t, ht2, ?_, ?_⟩
      · show statusAt (w.heap.set t0.spot _) t.spot = some .EMPTY
        rw [hsp2, statusAt_set_self hs]
      · intro hempty
        obtain ⟨s2, hs2, hst2⟩ := statusAt_eq_some hempty
        have hnocc : s2.status ≠ .OCCUPIED := by
          rw [hst2]
          decide
        rcases checkOut_cases _ k now2 method2 ht2 hs2 with ⟨h0, hc2⟩ | ⟨h0, _, hc2⟩ |
          ⟨_, hocc, _, _⟩ | ⟨_, hocc, _⟩
        · rw [hc2]
          exact ⟨⟨_, rfl⟩, rfl, rfl, fun h => absurd h0 h⟩
        · rw [hc2]
          exact ⟨⟨_, rfl⟩, rfl, rfl, fun _ => ⟨rfl, _, rfl⟩⟩
        · exact absurd hocc hnocc
        · exact absurd hocc hnocc

/-- Witness for C6: the example's ticket, closed once, is checked out again
straight away. -/
theorem checkOut_again_on_closed_ticket_witness :
    ∃ t, closedOnce.tickets[0]? = some t
      ∧ statusAt closedOnce.heap t.spot = some .EMPTY
      ∧ (statusAt closedOnce.heap t.spot = some .EMPTY →
          (∃ e, (checkOut closedOnce 0 1700000800000 "CASH").1 = .error e)
            ∧ (checkOut closedOnce 0 1700000800000 "CASH").2.heap = closedOnce.heap
            ∧ (checkOut closedOnce 0 1700000800000 "CASH").2.floors = closedOnce.floors
            ∧ ((1700000800000 : Int) ≠ 0 →
                (checkOut closedOnce 0 1700000800000 "CASH").1 = .error .SpotEmpty
                  ∧ ∃ amount, (checkOut closedOnce 0 1700000800000 "CASH").2.log
                      = closedOnce.log ++ [.payment t.id amount "CASH"])) :=
  checkOut_again_on_closed_ticket
    (checkIn exampleWorld 1700000000000 1700000000000 exampleVehicle).2 0 1700000600000 "CARD"
    { fee := 50, status := "PAID" } closedOnce rfl [] 1700000800000 "CASH"

/-- C6 fails as stated, twice over.  A second `checkOut` of the example's
closed ticket throws `Spot empty`, but only after a second payment has been
processed; and once another car has been given the spot, a further `checkOut`
of the closed ticket returns, is paid a third time, and empties the spot
under the other car. -/
theorem checkOut_closed_ticket_charges_again :
    closedOnce.log.count (.payment 1700000000000 50 "CARD") = 1
      ∧ (checkOut closedOnce 0 1700000800000 "CARD").1 = .error .SpotEmpty
      ∧ (checkOut closedOnce 0 1700000800000 "CARD").2.log.count
          (.payment 1700000000000 50 "CARD") = 2
      ∧ statusAt reassigned.heap 1 = some .OCCUPIED
      ∧ vehicleAt reassigned.heap 1 = some (some otherVehicle)
      ∧ (checkOut reassigned 0 1700000800000 "CARD").1 = .ok { fee := 50, status := "PAID" }
      ∧ statusAt (checkOut reassigned 0 1700000800000 "CARD").2.heap 1 = some .EMPTY
      ∧ vehicleAt (checkOut reassigned 0 1700000800000 "CARD").2.heap 1 = some none := by
  refine ⟨by decide, rfl, by decide, rfl, rfl, rfl, rfl, rfl⟩
/-! ## Availability counts -/

theorem foldl_counts_get (ty : ParkingSpotType) (fl : List ParkingFloor) :
    ∀ acc : TypeMap (Option Nat),
      (fl.foldl
          (fun total floor =>
            let counts := floor.getAvailableCounts
            TypeMap.ofFn fun type => some ((total.get type).getD 0 + counts.get type))
          acc).get ty
        = if fl = [] then acc.get ty
          else some ((acc.get ty).getD 0 + sumFloorCounts fl ty) := by
  induction fl with
  | nil => intro acc; simp
  | cons f fl ih =>
    intro acc
    rw [List.foldl_cons, ih]
    simp only [TypeMap.get_ofFn, Option.getD_some, reduceCtorEq, if_false]
    by_cases hfl : fl = []
    · subst hfl
      simp [sumFloorCounts]
    · simp [hfl, sumFloorCounts, Nat.add_assoc]

theorem getOverallAvailability_get (fl : List ParkingFloor) (ty : ParkingSpotType) :
    (getOverallAvailability fl).get ty
      = if fl = [] then none else some (sumFloorCounts fl ty) := by
  unfold getOverallAvailability
  rw [foldl_counts_get]
  cases ty <;> simp [TypeMap.get]

theorem length_available_eq {heap : Heap} {f : ParkingFloor} (h : FloorIndexOK heap f)
    (hnd : f.spots.Nodup) (ty : ParkingSpotType) :
    (f.availableSpotsByType.get ty).length
      = (f.spots.filter (ParkingFloor.isFree heap ty)).length := by
  apply List.Perm.length_eq
  rw [List.perm_ext_iff_of_nodup (h ty).1 (hnd.filter _)]
  intro r
  rw [(h ty).2 r, List.mem_filter, isFree_iff]

theorem sumFloorCounts_eq (heap : Heap) (ty : ParkingSpotType) (fl : List ParkingFloor)
    (h : ∀ f ∈ fl, FloorIndexOK heap f ∧ f.spots.Nodup) :
    sumFloorCounts fl ty
      = ((fl.flatMap fun f => f.spots).filter (ParkingFloor.isFree heap ty)).length := by
  induction fl with
  | nil => rfl
  | cons f fl ih =>
    have hf := h f (List.mem_cons_self _ _)
    have ih1 := ih fun g hg => h g (List.mem_cons_of_mem _ hg)
    unfold sumFloorCounts at ih1 ⊢
    rw [List.map_cons, List.sum_cons, ih1, List.flatMap_cons, List.filter_append,
      List.length_append, ParkingFloor.getAvailableCounts, TypeMap.get_ofFn,
      length_available_eq hf.1 hf.2 ty]

theorem sumFloorCounts_eq_emptyCount {w : World} (hwf : WellFormed w) (ty : ParkingSpotType) :
    sumFloorCounts w.floors ty = emptyCount w ty := by
  unfold emptyCount
  rw [hwf.distinct.dedup]
  unfold allSpots
  apply sumFloorCounts_eq
  intro f hf
  exact ⟨hwf.index f hf, (List.nodup_flatMap.mp hwf.distinct).1 f hf⟩

/-- C10, as it holds: for a lot with at least one floor, in any state reached
by any sequence of `checkIn`/`checkOut` calls and for every size,
`getOverallAvailability()[size]` is the sum over the floors of
`getAvailableCounts()[size]`; and when the floors were built by the
constructor over pairwise distinct spot objects, that sum is the number of
`EMPTY` spots of that size in the lot. -/
theorem overall_availability_is_sum (heap : Heap) (floors : List FloorArgs)
    (hne : floors ≠ []) (ops : List Op) (ty : ParkingSpotType) :
    (getOverallAvailability (run (newLot heap floors) ops).floors).get ty
        = some (sumFloorCounts (run (newLot heap floors) ops).floors ty)
      ∧ ((∀ a ∈ floors, ∀ r ∈ a.spots, r < heap.length) →
          (floors.flatMap fun a => a.spots).Nodup →
          sumFloorCounts (run (newLot heap floors) ops).floors ty
            = emptyCount (run (newLot heap floors) ops) ty) := by
  have hlen := (run_continues (newLot heap floors) ops).2.2
  have hne2 : (run (newLot heap floors) ops).floors ≠ [] := by
    intro h
    rw [h] at hlen
    have : floors.length = 0 := by simpa [newLot] using hlen.symm
    exact hne (List.length_eq_zero.mp this)
  constructor
  · rw [getOverallAvailability_get, if_neg hne2]
  · intro hrefs hdistinct
    exact sumFloorCounts_eq_emptyCount
      (run_wellFormed (newLot_wellFormed heap floors hrefs hdistinct) ops) ty

/-- Witness for C10: the lot of two MEDIUM spots and one SMALL spot after a
car has checked in, at size MEDIUM: one spot is left. -/
theorem overall_availability_is_sum_witness :
    (getOverallAvailability (run threeSpotWorld [.checkIn 1 1 exampleVehicle]).floors).get .MEDIUM
        = some 1
      ∧ sumFloorCounts (run threeSpotWorld [.checkIn 1 1 exampleVehicle]).floors .MEDIUM = 1
      ∧ sumFloorCounts (run threeSpotWorld [.checkIn 1 1 exampleVehicle]).floors .MEDIUM
        = emptyCount (run threeSpotWorld [.checkIn 1 1 exampleVehicle]) .MEDIUM :=
  ⟨(overall_availability_is_sum threeSpotHeap
      [{ id := 2, floorNumber := 2, spots := [1] },
       { id := 1, floorNumber := 1, spots := [0, 2] }]
      (by decide) [.checkIn 1 1 exampleVehicle] .MEDIUM).1,
    rfl,
    (overall_availability_is_sum threeSpotHeap
      [{ id := 2, floorNumber := 2, spots := [1] },
       { id := 1, floorNumber := 1, spots := [0, 2] }]
      (by decide) [.checkIn 1 1 exampleVehicle] .MEDIUM).2 (by decide) (by decide)⟩

/-- C10 fails as stated, in two ways.  For a lot with no floors
`getOverallAvailability()` is the empty object, so its entry for a size is
undefined, not the (zero) sum over the floors.  And for a lot whose two
floors were built over the same spot object, the per-floor counts add up to 2
while the lot has one `EMPTY` spot. -/
theorem overall_availability_fails :
    (getOverallAvailability (run (newLot [] []) []).floors).get .SMALL = none
      ∧ sumFloorCounts (run (newLot [] []) []).floors .SMALL = 0
      ∧ emptyCount (run (newLot [] []) []) .SMALL = 0
      ∧ (getOverallAvailability (run (newLot [] []) []).floors).get .SMALL
          ≠ some (sumFloorCounts (run (newLot [] []) []).floors .SMALL)
      ∧ sumFloorCounts
          (run (newLot [ParkingSpot.new 1 .SMALL]
            [{ id := 1, floorNumber := 1, spots := [0] },
             { id := 2, floorNumber := 2, spots := [0] }]) []).floors .SMALL = 2
      ∧ emptyCount
          (run (newLot [ParkingSpot.new 1 .SMALL]
            [{ id := 1, floorNumber := 1, spots := [0] },
             { id := 2, floorNumber := 2, spots := [0] }]) []) .SMALL = 1 := by
  refine ⟨rfl, rfl, rfl, by decide, rfl, by decide⟩

/-- Witness for C4: a lot supplied as floor 2, floor 1; a car checks in, a
vehicle of no known class is refused, the car checks out, is checked out a
second time, another car checks in and the first ticket is checked out yet
again. -/
theorem index_consistent_after_any_calls_witness :
    IndexConsistent
      (run
        (newLot threeSpotHeap
          [{ id := 2, floorNumber := 2, spots := [1] },
           { id := 1, floorNumber := 1, spots := [0, 2] }])
        [.checkIn 1 1 exampleVehicle, .checkIn 2 2 (.Plain "XYZ" "Grey"),
         .checkOut 0 600001 "CARD", .checkOut 0 600002 "CARD",
         .checkIn 700000 700000 otherVehicle, .checkOut 0 800000 "CASH"]) :=
  index_consistent_after_any_calls threeSpotHeap
    [{ id := 2, floorNumber := 2, spots := [1] }, { id := 1, floorNumber := 1, spots := [0, 2] }]
    (by decide) (by decide)
    [.checkIn 1 1 exampleVehicle, .checkIn 2 2 (.Plain "XYZ" "Grey"),
     .checkOut 0 600001 "CARD", .checkOut 0 600002 "CARD",
     .checkIn 700000 700000 otherVehicle, .checkOut 0 800000 "CASH"]

/-! ## The size of the assigned spot -/

theorem typedIndex_newLot (heap : Heap) (floors : List FloorArgs) :
    TypedIndex (newLot heap floors) := by
  intro f hf ty r hr
  obtain ⟨a, _, rfl⟩ := List.mem_map.mp hf
  have hr2 : r ∈ a.spots.filter (ParkingFloor.isFree heap ty) := by
    have h : (ParkingFloor.new heap a.id a.floorNumber a.spots).availableSpotsByType.get ty
        = a.spots.filter (ParkingFloor.isFree heap ty) := TypeMap.get_ofFn _ ty
    rw [← h]
    exact hr
  obtain ⟨s, hs, hst, _⟩ := (isFree_iff heap ty r).mp (List.mem_filter.mp hr2).2
  show typeAt heap r = some ty
  rw [typeAt_of_getElem hs, hst]

theorem typedIndex_update {w w1 : World} (hti : TypedIndex w)
    (htype : ∀ q : SpotRef, typeAt w1.heap q = typeAt w.heap q) {l1 l2 : List ParkingFloor}
    {f : ParkingFloor} (hmem : ∀ g, g ∈ l1 ∨ g = f ∨ g ∈ l2 → g ∈ w.floors)
    (ty : ParkingSpotType) (free : List SpotRef)
    (hfree : ∀ r ∈ free, typeAt w.heap r = some ty)
    (hfl : w1.floors = l1 ++ f.setAvailable ty free :: l2) : TypedIndex w1 := by
  intro g hg u r hr
  rw [htype]
  rw [hfl] at hg
  have hg2 : g ∈ l1 ∨ g = f.setAvailable ty free ∨ g ∈ l2 := by
    simpa using hg
  rcases hg2 with hg2 | hg2 | hg2
  · exact hti g (hmem g (Or.inl hg2)) u r hr
  · subst hg2
    by_cases hu : u = ty
    · subst hu
      rw [setAvailable_get_self] at hr
      exact hfree r hr
    · rw [setAvailable_get_ne f hu] at hr
      exact hti f (hmem f (Or.inr (Or.inl rfl))) u r hr
  · exact hti g (hmem g (Or.inr (Or.inr hg2))) u r hr

theorem typedIndex_sorted {w : World} (hti : TypedIndex w) (tk : List Ticket) (lg : List Event) :
    TypedIndex { w with floors := sortFloors w.floors, tickets := tk, log := lg } := by
  intro g hg u r hr
  exact hti g (mem_sortFloors.mp hg) u r hr

theorem checkIn_typedIndex {w : World} (hti : TypedIndex w) (idNow entryNow : Int)
    (v : Vehicle) : TypedIndex (checkIn w idNow entryNow v).2 := by
  have htype := (checkIn_continues w idNow entryNow v).2.1
  cases hv : requiredType v with
  | none =>
    rw [checkIn_plain w idNow entryNow v hv]
    exact typedIndex_sorted hti w.tickets w.log
  | some ty =>
    rcases checkIn_cases w idNow entryNow v hv with ⟨_, hc⟩ | ⟨l1, f, l2, r, rest, h1, _, h3, h4⟩
    · rw [hc]
      exact typedIndex_sorted hti w.tickets w.log
    · have hmem : ∀ g, g ∈ l1 ∨ g = f ∨ g ∈ l2 → g ∈ w.floors := by
        intro g hg
        apply mem_sortFloors.mp
        rw [h1]
        simpa using hg
      have hfree : ∀ q ∈ rest, typeAt w.heap q = some ty := by
        intro q hq
        exact hti f (hmem f (Or.inr (Or.inl rfl))) ty q (by rw [h3]; exact List.mem_cons_of_mem _ hq)
      apply typedIndex_update hti htype hmem ty rest hfree
      rcases h4 with ⟨_, hc⟩ | ⟨s, _, _, hc⟩ | ⟨s, _, _, hc⟩ <;> (rw [hc]; try rfl)

theorem checkOut_typedIndex {w : World} (hti : TypedIndex w) (k : TicketRef) (now : Int)
    (method : String) : TypedIndex (checkOut w k now method).2 := by
  have htype := (checkOut_continues w k now method).2.1
  have hsame : ∀ w1 : World, w1.floors = w.floors →
      (∀ q : SpotRef, typeAt w1.heap q = typeAt w.heap q) → TypedIndex w1 := by
    intro w1 hfl hty g hg u r hr
    rw [hty]
    rw [hfl] at hg
    exact hti g hg u r hr
  cases ht : w.tickets[k]? with
  | none =>
    rw [checkOut_no_ticket w k now method ht]
    exact hti
  | some t =>
    cases hs : w.heap[t.spot]? with
    | none =>
      rw [checkOut_no_spot w k now method ht hs]
      exact hsame _ rfl fun _ => rfl
    | some s =>
      rcases checkOut_cases w k now method ht hs with ⟨_, hc⟩ | ⟨_, _, hc⟩ | ⟨_, _, _, hc⟩ |
        ⟨_, _, l1, f, l2, h1, _, _, hc⟩
      · rw [hc]
        exact hsame _ rfl fun _ => rfl
      · rw [hc]
        exact hsame _ rfl fun _ => rfl
      · rw [hc] at htype ⊢
        exact hsame _ rfl htype
      · have hmem : ∀ g, g ∈ l1 ∨ g = f ∨ g ∈ l2 → g ∈ w.floors := by
          intro g hg
          rw [h1]
          simpa using hg
        have hfree : ∀ q ∈ f.availableSpotsByType.get s.type ++ [t.spot],
            typeAt w.heap q = some s.type := by
          intro q hq
          rcases List.mem_append.mp hq with hq | hq
          · exact hti f (hmem f (Or.inr (Or.inl rfl))) s.type q hq
          · rw [List.mem_singleton] at hq
            rw [hq, typeAt_of_getElem hs]
        apply typedIndex_update hti htype hmem s.type _ hfree
        rw [hc]
        rfl

theorem run_typedIndex {w : World} (hti : TypedIndex w) (ops : List Op) :
    TypedIndex (run w ops) := by
  induction ops generalizing w with
  | nil => exact hti
  | cons op ops ih =>
    apply ih
    cases op with
    | checkIn idNow entryNow v => exact checkIn_typedIndex hti idNow entryNow v
    | checkOut k now method => exact checkOut_typedIndex hti k now method

theorem checkIn_spot_type_aux (heap : Heap) (floors : List FloorArgs) (ops : List Op)
    (idNow entryNow : Int) (v : Vehicle) (ty : ParkingSpotType)
    (hv : requiredType v = some ty) :
    (∀ k, (checkIn (run (newLot heap floors) ops) idNow entryNow v).1 = .ok k →
        ∃ t, (checkIn (run (newLot heap floors) ops) idNow entryNow v).2.tickets[k]? = some t
          ∧ t.vehicle = v
          ∧ typeAt (run (newLot heap floors) ops).heap t.spot = some ty
          ∧ typeAt (checkIn (run (newLot heap floors) ops) idNow entryNow v).2.heap t.spot
              = some ty)
      ∧ ((∀ g ∈ (run (newLot heap floors) ops).floors, g.availableSpotsByType.get ty = []) →
          (checkIn (run (newLot heap floors) ops) idNow entryNow v).1 = .error .NoSpots) := by
  have hti := run_typedIndex (typedIndex_newLot heap floors) ops
  have htype := (checkIn_continues (run (newLot heap floors) ops) idNow entryNow v).2.1
  refine ⟨?_, ?_⟩
  · intro k hok
    rcases checkIn_cases (run (newLot heap floors) ops) idNow entryNow v hv with ⟨_, hc⟩ |
      ⟨l1, f, l2, r, rest, h1, _, h3, h4⟩
    · rw [hc] at hok
      cases hok
    · have hfm : f ∈ (run (newLot heap floors) ops).floors :=
        mem_sortFloors.mp (by rw [h1]; simp)
      have hr := hti f hfm ty r (by rw [h3]; simp)
      rcases h4 with ⟨_, hc⟩ | ⟨s, _, _, hc⟩ | ⟨s, hs, hse, hc⟩
      · rw [hc] at hok
        cases hok
      · rw [hc] at hok
        cases hok
      · rw [hc] at hok htype ⊢
        cases hok
        refine ⟨Ticket.new idNow v r entryNow, by simp [assigned], rfl, hr, ?_⟩
        rw [htype]
        exact hr
  · intro hall
    rcases checkIn_cases (run (newLot heap floors) ops) idNow entryNow v hv with ⟨_, hc⟩ |
      ⟨l1, f, l2, r, rest, h1, _, h3, _⟩
    · rw [hc]
    · have hfm : f ∈ (run (newLot heap floors) ops).floors :=
        mem_sortFloors.mp (by rw [h1]; simp)
      rw [hall f hfm] at h3
      cases h3

/-- C11: on a lot whose floors were built by the `ParkingFloor` constructor,
in any state reached by `checkIn`/`checkOut` calls, a `checkIn` that returns
hands a Motorcycle a spot of type SMALL, a Car a spot of type MEDIUM and a
Bus a spot of type LARGE, never a spot of another type; and when the free
lists for the vehicle's size are all empty it throws `No spots`, whatever is
free in the other sizes. -/
theorem checkIn_spot_has_required_type (heap : Heap) (floors : List FloorArgs) (ops : List Op)
    (idNow entryNow : Int) :
    (∀ (registrationNumber color : String) (engineSize : Nat),
        (∀ k, (checkIn (run (newLot heap floors) ops) idNow entryNow
              (.Motorcycle registrationNumber color engineSize)).1 = .ok k →
          ∃ t, (checkIn (run (newLot heap floors) ops) idNow entryNow
                (.Motorcycle registrationNumber color engineSize)).2.tickets[k]? = some t
            ∧ t.vehicle = .Motorcycle registrationNumber color engineSize
            ∧ typeAt (run (newLot heap floors) ops).heap t.spot = some .SMALL
            ∧ typeAt (checkIn (run (newLot heap floors) ops) idNow entryNow
                (.Motorcycle registrationNumber color engineSize)).2.heap t.spot = some .SMALL)
        ∧ ((∀ g ∈ (run (newLot heap floors) ops).floors,
              g.availableSpotsByType.get .SMALL = []) →
            (checkIn (run (newLot heap floors) ops) idNow entryNow
              (.Motorcycle registrationNumber color engineSize)).1 = .error .NoSpots))
      ∧ (∀ (registrationNumber color fastTag model fuelType : String) (type : CarType),
        (∀ k, (checkIn (run (newLot heap floors) ops) idNow entryNow
              (.Car registrationNumber color fastTag model fuelType type)).1 = .ok k →
          ∃ t, (checkIn (run (newLot heap floors) ops) idNow entryNow
                (.Car registrationNumber color fastTag model fuelType type)).2.tickets[k]?
              = some t
            ∧ t.vehicle = .Car registrationNumber color fastTag model fuelType type
            ∧ typeAt (run (newLot heap floors) ops).heap t.spot = some .MEDIUM
            ∧ typeAt (checkIn (run (newLot heap floors) ops) idNow entryNow
                (.Car registrationNumber color fastTag model fuelType type)).2.heap t.spot
                = some .MEDIUM)
        ∧ ((∀ g ∈ (run (newLot heap floors) ops).floors,
              g.availableSpotsByType.get .MEDIUM = []) →
            (checkIn (run (newLot heap floors) ops) idNow entryNow
              (.Car registrationNumber color fastTag model fuelType type)).1 = .error .NoSpots))
      ∧ (∀ (registrationNumber color : String) (capacity : Nat),
        (∀ k, (checkIn (run (newLot heap floors) ops) idNow entryNow
              (.Bus registrationNumber color capacity)).1 = .ok k →
          ∃ t, (checkIn (run (newLot heap floors) ops) idNow entryNow
                (.Bus registrationNumber color capacity)).2.tickets[k]? = some t
            ∧ t.vehicle = .Bus registrationNumber color capacity
            ∧ typeAt (run (newLot heap floors) ops).heap t.spot = some .LARGE
            ∧ typeAt (checkIn (run (newLot heap floors) ops) idNow entryNow
                (.Bus registrationNumber color capacity)).2.heap t.spot = some .LARGE)
        ∧ ((∀ g ∈ (run (newLot heap floors) ops).floors,
              g.availableSpotsByType.get .LARGE = []) →
            (checkIn (run (newLot heap floors) ops) idNow entryNow
              (.Bus registrationNumber color capacity)).1 = .error .NoSpots)) :=
  ⟨fun registrationNumber color engineSize =>
      checkIn_spot_type_aux heap floors ops idNow entryNow
        (.Motorcycle registrationNumber color engineSize) .SMALL rfl,
    fun registrationNumber color fastTag model fuelType type =>
      checkIn_spot_type_aux heap floors ops idNow entryNow
        (.Car registrationNumber color fastTag model fuelType type) .MEDIUM rfl,
    fun registrationNumber color capacity =>
      checkIn_spot_type_aux heap floors ops idNow entryNow
        (.Bus registrationNumber color capacity) .LARGE rfl⟩

/-- Witness for C11: on the example lot, with its MEDIUM spot taken, a Bus
gets the LARGE spot, while a second car is turned away although the SMALL
and LARGE spots are free. -/
theorem checkIn_spot_has_required_type_witness :
    (∃ t, (checkIn (run exampleWorld [.checkIn 1 1 exampleVehicle]) 2 2
            (.Bus "BUS1" "White" 40)).2.tickets[1]? = some t
        ∧ t.vehicle = .Bus "BUS1" "White" 40
        ∧ typeAt (run exampleWorld [.checkIn 1 1 exampleVehicle]).heap t.spot = some .LARGE
        ∧ typeAt (checkIn (run exampleWorld [.checkIn 1 1 exampleVehicle]) 2 2
            (.Bus "BUS1" "White" 40)).2.heap t.spot = some .LARGE)
      ∧ (checkIn (run exampleWorld [.checkIn 1 1 exampleVehicle]) 2 2
          (.Car "DEF456" "Green" "FT456" "Estate" "Diesel" .MPV)).1 = .error .NoSpots
      ∧ (run exampleWorld [.checkIn 1 1 exampleVehicle]).floors.map
          (fun f => f.getAvailableCounts) = [{ small := 1, medium := 0, large := 1 }] :=
  ⟨((checkIn_spot_has_required_type exampleHeap
      [{ id := 1, floorNumber := 1, spots := [0, 1, 2] }] [.checkIn 1 1 exampleVehicle] 2
      2).2.2 "BUS1" "White" 40).1 1 rfl,
    ((checkIn_spot_has_required_type exampleHeap
      [{ id := 1, floorNumber := 1, spots := [0, 1, 2] }] [.checkIn 1 1 exampleVehicle] 2
      2).2.1 "DEF456" "Green" "FT456" "Estate" "Diesel" .MPV).2 (by decide),
    rfl⟩

/-! ## Vehicles of no known class -/

/-- C12 at its failing input: on a lot with no floors the loop body, where the
vehicle is classified, never runs, and a vehicle that is no Motorcycle, Car
or Bus is turned away with `No spots`; with a floor in the lot (free spots or
not) the same vehicle gets `Invalid vehicle`. -/
theorem checkIn_unknown_vehicle_on_empty_lot :
    requiredType (.Plain "XYZ" "Grey") = none
      ∧ emptyLot.floors = []
      ∧ (checkIn emptyLot 1 1 (.Plain "XYZ" "Grey")).1 = .error .NoSpots
      ∧ (checkIn exampleWorld 1 1 (.Plain "XYZ" "Grey")).1 = .error .InvalidVehicle
      ∧ (checkIn (newLot twoFloorHeap [{ id := 1, floorNumber := 1, spots := [0] }]) 1 1
          (.Plain "XYZ" "Grey")).1 = .error .InvalidVehicle :=
  ⟨rfl, rfl, rfl, rfl, rfl⟩

/-! ## Spots -/

theorem spotInvariant_new (id : Nat) (type : ParkingSpotType) :
    SpotInvariant (ParkingSpot.new id type) := by
  simp [SpotInvariant, ParkingSpot.new]

theorem spotInvariant_parked (s : ParkingSpot) (v : Vehicle) :
    SpotInvariant { s with vehicle := some v, status := .OCCUPIED } := by
  simp [SpotInvariant]

theorem spotInvariant_unparked (s : ParkingSpot) :
    SpotInvariant { s with vehicle := none, status := .EMPTY } := by
  simp [SpotInvariant]

theorem heap_set_invariant {heap : Heap} (h : ∀ s ∈ heap, SpotInvariant s) (r : SpotRef)
    {s1 : ParkingSpot} (h1 : SpotInvariant s1) : ∀ s ∈ heap.set r s1, SpotInvariant s := by
  intro s hs
  rcases List.mem_or_eq_of_mem_set hs with h2 | h2
  · exact h s h2
  · rw [h2]
    exact h1

theorem parkVehicle_cases (s : ParkingSpot) (v : Option Vehicle) :
    (s.status ≠ .EMPTY ∧ s.parkVehicle v = .error .SpotOccupied)
      ∨ (s.status = .EMPTY
        ∧ s.parkVehicle v = .ok { s with vehicle := v, status := .OCCUPIED }) := by
  unfold ParkingSpot.parkVehicle
  by_cases h : s.status = .EMPTY
  · right
    exact ⟨h, by simp [h]⟩
  · left
    exact ⟨h, by simp [h]⟩

theorem unparkVehicle_cases (s : ParkingSpot) :
    (s.status ≠ .OCCUPIED ∧ s.unparkVehicle = .error .SpotEmpty)
      ∨ (s.status = .OCCUPIED
        ∧ s.unparkVehicle = .ok { s with vehicle := none, status := .EMPTY }) := by
  unfold ParkingSpot.unparkVehicle
  by_cases h : s.status = .OCCUPIED
  · right
    exact ⟨h, by simp [h]⟩
  · left
    exact ⟨h, by simp [h]⟩

theorem parkAt_cases (w : World) (r : SpotRef) (v : Option Vehicle) {s : ParkingSpot}
    (hs : w.heap[r]? = some s) :
    (s.status ≠ .EMPTY ∧ parkAt w r v = (.error .SpotOccupied, w))
      ∨ (s.status = .EMPTY
        ∧ parkAt w r v
          = (.ok (),
              { w with heap := w.heap.set r { s with vehicle := v, status := .OCCUPIED } })) := by
  unfold parkAt
  rw [hs]
  rcases parkVehicle_cases s v with ⟨h1, h2⟩ | ⟨h1, h2⟩
  · left
    exact ⟨h1, by simp [h2]⟩
  · right
    exact ⟨h1, by simp [h2]⟩

theorem unparkAt_cases (w : World) (r : SpotRef) {s : ParkingSpot}
    (hs : w.heap[r]? = some s) :
    (s.status ≠ .OCCUPIED ∧ unparkAt w r = (.error .SpotEmpty, w))
      ∨ (s.status = .OCCUPIED
        ∧ unparkAt w r
          = (.ok (),
              { w with heap := w.heap.set r { s with vehicle := none, status := .EMPTY } })) := by
  unfold unparkAt
  rw [hs]
  rcases unparkVehicle_cases s with ⟨h1, h2⟩ | ⟨h1, h2⟩
  · left
    exact ⟨h1, by simp [h2]⟩
  · right
    exact ⟨h1, by simp [h2]⟩

theorem parkAt_invariant {w : World} (h : ∀ s ∈ w.heap, SpotInvariant s) (r : SpotRef)
    (v : Vehicle) : ∀ s ∈ (parkAt w r (some v)).2.heap, SpotInvariant s := by
  cases hs : w.heap[r]? with
  | none =>
    have : parkAt w r (some v) = (.error .BadRef, w) := by simp [parkAt, hs]
    rw [this]
    exact h
  | some s0 =>
    rcases parkAt_cases w r (some v) hs with ⟨_, hc⟩ | ⟨_, hc⟩
    · rw [hc]
      exact h
    · rw [hc]
      exact heap_set_invariant h r (spotInvariant_parked s0 v)

theorem unparkAt_invariant {w : World} (h : ∀ s ∈ w.heap, SpotInvariant s) (r : SpotRef) :
    ∀ s ∈ (unparkAt w r).2.heap, SpotInvariant s := by
  cases hs : w.heap[r]? with
  | none =>
    have : unparkAt w r = (.error .BadRef, w) := by simp [unparkAt, hs]
    rw [this]
    exact h
  | some s0 =>
    rcases unparkAt_cases w r hs with ⟨_, hc⟩ | ⟨_, hc⟩
    · rw [hc]
      exact h
    · rw [hc]
      exact heap_set_invariant h r (spotInvariant_unparked s0)

theorem checkIn_invariant {w : World} (h : ∀ s ∈ w.heap, SpotInvariant s) (idNow entryNow : Int)
    (v : Vehicle) : ∀ s ∈ (checkIn w idNow entryNow v).2.heap, SpotInvariant s := by
  cases hv : requiredType v with
  | none =>
    rw [checkIn_plain w idNow entryNow v hv]
    exact h
  | some ty =>
    rcases checkIn_cases w idNow entryNow v hv with ⟨_, hc⟩ | ⟨l1, f, l2, r, rest, _, _, _, h4⟩
    · rw [hc]
      exact h
    · rcases h4 with ⟨_, hc⟩ | ⟨s, _, _, hc⟩ | ⟨s, _, _, hc⟩
      · rw [hc]
        exact h
      · rw [hc]
        exact h
      · rw [hc]
        exact heap_set_invariant h r (spotInvariant_parked s v)

theorem checkOut_invariant {w : World} (h : ∀ s ∈ w.heap, SpotInvariant s) (k : TicketRef)
    (now : Int) (method : String) :
    ∀ s ∈ (checkOut w k now method).2.heap, SpotInvariant s := by
  cases ht : w.tickets[k]? with
  | none =>
    rw [checkOut_no_ticket w k now method ht]
    exact h
  | some t =>
    cases hs : w.heap[t.spot]? with
    | none =>
      rw [checkOut_no_spot w k now method ht hs]
      exact h
    | some s0 =>
      rcases checkOut_cases w k now method ht hs with ⟨_, hc⟩ | ⟨_, _, hc⟩ | ⟨_, _, _, hc⟩ |
        ⟨_, _, l1, f, l2, _, _, _, hc⟩
      · rw [hc]
        exact h
      · rw [hc]
        exact h
      · rw [hc]
        exact heap_set_invariant h t.spot (spotInvariant_unparked s0)
      · rw [hc]
        exact heap_set_invariant h t.spot (spotInvariant_unparked s0)

theorem runCalls_invariant (calls : List Call) (hveh : ∀ c ∈ calls, c.parksNothing = false) :
    ∀ w : World, (∀ s ∈ w.heap, SpotInvariant s) →
      ∀ s ∈ (runCalls w calls).heap, SpotInvariant s := by
  induction calls with
  | nil =>
    intro w h
    exact h
  | cons c calls ih =>
    intro w h
    apply ih (fun c1 hc1 => hveh c1 (List.mem_cons_of_mem _ hc1)) (stepCall w c)
    have hc := hveh c (List.mem_cons_self _ _)
    cases c with
    | parkVehicle r v =>
      cases v with
      | none => cases hc
      | some v => exact parkAt_invariant h r v
    | unparkVehicle r => exact unparkAt_invariant h r
    | panel op =>
      cases op with
      | checkIn idNow entryNow v => exact checkIn_invariant h idNow entryNow v
      | checkOut k now method => exact checkOut_invariant h k now method

/-- C13, as it holds: take spot objects as their constructor leaves them, put
them under any floors, and make any sequence of `parkVehicle`,
`unparkVehicle`, `checkIn` and `checkOut` calls in which every `parkVehicle`
is given a vehicle (not `null` or `undefined`): in the state reached, every
spot has status `OCCUPIED` if and only if its vehicle reference is set. -/
theorem spot_occupied_iff_vehicle (spots : List (Nat × ParkingSpotType))
    (floors : List ParkingFloor) (calls : List Call)
    (hveh : ∀ c ∈ calls, c.parksNothing = false) :
    ∀ s ∈ (runCalls
        { heap := spots.map fun a => ParkingSpot.new a.1 a.2, floors := floors, tickets := [],
          log := [] } calls).heap,
      s.status = .OCCUPIED ↔ s.vehicle ≠ none := by
  apply runCalls_invariant calls hveh
  intro s hs
  obtain ⟨a, _, rfl⟩ := List.mem_map.mp hs
  exact spotInvariant_new a.1 a.2

/-- C13 fails as stated: `parkVehicle` stores its argument without looking at
it, so `spot.parkVehicle(null)` on a spot fresh from the constructor leaves it
`OCCUPIED` with no vehicle referenced. -/
theorem spot_occupied_without_vehicle :
    (runCalls { heap := [ParkingSpot.new 1 .SMALL], floors := [], tickets := [], log := [] }
        [.parkVehicle 0 none]).heap
      = [{ id := 1, status := .OCCUPIED, type := .SMALL, vehicle := none }]
      ∧ ¬ (({ id := 1, status := .OCCUPIED, type := .SMALL, vehicle := none }
            : ParkingSpot).status = .OCCUPIED
          ↔ ({ id := 1, status := .OCCUPIED, type := .SMALL, vehicle := none }
            : ParkingSpot).vehicle ≠ none) := by
  refine ⟨rfl, by decide⟩

/-- C16: for a spot object and an argument (a vehicle, or `null`),
`parkVehicle` throws `Spot occupied` exactly when the status is not `EMPTY`,
and `unparkVehicle` throws `Spot empty` exactly when the status is not
`OCCUPIED`; a throwing call leaves the state as it was; `parkVehicle`, when it
returns, has set the status to `OCCUPIED` and the vehicle to the one given,
and `unparkVehicle`, when it returns, has set the status to `EMPTY` and the
vehicle to none, nothing else being touched. -/
theorem park_unpark_guards (w : World) (r : SpotRef) (s : ParkingSpot) (v : Option Vehicle)
    (hs : w.heap[r]? = some s) :
    ((parkAt w r v).1 = .error .SpotOccupied ↔ s.status ≠ .EMPTY)
      ∧ ((unparkAt w r).1 = .error .SpotEmpty ↔ s.status ≠ .OCCUPIED)
      ∧ (s.status ≠ .EMPTY → (parkAt w r v).2 = w)
      ∧ (s.status ≠ .OCCUPIED → (unparkAt w r).2 = w)
      ∧ (s.status = .EMPTY →
          (parkAt w r v).1 = .ok ()
            ∧ (parkAt w r v).2
              = { w with heap := w.heap.set r { s with vehicle := v, status := .OCCUPIED } }
            ∧ (parkAt w r v).2.heap[r]?
              = some { id := s.id, status := .OCCUPIED, type := s.type, vehicle := v })
      ∧ (s.status = .OCCUPIED →
          (unparkAt w r).1 = .ok ()
            ∧ (unparkAt w r).2
              = { w with heap := w.heap.set r { s with vehicle := none, status := .EMPTY } }
            ∧ (unparkAt w r).2.heap[r]?
              = some { id := s.id, status := .EMPTY, type := s.type, vehicle := none }) := by
  have hlt : r < w.heap.length := (List.getElem?_eq_some.mp hs).1
  refine ⟨?_, ?_, ?_, ?_, ?_, ?_⟩
  · rcases parkAt_cases w r v hs with ⟨h1, hc⟩ | ⟨h1, hc⟩
    · rw [hc]
      exact ⟨fun _ => h1, fun _ => rfl⟩
    · rw [hc]
      exact ⟨fun h => (by cases h), fun h => absurd h1 h⟩
  · rcases unparkAt_cases w r hs with ⟨h1, hc⟩ | ⟨h1, hc⟩
    · rw [hc]
      exact ⟨fun _ => h1, fun _ => rfl⟩
    · rw [hc]
      exact ⟨fun h => (by cases h), fun h => absurd h1 h⟩
  · intro h
    rcases parkAt_cases w r v hs with ⟨_, hc⟩ | ⟨h1, _⟩
    · rw [hc]
    · exact absurd h1 h
  · intro h
    rcases unparkAt_cases w r hs with ⟨_, hc⟩ | ⟨h1, _⟩
    · rw [hc]
    · exact absurd h1 h
  · intro h
    rcases parkAt_cases w r v hs with ⟨h1, _⟩ | ⟨_, hc⟩
    · exact absurd h h1
    · rw [hc]
      exact ⟨rfl, rfl, List.getElem?_set_self hlt⟩
  · intro h
    rcases unparkAt_cases w r hs with ⟨h1, _⟩ | ⟨_, hc⟩
    · exact absurd h h1
    · rw [hc]
      exact ⟨rfl, rfl, List.getElem?_set_self hlt⟩

/-- Witness for C16: the MEDIUM spot of the example lot, `EMPTY` as built,
takes the example Car and refuses to be emptied. -/
theorem park_unpark_guards_witness :
    exampleWorld.heap[1]? = some (ParkingSpot.new 2 .MEDIUM)
      ∧ (parkAt exampleWorld 1 (some exampleVehicle)).1 = .ok ()
      ∧ (parkAt exampleWorld 1 (some exampleVehicle)).2.heap[1]?
          = some { id := 2, status := .OCCUPIED, type := .MEDIUM, vehicle := some exampleVehicle }
      ∧ (unparkAt exampleWorld 1).2 = exampleWorld :=
  ⟨rfl,
    ((park_unpark_guards exampleWorld 1 (ParkingSpot.new 2 .MEDIUM) (some exampleVehicle)
      rfl).2.2.2.2.1 rfl).1,
    ((park_unpark_guards exampleWorld 1 (ParkingSpot.new 2 .MEDIUM) (some exampleVehicle)
      rfl).2.2.2.2.1 rfl).2.2,
    (park_unpark_guards exampleWorld 1 (ParkingSpot.new 2 .MEDIUM) (some exampleVehicle)
      rfl).2.2.2.1 (by decide)⟩

/-! ## Tickets that have not exited -/

/-- C15: for a ticket whose `exitTime` is unset, as the constructor leaves it,
`calculateFee` throws `Not exited` and leaves the ticket, its `fee` included,
as it was. -/
theorem calculateFee_before_exit (t : Ticket) (spotType : ParkingSpotType)
    (hexit : t.exitTime = none) :
    t.calculateFee spotType = .error .NotExited
      ∧ t.calculateFeeStep spotType = (.error .NotExited, t)
      ∧ (t.calculateFeeStep spotType).2.fee = t.fee := by
  have h : t.calculateFee spotType = .error .NotExited := by
    simp [Ticket.calculateFee, Ticket.exitTimeFalsy, hexit]
  refine ⟨h, ?_, ?_⟩ <;> simp [Ticket.calculateFeeStep, h]

/-- Witness for C15: a ticket fresh from the constructor. -/
theorem calculateFee_before_exit_witness :
    (Ticket.new 7 exampleVehicle 1 7).exitTime = none
      ∧ (Ticket.new 7 exampleVehicle 1 7).calculateFeeStep .MEDIUM
          = (.error .NotExited, Ticket.new 7 exampleVehicle 1 7)
      ∧ ((Ticket.new 7 exampleVehicle 1 7).calculateFeeStep .MEDIUM).2.fee = 0 :=
  ⟨rfl, (calculateFee_before_exit (Ticket.new 7 exampleVehicle 1 7) .MEDIUM rfl).2.1,
    (calculateFee_before_exit (Ticket.new 7 exampleVehicle 1 7) .MEDIUM rfl).2.2⟩

/-- C20 at its failing input: a ticket whose `exitTime` has been assigned the
timestamp `0` — by hand, or by a `checkOut` at clock reading `0` — is told
`Not exited`; any other integer timestamp gets a fee. -/
theorem calculateFee_exitTime_zero :
    ({ id := 0, vehicle := exampleVehicle, spot := 1, entryTime := 0, exitTime := some 0,
       fee := 0 } : Ticket).calculateFee .MEDIUM = .error .NotExited
      ∧ (checkOut (checkIn exampleWorld (-600000) (-600000) exampleVehicle).2 0 0 "CARD").1
          = .error .NotExited
      ∧ ((checkOut (checkIn exampleWorld (-600000) (-600000) exampleVehicle).2 0 0
            "CARD").2.tickets.map fun t => t.exitTime) = [some 0]
      ∧ ({ id := 0, vehicle := exampleVehicle, spot := 1, entryTime := 0, exitTime := some 1,
           fee := 0 } : Ticket).calculateFee .MEDIUM
          = .ok (50, { id := 0, vehicle := exampleVehicle, spot := 1, entryTime := 0,
                       exitTime := some 1, fee := 50 })
      ∧ ({ id := 0, vehicle := exampleVehicle, spot := 1, entryTime := 0, exitTime := some (-1),
           fee := 0 } : Ticket).calculateFee .MEDIUM
          = .ok (50, { id := 0, vehicle := exampleVehicle, spot := 1, entryTime := 0,
                       exitTime := some (-1), fee := 50 }) :=
  ⟨rfl, rfl, rfl, rfl, rfl⟩

/-- Witness for C13: after a direct `parkVehicle`, a refused second one, a
`checkIn`, a `checkOut` and an `unparkVehicle` on the example spots, the
MEDIUM spot is `OCCUPIED` and holds the car parked first. -/
theorem spot_occupied_iff_vehicle_witness :
    ({ id := 2, status := .OCCUPIED, type := .MEDIUM, vehicle := some otherVehicle }
        : ParkingSpot).status = .OCCUPIED
      ↔ ({ id := 2, status := .OCCUPIED, type := .MEDIUM, vehicle := some otherVehicle }
        : ParkingSpot).vehicle ≠ none :=
  spot_occupied_iff_vehicle [(1, .SMALL), (2, .MEDIUM), (3, .LARGE)] exampleWorld.floors
    [.parkVehicle 1 (some otherVehicle), .parkVehicle 1 (some exampleVehicle),
     .panel (.checkIn 5 5 (.Motorcycle "M1" "Black" 150)), .panel (.checkOut 0 600005 "CARD"),
     .unparkVehicle 2]
    (by decide)
    { id := 2, status := .OCCUPIED, type := .MEDIUM, vehicle := some otherVehicle } (by decide)

/-! ## Inverting a call that returned -/

theorem checkIn_ok_inv {w : World} {idNow entryNow : Int} {v : Vehicle} {k : TicketRef}
    (hok : (checkIn w idNow entryNow v).1 = .ok k) :
    ∃ ty l1 f l2 r rest s, requiredType v = some ty
      ∧ sortFloors w.floors = l1 ++ f :: l2
      ∧ (∀ g ∈ l1, g.availableSpotsByType.get ty = [])
      ∧ f.availableSpotsByType.get ty = r :: rest
      ∧ w.heap[r]? = some s ∧ s.status = .EMPTY ∧ k = w.tickets.length
      ∧ checkIn w idNow entryNow v = (.ok k, assigned w idNow entryNow v ty l1 f l2 r rest s) := by
  cases hv : requiredType v with
  | none =>
    rw [checkIn_plain w idNow entryNow v hv] at hok
    split at hok <;> cases hok
  | some ty =>
    rcases checkIn_cases w idNow entryNow v hv with ⟨_, hc⟩ | ⟨l1, f, l2, r, rest, h1, h2, h3, h4⟩
    · rw [hc] at hok
      cases hok
    · rcases h4 with ⟨_, hc⟩ | ⟨s, _, _, hc⟩ | ⟨s, hs, hse, hc⟩
      · rw [hc] at hok
        cases hok
      · rw [hc] at hok
        cases hok
      · rw [hc] at hok
        cases hok
        exact ⟨ty, l1, f, l2, r, rest, s, rfl, h1, h2, h3, hs, hse, rfl, hc⟩

theorem checkOut_ok_inv {w : World} {k : TicketRef} {now : Int} {method : String}
    {receipt : Receipt} (hok : (checkOut w k now method).1 = .ok receipt) :
    ∃ t s l1 f l2, w.tickets[k]? = some t ∧ w.heap[t.spot]? = some s ∧ now ≠ 0
      ∧ s.status = .OCCUPIED
      ∧ w.floors = l1 ++ f :: l2 ∧ (∀ g ∈ l1, t.spot ∉ g.spots) ∧ t.spot ∈ f.spots
      ∧ receipt = { fee := specFee s.type t.entryTime now, status := "PAID" }
      ∧ checkOut w k now method
        = (.ok receipt, released w k t now (specFee s.type t.entryTime now) method s l1 f l2) := by
  cases ht : w.tickets[k]? with
  | none =>
    rw [checkOut_no_ticket w k now method ht] at hok
    cases hok
  | some t =>
    cases hs : w.heap[t.spot]? with
    | none =>
      rw [checkOut_no_spot w k now method ht hs] at hok
      cases hok
    | some s =>
      rcases checkOut_cases w k now method ht hs with ⟨_, hc⟩ | ⟨_, _, hc⟩ | ⟨_, _, _, hc⟩ |
        ⟨h0, hocc, l1, f, l2, h1, h2, h3, hc⟩
      · rw [hc] at hok
        cases hok
      · rw [hc] at hok
        cases hok
      · rw [hc] at hok
        cases hok
      · rw [hc] at hok
        cases hok
        exact ⟨t, s, l1, f, l2, rfl, hs, h0, hocc, h1, h2, h3, rfl, hc⟩

/-! ## A closed ticket -/

theorem typeAt_eq_some {heap : Heap} {r : SpotRef} {ty : ParkingSpotType}
    (h : typeAt heap r = some ty) : ∃ s, heap[r]? = some s ∧ s.type = ty := by
  unfold typeAt at h
  cases hs : heap[r]? with
  | none =>
    rw [hs] at h
    cases h
  | some s =>
    rw [hs] at h
    exact ⟨s, rfl, Option.some.inj h⟩

theorem checkIn_ticket_same (w : World) (idNow entryNow : Int) (v : Vehicle) {k : TicketRef}
    {t : Ticket} (ht : w.tickets[k]? = some t) :
    (checkIn w idNow entryNow v).2.tickets[k]? = some t := by
  cases hv : requiredType v with
  | none =>
    rw [checkIn_plain w idNow entryNow v hv]
    exact ht
  | some ty =>
    rcases checkIn_cases w idNow entryNow v hv with ⟨_, hc⟩ | ⟨l1, f, l2, r, rest, _, _, _, h4⟩
    · rw [hc]
      exact ht
    · rcases h4 with ⟨_, hc⟩ | ⟨s, _, _, hc⟩ | ⟨s, _, _, hc⟩
      · rw [hc]
        exact ht
      · rw [hc]
        exact ht
      · rw [hc]
        show (w.tickets ++ [_])[k]? = some t
        rw [List.getElem?_append_left (List.getElem?_eq_some.mp ht).1]
        exact ht

theorem checkOut_other_ticket_same (w : World) (j : TicketRef) (now : Int) (method : String)
    {k : TicketRef} (hjk : j ≠ k) :
    (checkOut w j now method).2.tickets[k]? = w.tickets[k]? := by
  cases ht : w.tickets[j]? with
  | none => rw [checkOut_no_ticket w j now method ht]
  | some t =>
    cases hs : w.heap[t.spot]? with
    | none =>
      rw [checkOut_no_spot w j now method ht hs]
      exact List.getElem?_set_ne hjk
    | some s =>
      rcases checkOut_cases w j now method ht hs with ⟨_, hc⟩ | ⟨_, _, hc⟩ | ⟨_, _, _, hc⟩ |
        ⟨_, _, l1, f, l2, _, _, _, hc⟩ <;>
        · rw [hc]
          exact List.getElem?_set_ne hjk

theorem run_ticket_same (k : TicketRef) (ops : List Op)
    (hother : ∀ op ∈ ops, op.isCheckOutOf k = false) :
    ∀ (w : World) (t : Ticket), w.tickets[k]? = some t → (run w ops).tickets[k]? = some t := by
  induction ops with
  | nil =>
    intro w t ht
    exact ht
  | cons op ops ih =>
    intro w t ht
    apply ih (fun o ho => hother o (List.mem_cons_of_mem _ ho)) (step w op) t
    have hop := hother op (List.mem_cons_self _ _)
    cases op with
    | checkIn idNow entryNow v => exact checkIn_ticket_same w idNow entryNow v ht
    | checkOut j now method =>
      have hjk : j ≠ k := by
        simpa [Op.isCheckOutOf] using hop
      show (checkOut w j now method).2.tickets[k]? = some t
      rw [checkOut_other_ticket_same w j now method hjk]
      exact ht

theorem checkOut_stamps_ticket (w : World) (k : TicketRef) (now : Int) (method : String)
    {t : Ticket} (ht : w.tickets[k]? = some t) :
    ∃ t2, (checkOut w k now method).2.tickets[k]? = some t2 ∧ t2.exitTime = some now
      ∧ ∀ ty, typeAt w.heap t.spot = some ty → now ≠ 0 →
          t2.fee = specFee ty t.entryTime now := by
  have hklt : k < w.tickets.length := (List.getElem?_eq_some.mp ht).1
  cases hs : w.heap[t.spot]? with
  | none =>
    rw [checkOut_no_spot w k now method ht hs]
    refine ⟨{ t with exitTime := some now }, List.getElem?_set_self hklt, rfl, ?_⟩
    intro ty hty
    unfold typeAt at hty
    rw [hs] at hty
    cases hty
  | some s =>
    have hty2 : ∀ ty, typeAt w.heap t.spot = some ty → s.type = ty := by
      intro ty hty
      rw [typeAt_of_getElem hs] at hty
      exact Option.some.inj hty
    rcases checkOut_cases w k now method ht hs with ⟨h0, hc⟩ | ⟨_, _, hc⟩ | ⟨_, _, _, hc⟩ |
      ⟨_, _, l1, f, l2, _, _, _, hc⟩
    · rw [hc]
      exact ⟨{ t with exitTime := some now }, List.getElem?_set_self hklt, rfl,
        fun _ _ hne => absurd h0 hne⟩
    · rw [hc]
      refine ⟨{ t with exitTime := some now, fee := specFee s.type t.entryTime now },
        List.getElem?_set_self hklt, rfl, ?_⟩
      intro ty hty _
      rw [← hty2 ty hty]
    · rw [hc]
      refine ⟨{ t with exitTime := some now, fee := specFee s.type t.entryTime now },
        List.getElem?_set_self hklt, rfl, ?_⟩
      intro ty hty _
      rw [← hty2 ty hty]
    · rw [hc]
      refine ⟨{ t with exitTime := some now, fee := specFee s.type t.entryTime now },
        List.getElem?_set_self hklt, rfl, ?_⟩
      intro ty hty _
      rw [← hty2 ty hty]

/-- C14, as it holds: once a `checkOut` of a ticket has returned, the ticket
carries the exit time and the fee of that check-out, and keeps them (the
ticket object is not touched) through every later `checkIn` and every later
`checkOut` of another ticket; a later `checkOut` attempt on the same ticket
overwrites `exitTime` with its own clock reading and, when that reading is
nonzero and less than `2^53` milliseconds from the entry time, `fee` with the
fee `calculateFee` computes from it. -/
theorem closed_ticket_kept_by_other_calls (w : World) (k : TicketRef) (now1 : Int)
    (method1 : String) (receipt : Receipt) (w1 : World)
    (hfirst : checkOut w k now1 method1 = (.ok receipt, w1)) (ops : List Op)
    (hother : ∀ op ∈ ops, op.isCheckOutOf k = false) (now2 : Int) (method2 : String) :
    ∃ t, w1.tickets[k]? = some t ∧ t.exitTime = some now1 ∧ t.fee = receipt.fee
      ∧ (run w1 ops).tickets[k]? = some t
      ∧ ∃ t2, (checkOut (run w1 ops) k now2 method2).2.tickets[k]? = some t2
          ∧ t2.exitTime = some now2
          ∧ (now2 ≠ 0 → -(2 ^ 53) < now2 - t.entryTime → now2 - t.entryTime < 2 ^ 53 →
              ∃ ty, typeAt w1.heap t.spot = some ty
                ∧ Ticket.calculateFeeBinary64 { t with exitTime := some now2 } ty
                    = .ok (t2.fee, { t with exitTime := some now2, fee := t2.fee })
                ∧ t2.fee = specFee ty t.entryTime now2) := by
  have hok : (checkOut w k now1 method1).1 = .ok receipt := by rw [hfirst]
  obtain ⟨t0, s, l1, f, l2, ht0, hs, _, _, _, _, _, hrc, hc⟩ := checkOut_ok_inv hok
  rw [hc] at hfirst
  cases hfirst
  have hklt : k < w.tickets.length := (List.getElem?_eq_some.mp ht0).1
  have ht1 : (released w k t0 now1 (specFee s.type t0.entryTime now1) method1 s l1 f
      l2).tickets[k]?
      = some { t0 with exitTime := some now1, fee := specFee s.type t0.entryTime now1 } := by
    show (w.tickets.set k _)[k]? = _
    rw [List.getElem?_set_self hklt]
  have hrun := run_ticket_same k ops hother _ _ ht1
  have hty1 : typeAt (released w k t0 now1 (specFee s.type t0.entryTime now1) method1 s l1 f
      l2).heap t0.spot = some s.type := by
    show typeAt (w.heap.set t0.spot _) t0.spot = some s.type
    rw [typeAt_set hs { s with vehicle := none, status := .EMPTY } rfl, typeAt_of_getElem hs]
  refine ⟨_, ht1, rfl, by rw [hrc], hrun, ?_⟩
  obtain ⟨t2, h2, h3, h4⟩ := checkOut_stamps_ticket _ k now2 method2 hrun
  refine ⟨t2, h2, h3, fun hne hlo hhi => ⟨s.type, hty1, ?_⟩⟩
  have hfee : t2.fee = specFee s.type t0.entryTime now2 := by
    apply h4 s.type _ hne
    rw [(run_continues _ ops).2.1]
    exact hty1
  have hb := calculateFeeBinary64_eq
    { t0 with exitTime := some now2, fee := specFee s.type t0.entryTime now1 } s.type now2 rfl
    hlo hhi
  have hi := calculateFee_eq
    { t0 with exitTime := some now2, fee := specFee s.type t0.entryTime now1 } s.type now2 rfl
    hne
  refine ⟨?_, hfee⟩
  rw [hfee]
  exact hb.trans hi

/-- Witness for C14: the example's ticket, closed at ten minutes, is untouched
by the check-in of another car; a second check-out attempt two and a half
hours after entry re-stamps it with a fee of 150. -/
theorem closed_ticket_kept_by_other_calls_witness :
    ∃ t, closedOnce.tickets[0]? = some t ∧ t.exitTime = some 1700000600000 ∧ t.fee = 50
      ∧ (run closedOnce [.checkIn 1700000700000 1700000700000 otherVehicle]).tickets[0]? = some t
      ∧ ∃ t2, (checkOut (run closedOnce [.checkIn 1700000700000 1700000700000 otherVehicle]) 0
            1700009000000 "CASH").2.tickets[0]? = some t2
          ∧ t2.exitTime = some 1700009000000
          ∧ ((1700009000000 : Int) ≠ 0 → -(2 ^ 53) < 1700009000000 - t.entryTime →
              1700009000000 - t.entryTime < 2 ^ 53 →
              ∃ ty, typeAt closedOnce.heap t.spot = some ty
                ∧ Ticket.calculateFeeBinary64 { t with exitTime := some 1700009000000 } ty
                    = .ok (t2.fee, { t with exitTime := some 1700009000000, fee := t2.fee })
                ∧ t2.fee = specFee ty t.entryTime 1700009000000) :=
  closed_ticket_kept_by_other_calls
    (checkIn exampleWorld 1700000000000 1700000000000 exampleVehicle).2 0 1700000600000 "CARD"
    { fee := 50, status := "PAID" } closedOnce rfl
    [.checkIn 1700000700000 1700000700000 otherVehicle] (by decide) 1700009000000 "CASH"

/-- C14 fails as stated: a second `checkOut` attempt on the example's closed
ticket, two and a half hours after entry, throws `Spot empty` — and leaves the
ticket with the new exit time and a fee of 150 in place of 50. -/
theorem closed_ticket_overwritten_by_second_checkOut :
    (closedOnce.tickets.map fun t => (t.exitTime, t.fee)) = [(some 1700000600000, 50)]
      ∧ (checkOut closedOnce 0 1700009000000 "CARD").1 = .error .SpotEmpty
      ∧ ((checkOut closedOnce 0 1700009000000 "CARD").2.tickets.map
          fun t => (t.exitTime, t.fee)) = [(some 1700009000000, 150)] := by
  refine ⟨rfl, rfl, by decide⟩

/-! ## First in, first out -/

/-- C18: a `checkIn` that returns takes the head of the free list, for the
vehicle's size, of the floor it allocates on — the list keeps its remaining
spots in order — and puts that spot on the ticket; a `checkOut` that returns
appends the released spot at the tail of the free list, for the spot's size,
of the spot's floor.  The free list is thus a queue: of the free spots of one
size on a floor, the one longest in the list is the next to be assigned. -/
theorem free_list_is_a_queue (w : World) :
    (∀ (idNow entryNow : Int) (v : Vehicle) (k : TicketRef),
        (checkIn w idNow entryNow v).1 = .ok k →
        ∃ ty l1 F l2 r rest t F1, requiredType v = some ty
          ∧ sortFloors w.floors = l1 ++ F :: l2
          ∧ F.availableSpotsByType.get ty = r :: rest
          ∧ (checkIn w idNow entryNow v).2.tickets[k]? = some t ∧ t.spot = r
          ∧ (checkIn w idNow entryNow v).2.floors = l1 ++ F1 :: l2
          ∧ F1.id = F.id ∧ F1.floorNumber = F.floorNumber ∧ F1.spots = F.spots
          ∧ F1.availableSpotsByType.get ty = rest)
      ∧ (∀ (k : TicketRef) (now : Int) (method : String) (receipt : Receipt),
        (checkOut w k now method).1 = .ok receipt →
        ∃ t s l1 F l2 F1, w.tickets[k]? = some t ∧ w.heap[t.spot]? = some s
          ∧ w.floors = l1 ++ F :: l2 ∧ t.spot ∈ F.spots ∧ (∀ g ∈ l1, t.spot ∉ g.spots)
          ∧ (checkOut w k now method).2.floors = l1 ++ F1 :: l2
          ∧ F1.id = F.id ∧ F1.floorNumber = F.floorNumber ∧ F1.spots = F.spots
          ∧ F1.availableSpotsByType.get s.type
              = F.availableSpotsByType.get s.type ++ [t.spot]) := by
  constructor
  · intro idNow entryNow v k hok
    obtain ⟨ty, l1, f, l2, r, rest, s, hv, h1, _, h3, _, _, hk, hc⟩ := checkIn_ok_inv hok
    rw [hc]
    subst hk
    exact ⟨ty, l1, f, l2, r, rest, Ticket.new idNow v r entryNow, f.setAvailable ty rest, hv, h1,
      h3, by simp [assigned], rfl, rfl, rfl, rfl, rfl, setAvailable_get_self f ty rest⟩
  · intro k now method receipt hok
    obtain ⟨t, s, l1, f, l2, ht, hs, _, _, h1, h2, h3, _, hc⟩ := checkOut_ok_inv hok
    rw [hc]
    exact ⟨t, s, l1, f, l2, _, ht, hs, h1, h3, h2, rfl, rfl, rfl, rfl,
      setAvailable_get_self f s.type _⟩

/-- Witness for C18: on the lot of two MEDIUM spots and one SMALL spot, floor
1 has the free SMALL spot 2; a motorcycle takes it, leaves, and the spot is
back on floor 1's SMALL list. -/
theorem free_list_is_a_queue_witness :
    (∃ ty l1 F l2 r rest t F1, requiredType (.Motorcycle "M1" "Black" 150) = some ty
        ∧ sortFloors threeSpotWorld.floors = l1 ++ F :: l2
        ∧ F.availableSpotsByType.get ty = r :: rest
        ∧ (checkIn threeSpotWorld 1 1 (.Motorcycle "M1" "Black" 150)).2.tickets[0]? = some t
        ∧ t.spot = r
        ∧ (checkIn threeSpotWorld 1 1 (.Motorcycle "M1" "Black" 150)).2.floors = l1 ++ F1 :: l2
        ∧ F1.id = F.id ∧ F1.floorNumber = F.floorNumber ∧ F1.spots = F.spots
        ∧ F1.availableSpotsByType.get ty = rest)
      ∧ ∃ t s l1 F l2 F1,
          (checkIn threeSpotWorld 1 1 (.Motorcycle "M1" "Black" 150)).2.tickets[0]? = some t
          ∧ (checkIn threeSpotWorld 1 1 (.Motorcycle "M1" "Black" 150)).2.heap[t.spot]? = some s
          ∧ (checkIn threeSpotWorld 1 1 (.Motorcycle "M1" "Black" 150)).2.floors
              = l1 ++ F :: l2
          ∧ t.spot ∈ F.spots ∧ (∀ g ∈ l1, t.spot ∉ g.spots)
          ∧ (checkOut (checkIn threeSpotWorld 1 1 (.Motorcycle "M1" "Black" 150)).2 0 600001
              "CARD").2.floors = l1 ++ F1 :: l2
          ∧ F1.id = F.id ∧ F1.floorNumber = F.floorNumber ∧ F1.spots = F.spots
          ∧ F1.availableSpotsByType.get s.type
              = F.availableSpotsByType.get s.type ++ [t.spot] :=
  ⟨(free_list_is_a_queue threeSpotWorld).1 1 1 (.Motorcycle "M1" "Black" 150) 0 rfl,
    (free_list_is_a_queue (checkIn threeSpotWorld 1 1 (.Motorcycle "M1" "Black" 150)).2).2 0
      600001 "CARD" { fee := 10, status := "PAID" } rfl⟩

/-! ## What a call leaves alone -/

theorem counts_setAvailable_self (f : ParkingFloor) (ty : ParkingSpotType)
    (free : List SpotRef) :
    (f.setAvailable ty free).getAvailableCounts.get ty = free.length := by
  unfold ParkingFloor.getAvailableCounts
  rw [TypeMap.get_ofFn, setAvailable_get_self]

theorem counts_setAvailable_ne (f : ParkingFloor) {ty u : ParkingSpotType} (h : u ≠ ty)
    (free : List SpotRef) :
    (f.setAvailable ty free).getAvailableCounts.get u = f.getAvailableCounts.get u := by
  unfold ParkingFloor.getAvailableCounts
  rw [TypeMap.get_ofFn, TypeMap.get_ofFn, setAvailable_get_ne f h]

theorem counts_get (f : ParkingFloor) (ty : ParkingSpotType) :
    f.getAvailableCounts.get ty = (f.availableSpotsByType.get ty).length := by
  unfold ParkingFloor.getAvailableCounts
  rw [TypeMap.get_ofFn]

/-- C19: a `checkIn` that returns, for a vehicle of required size `ty`,
replaces one floor `F` of the lot by a floor `F1` whose free count for `ty`
is lower by exactly 1 and whose other counts are those of `F`; every other
floor is as it was (the floors list being in floor-number order afterwards),
and every spot other than the one on the ticket is as it was.  A `checkOut`
that returns replaces the floor of the ticket's spot by one whose free count
for the spot's size is higher by exactly 1 and whose other counts are
unchanged; every other floor and every other spot is as it was. -/
theorem checkIn_checkOut_frame (w : World) :
    (∀ (idNow entryNow : Int) (v : Vehicle) (k : TicketRef),
        (checkIn w idNow entryNow v).1 = .ok k →
        ∃ ty l1 F l2 t F1, requiredType v = some ty
          ∧ sortFloors w.floors = l1 ++ F :: l2
          ∧ (checkIn w idNow entryNow v).2.floors = l1 ++ F1 :: l2
          ∧ (checkIn w idNow entryNow v).2.tickets[k]? = some t
          ∧ F1.getAvailableCounts.get ty + 1 = F.getAvailableCounts.get ty
          ∧ (∀ u, u ≠ ty → F1.getAvailableCounts.get u = F.getAvailableCounts.get u)
          ∧ (∀ q, q ≠ t.spot → (checkIn w idNow entryNow v).2.heap[q]? = w.heap[q]?))
      ∧ (∀ (k : TicketRef) (now : Int) (method : String) (receipt : Receipt),
        (checkOut w k now method).1 = .ok receipt →
        ∃ t s l1 F l2 F1, w.tickets[k]? = some t ∧ w.heap[t.spot]? = some s
          ∧ w.floors = l1 ++ F :: l2 ∧ t.spot ∈ F.spots
          ∧ (checkOut w k now method).2.floors = l1 ++ F1 :: l2
          ∧ F1.getAvailableCounts.get s.type = F.getAvailableCounts.get s.type + 1
          ∧ (∀ u, u ≠ s.type → F1.getAvailableCounts.get u = F.getAvailableCounts.get u)
          ∧ (∀ q, q ≠ t.spot → (checkOut w k now method).2.heap[q]? = w.heap[q]?)) := by
  constructor
  · intro idNow entryNow v k hok
    obtain ⟨ty, l1, f, l2, r, rest, s, hv, h1, _, h3, _, _, hk, hc⟩ := checkIn_ok_inv hok
    rw [hc]
    subst hk
    refine ⟨ty, l1, f, l2, Ticket.new idNow v r entryNow, f.setAvailable ty rest, hv, h1, rfl,
      by simp [assigned], ?_, fun u hu => counts_setAvailable_ne f hu rest, ?_⟩
    · rw [counts_setAvailable_self, counts_get, h3]
      rfl
    · intro q hq
      show (w.heap.set r _)[q]? = w.heap[q]?
      exact List.getElem?_set_ne (Ne.symm hq)
  · intro k now method receipt hok
    obtain ⟨t, s, l1, f, l2, ht, hs, _, _, h1, _, h3, _, hc⟩ := checkOut_ok_inv hok
    rw [hc]
    refine ⟨t, s, l1, f, l2, _, ht, hs, h1, h3, rfl, ?_,
      fun u hu => counts_setAvailable_ne f hu _, ?_⟩
    · rw [counts_setAvailable_self, counts_get, List.length_append]
      rfl
    · intro q hq
      show (w.heap.set t.spot _)[q]? = w.heap[q]?
      exact List.getElem?_set_ne (Ne.symm hq)

/-- Witness for C19: the example Car checks in on the example lot and checks
out again. -/
theorem checkIn_checkOut_frame_witness :
    (∃ ty l1 F l2 t F1, requiredType exampleVehicle = some ty
        ∧ sortFloors exampleWorld.floors = l1 ++ F :: l2
        ∧ (checkIn exampleWorld 1700000000000 1700000000000 exampleVehicle).2.floors
            = l1 ++ F1 :: l2
        ∧ (checkIn exampleWorld 1700000000000 1700000000000 exampleVehicle).2.tickets[0]?
            = some t
        ∧ F1.getAvailableCounts.get ty + 1 = F.getAvailableCounts.get ty
        ∧ (∀ u, u ≠ ty → F1.getAvailableCounts.get u = F.getAvailableCounts.get u)
        ∧ (∀ q, q ≠ t.spot →
            (checkIn exampleWorld 1700000000000 1700000000000 exampleVehicle).2.heap[q]?
              = exampleWorld.heap[q]?))
      ∧ ∃ t s l1 F l2 F1,
          (checkIn exampleWorld 1700000000000 1700000000000 exampleVehicle).2.tickets[0]?
            = some t
          ∧ (checkIn exampleWorld 1700000000000 1700000000000 exampleVehicle).2.heap[t.spot]?
            = some s
          ∧ (checkIn exampleWorld 1700000000000 1700000000000 exampleVehicle).2.floors
            = l1 ++ F :: l2
          ∧ t.spot ∈ F.spots
          ∧ closedOnce.floors = l1 ++ F1 :: l2
          ∧ F1.getAvailableCounts.get s.type = F.getAvailableCounts.get s.type + 1
          ∧ (∀ u, u ≠ s.type → F1.getAvailableCounts.get u = F.getAvailableCounts.get u)
          ∧ (∀ q, q ≠ t.spot →
              closedOnce.heap[q]?
                = (checkIn exampleWorld 1700000000000 1700000000000
                    exampleVehicle).2.heap[q]?) :=
  ⟨(checkIn_checkOut_frame exampleWorld).1 1700000000000 1700000000000 exampleVehicle 0 rfl,
    (checkIn_checkOut_frame
      (checkIn exampleWorld 1700000000000 1700000000000 exampleVehicle).2).2 0 1700000600000
      "CARD" { fee := 50, status := "PAID" } rfl⟩

/-! ## Two check-ins for the last free spot

`checkIn` is an `async` function with no `await` in its body: a call runs
from its first statement to its `return` or `throw` before any other code
runs.  Two check-ins issued at the same time are therefore carried out whole,
one after the other, in one of the two orders. -/

theorem checkIn_takes_last_spot {w : World} (hwf : WellFormed w) {ty : ParkingSpotType}
    {r0 : SpotRef} (hr0 : r0 ∈ allSpots w) (hfree : FreeAt w.heap ty r0)
    (honly : ∀ q ∈ allSpots w, FreeAt w.heap ty q → q = r0) (idNow1 entryNow1 : Int)
    (idNow2 entryNow2 : Int) (v1 v2 : Vehicle) (hv1 : requiredType v1 = some ty)
    (hv2 : requiredType v2 = some ty) :
    ∃ k t, (checkIn w idNow1 entryNow1 v1).1 = .ok k
      ∧ (checkIn w idNow1 entryNow1 v1).2.tickets[k]? = some t
      ∧ t.spot = r0 ∧ t.vehicle = v1
      ∧ (checkIn (checkIn w idNow1 entryNow1 v1).2 idNow2 entryNow2 v2).1 = .error .NoSpots
      ∧ vehicleAt (checkIn (checkIn w idNow1 entryNow1 v1).2 idNow2 entryNow2 v2).2.heap r0
          = some (some v1) := by
  rcases checkIn_wf_cases hwf idNow1 entryNow1 v1 hv1 with ⟨hall, _⟩ |
    ⟨l1, f, l2, r, rest, s, h1, h2, h3, hs, hst, hse, hr, hwa, hc⟩
  · exfalso
    obtain ⟨g, hg, hrg⟩ := List.mem_flatMap.mp hr0
    have := ((hwf.index g hg ty).2 r0).mpr ⟨hrg, hfree⟩
    rw [hall g hg] at this
    cases this
  · have hfm : f ∈ w.floors := mem_sortFloors.mp (by rw [h1]; simp)
    have hrr : r = r0 := honly r (mem_allSpots hfm hr) ⟨s, hs, hst, hse⟩
    subst hrr
    have hlt : r < w.heap.length := (List.getElem?_eq_some.mp hs).1
    rw [hc]
    refine ⟨w.tickets.length, Ticket.new idNow1 v1 r entryNow1, rfl, by simp [assigned], rfl,
      rfl, ?_⟩
    rcases checkIn_wf_cases hwa idNow2 entryNow2 v2 hv2 with ⟨_, hc2⟩ |
      ⟨n1, f1, n2, r1, rest1, s1, c1, _, _, cs, cst, cse, cr, _, _⟩
    · rw [hc2]
      refine ⟨rfl, ?_⟩
      show vehicleAt (w.heap.set r _) r = some (some v1)
      simp [vehicleAt, List.getElem?_set_self hlt]
    · exfalso
      have hf1 : f1 ∈ (assigned w idNow1 entryNow1 v1 ty l1 f l2 r rest s).floors :=
        mem_sortFloors.mp (by rw [c1]; simp)
      have hmem : r1 ∈ allSpots w := by
        have h4 := mem_allSpots hf1 cr
        unfold allSpots assigned at h4
        simp only at h4
        rw [flatMap_spots_update, ← h1] at h4
        exact (sortFloors_flatMap_spots w.floors).mem_iff.mp h4
      have cs2 : (w.heap.set r { s with vehicle := some v1, status := .OCCUPIED })[r1]? = some s1 :=
        cs
      by_cases hr1 : r1 = r
      · subst hr1
        rw [List.getElem?_set_self hlt] at cs2
        cases cs2
        cases cse
      · rw [List.getElem?_set_ne (Ne.symm hr1)] at cs2
        exact hr1 (honly r1 hmem ⟨s1, cs2, cst, cse⟩)

/-- C17: on a well-formed lot with exactly one `EMPTY` spot of a size class,
two check-ins of vehicles of that class, issued together and so carried out
one after the other in either order: the one carried out first returns with
a ticket for that spot, the other throws `No spots`, and the spot holds the
first one's vehicle — in neither order do both get the spot. -/
theorem last_spot_goes_to_exactly_one (w : World) (hwf : WellFormed w) (ty : ParkingSpotType)
    (r0 : SpotRef) (hr0 : r0 ∈ allSpots w) (hfree : FreeAt w.heap ty r0)
    (honly : ∀ q ∈ allSpots w, FreeAt w.heap ty q → q = r0) (v1 v2 : Vehicle)
    (hv1 : requiredType v1 = some ty) (hv2 : requiredType v2 = some ty)
    (idNow1 entryNow1 idNow2 entryNow2 : Int) :
    (∃ k t, (checkIn w idNow1 entryNow1 v1).1 = .ok k
        ∧ (checkIn w idNow1 entryNow1 v1).2.tickets[k]? = some t
        ∧ t.spot = r0 ∧ t.vehicle = v1
        ∧ (checkIn (checkIn w idNow1 entryNow1 v1).2 idNow2 entryNow2 v2).1 = .error .NoSpots
        ∧ vehicleAt (checkIn (checkIn w idNow1 entryNow1 v1).2 idNow2 entryNow2 v2).2.heap r0
            = some (some v1))
      ∧ (∃ k t, (checkIn w idNow2 entryNow2 v2).1 = .ok k
        ∧ (checkIn w idNow2 entryNow2 v2).2.tickets[k]? = some t
        ∧ t.spot = r0 ∧ t.vehicle = v2
        ∧ (checkIn (checkIn w idNow2 entryNow2 v2).2 idNow1 entryNow1 v1).1 = .error .NoSpots
        ∧ vehicleAt (checkIn (checkIn w idNow2 entryNow2 v2).2 idNow1 entryNow1 v1).2.heap r0
            = some (some v2)) :=
  ⟨checkIn_takes_last_spot hwf hr0 hfree honly idNow1 entryNow1 idNow2 entryNow2 v1 v2 hv1 hv2,
    checkIn_takes_last_spot hwf hr0 hfree honly idNow2 entryNow2 idNow1 entryNow1 v2 v1 hv2 hv1⟩

/-- Witness for C17: the example lot has one MEDIUM spot; of two cars arriving
together, whichever is served first gets it and the other is turned away. -/
theorem last_spot_goes_to_exactly_one_witness :
    (∃ k t, (checkIn exampleWorld 5 5 exampleVehicle).1 = .ok k
        ∧ (checkIn exampleWorld 5 5 exampleVehicle).2.tickets[k]? = some t
        ∧ t.spot = 1 ∧ t.vehicle = exampleVehicle
        ∧ (checkIn (checkIn exampleWorld 5 5 exampleVehicle).2 6 6 otherVehicle).1
            = .error .NoSpots
        ∧ vehicleAt (checkIn (checkIn exampleWorld 5 5 exampleVehicle).2 6 6
            otherVehicle).2.heap 1 = some (some exampleVehicle))
      ∧ (∃ k t, (checkIn exampleWorld 6 6 otherVehicle).1 = .ok k
        ∧ (checkIn exampleWorld 6 6 otherVehicle).2.tickets[k]? = some t
        ∧ t.spot = 1 ∧ t.vehicle = otherVehicle
        ∧ (checkIn (checkIn exampleWorld 6 6 otherVehicle).2 5 5 exampleVehicle).1
            = .error .NoSpots
        ∧ vehicleAt (checkIn (checkIn exampleWorld 6 6 otherVehicle).2 5 5
            exampleVehicle).2.heap 1 = some (some otherVehicle)) :=
  last_spot_goes_to_exactly_one exampleWorld
    (newLot_wellFormed exampleHeap [{ id := 1, floorNumber := 1, spots := [0, 1, 2] }]
      (by decide) (by decide))
    .MEDIUM 1 (by decide) ⟨ParkingSpot.new 2 .MEDIUM, rfl, rfl, rfl⟩
    (fun q hq hf =>
      (by decide : ∀ q ∈ allSpots exampleWorld,
        ParkingFloor.isFree exampleWorld.heap .MEDIUM q = true → q = 1) q hq
        ((isFree_iff _ _ _).mpr hf))
    exampleVehicle otherVehicle rfl rfl 5 5 6 6

end ParkingLot
